import Mathlib

/-!
# Relay cursor pagination of the todo GraphQL server

The repository excerpt holds the integration tests of the GraphQL server
(`entgql/internal/todo/todo_test.go`) and generated builders.  The pagination
engine the tests drive is generated code that is not part of the excerpt, so
it is modelled here from the written specification (cursor codec, ordering
specification, page window resolver, page-info and total-count assembler) over
a backing store that is a finite list of rows.  The client loops, fixtures and
expected messages are taken from the test file.

The generated builders `CategoryUpdate`, `CategoryUpdateOne`
(`entgql/internal/todoplugin/ent/category_update.go`) and
`MessageWithOptionalsDelete`, `MessageWithOptionalsDeleteOne`
(`entproto/internal/entprototest/ent/messagewithoptionals_delete.go`) are
translated in the namespace `Ent`; the packages generated beside them and the
storage layer `sqlgraph` enter as parameters.
-/

namespace Pagination

/-! ## Data model -/

/-- Modelled from the spec: `OrderField`, the identifiers `TEXT`, `CREATED_AT`
and `PRIORITY` that the test queries pass as `TodoOrderField`. -/
inductive OrderField where
  | TEXT
  | CREATED_AT
  | PRIORITY
  deriving DecidableEq, Repr

/-- Modelled from the spec: `OrderDirection`, `ASC | DESC`. -/
inductive OrderDirection where
  | ASC
  | DESC
  deriving DecidableEq, Repr

/-- Values of `todo.Status` used by the tests (`IN_PROGRESS`, `COMPLETED`). -/
inductive Status where
  | IN_PROGRESS
  | COMPLETED
  deriving DecidableEq, Repr

/-- Modelled from the spec: the `Row` of the backing store interface, which
"carries enough fields to project the order key, the primary key, and requested
output fields".  `key f` is the comparable projection of the row for order
field `f`; `K` is any linearly ordered type of order values. -/
structure Row (K : Type) where
  id : Int
  key : OrderField → K
  status : Status
  parent : Option Int

/-- Modelled from the spec: the `orderBy: {field, direction}` argument.  The
field is absent when the query gives no `orderBy`; rows are then ordered by the
primary-key tie-break alone. -/
structure OrderSpec where
  field : Option OrderField
  direction : OrderDirection
  deriving DecidableEq, Repr

/-- Modelled from the spec: what a cursor resolves to, an order field value
together with a row identity. -/
structure Position (K : Type) where
  value : Option K
  id : Int

/-- Modelled from the spec: `Cursor`, a token "binding (order field value,
direction, row identity)". -/
structure Cursor (K : Type) where
  value : Option K
  direction : OrderDirection
  id : Int

/-- Modelled from the spec: the errors `InvalidArgument` and `InvalidCursor` of
the pagination core. -/
inductive PageError where
  | InvalidArgument
  | InvalidCursor
  deriving DecidableEq, Repr

/-- Modelled from the spec: `PageRequest`, the arguments `first`, `after`,
`last`, `before` of the connection query surface, each optional. -/
structure PageRequest (K : Type) where
  first : Option Int
  after : Option (Cursor K)
  last : Option Int
  before : Option (Cursor K)

/-- Modelled from the spec: `Edge`, `{node, cursor}`. -/
structure Edge (K : Type) where
  node : Row K
  cursor : Cursor K

/-- Modelled from the spec: `PageInfo`. -/
structure PageInfo (K : Type) where
  hasNextPage : Bool
  hasPreviousPage : Bool
  startCursor : Option (Cursor K)
  endCursor : Option (Cursor K)

/-- Modelled from the spec: `Connection`, `{edges, pageInfo, totalCount}`. -/
structure Connection (K : Type) where
  edges : List (Edge K)
  pageInfo : PageInfo K
  totalCount : Nat

/-- Modelled from the spec: the scan direction of one request. -/
inductive ScanDirection where
  | forward
  | backward
  deriving DecidableEq, Repr

/-- Modelled from the spec: what the page window resolver hands to the
assembler, the rows of the page in presentation order and the two page flags. -/
structure Window (K : Type) where
  rows : List (Row K)
  hasNextPage : Bool
  hasPreviousPage : Bool

/-! ## Cursor codec -/

/-- Modelled from the spec: `encode(orderValue, direction, rowID) -> Cursor`. -/
def encode {K : Type} (orderValue : Option K) (direction : OrderDirection) (rowID : Int) :
    Cursor K :=
  { value := orderValue, direction := direction, id := rowID }

/-- Modelled from the spec: `decode(Cursor, expectedOrdering)`, which fails with
`InvalidCursor` for a cursor encoded under a different ordering direction and
otherwise yields the order value and the row identity.  No row lookup is made:
"the resolver must treat absence by position, not identity lookup". -/
def decode {K : Type} (c : Cursor K) (expectedOrdering : OrderSpec) :
    Except PageError (Position K) :=
  if c.direction = expectedOrdering.direction then
    .ok { value := c.value, id := c.id }
  else
    .error .InvalidCursor

/-! ## Ordering specification -/

/-- Modelled from the spec: comparison of two order values (the "comparable
projection of a row"); an absent value sorts first. -/
def compareValue {K : Type} [LinearOrder K] (a b : Option K) : Ordering :=
  match a, b with
  | none, none => .eq
  | none, some _ => .lt
  | some _, none => .gt
  | some x, some y => if x < y then .lt else if y < x then .gt else .eq

/-- Modelled from the spec: the direction applied to a comparison of order
values. -/
def applyDirection (d : OrderDirection) (c : Ordering) : Ordering :=
  match d with
  | .ASC => c
  | .DESC => c.swap

/-- Modelled from the spec: comparison of two positions, by the order values
under the direction, then by the "primary-key as final tie-break ascending
regardless of direction". -/
def comparePos {K : Type} [LinearOrder K] (d : OrderDirection) (p q : Position K) :
    Ordering :=
  match applyDirection d (compareValue p.value q.value) with
  | .lt => .lt
  | .gt => .gt
  | .eq => if p.id < q.id then .lt else if q.id < p.id then .gt else .eq

/-- Modelled from the spec: strict precedence of two order values under a
direction. -/
def vLt {K : Type} [LinearOrder K] (d : OrderDirection) (a b : Option K) : Prop :=
  applyDirection d (compareValue a b) = .lt

/-- Modelled from the spec: the position of a row under an order field, its
order value and its primary key. -/
def position {K : Type} (field : Option OrderField) (r : Row K) : Position K :=
  { value := field.map r.key, id := r.id }

/-- Modelled from the spec: `compare(rowA, rowB, field, direction) -> {-1,0,1}`. -/
def compare {K : Type} [LinearOrder K] (rowA rowB : Row K) (field : Option OrderField)
    (direction : OrderDirection) : Ordering :=
  comparePos direction (position field rowA) (position field rowB)

/-- Modelled from the spec: the cursor emitted for a row under an ordering,
the encoding of its order value, the direction and its identity. -/
def toCursor {K : Type} (o : OrderSpec) (r : Row K) : Cursor K :=
  encode (o.field.map r.key) o.direction r.id

/-! ## Backing store -/

/-- Modelled from the spec: `count(filter) -> int` of the backing store. -/
def count {K : Type} (store : List (Row K)) (filter : Row K → Bool) : Nat :=
  (store.filter filter).length

/-- Modelled from the spec: the matching rows in the total order that the
ordering specification fixes. -/
def ordered {K : Type} [LinearOrder K] (store : List (Row K)) (filter : Row K → Bool)
    (o : OrderSpec) : List (Row K) :=
  (store.filter filter).insertionSort
    (fun a b => compare a b o.field o.direction ≠ .gt)

/-- Modelled from the spec: a row lies strictly beyond an exclusive boundary
("`after`: strictly greater in scan order; `before`: strictly less"). -/
def beyond {K : Type} [LinearOrder K] (o : OrderSpec) (dir : ScanDirection)
    (boundary : Position K) (r : Row K) : Bool :=
  match dir with
  | .forward => decide (comparePos o.direction boundary (position o.field r) = .lt)
  | .backward => decide (comparePos o.direction (position o.field r) boundary = .lt)

/-- Modelled from the spec: `scan(filter, orderSpec, boundary?, direction,
limit) -> []Row` of the backing store: the matching rows in scan order (the
canonical order, reversed for a backward scan), from the exclusive boundary on,
at most `limit` of them. -/
def scan {K : Type} [LinearOrder K] (store : List (Row K)) (filter : Row K → Bool)
    (o : OrderSpec) (boundary : Option (Position K)) (dir : ScanDirection)
    (limit : Option Nat) : List (Row K) :=
  let inScanOrder :=
    match dir with
    | .forward => ordered store filter o
    | .backward => (ordered store filter o).reverse
  let bounded :=
    match boundary with
    | none => inScanOrder
    | some b => inScanOrder.filter (beyond o dir b)
  match limit with
  | none => bounded
  | some n => bounded.take n

/-! ## Page window resolver -/

/-- Modelled from the spec: the position a boundary resolves to, counted from
the start of the scan: the number of matching rows that are not strictly beyond
the boundary in scan order. -/
def boundaryPosition {K : Type} [LinearOrder K] (store : List (Row K))
    (filter : Row K → Bool) (o : OrderSpec) (dir : ScanDirection) (b : Position K) : Nat :=
  ((store.filter filter).filter (fun r => !beyond o dir b r)).length

/-- Modelled from the spec: the page window resolver, the six steps of its
state machine over one request.
1. the scan direction comes from which of (first, after) and (last, before) is
   set; both set is `InvalidArgument`; `first`/`last` must be positive;
2. a cursor is decoded under the current ordering into the exclusive boundary;
3. up to `N+1` matching rows are fetched from the boundary in scan order (all
   of them when no count is given);
4. a backward scan is reversed into the presentation order;
5. when more than `N` rows were fetched the page is trimmed to the `N` rows
   nearest the boundary and "more exists in that direction" is flagged;
6. the opposite-direction flag is true iff a boundary cursor was supplied and
   resolves to a non-initial position. -/
def resolveWindow {K : Type} [LinearOrder K] (store : List (Row K))
    (filter : Row K → Bool) (o : OrderSpec) (req : PageRequest K) :
    Except PageError (Window K) :=
  let forwardSet := req.first.isSome || req.after.isSome
  let backwardSet := req.last.isSome || req.before.isSome
  if forwardSet && backwardSet then .error .InvalidArgument
  else
    let dir := if backwardSet then ScanDirection.backward else ScanDirection.forward
    let n := if backwardSet then req.last else req.first
    let cursor := if backwardSet then req.before else req.after
    if n.any (fun k => decide (k ≤ 0)) then .error .InvalidArgument
    else
      let decoded : Except PageError (Option (Position K)) :=
        match cursor with
        | none => .ok none
        | some c =>
          match decode c o with
          | .ok b => .ok (some b)
          | .error e => .error e
      match decoded with
      | .error e => .error e
      | .ok boundary =>
        let fetched := scan store filter o boundary dir (n.map (fun k => k.toNat + 1))
        let presented :=
          match dir with
          | .forward => fetched
          | .backward => fetched.reverse
        let more :=
          match n with
          | none => false
          | some k => decide (k.toNat < fetched.length)
        let trimmed :=
          match n, more with
          | some k, true =>
            match dir with
            | .forward => presented.take k.toNat
            | .backward => presented.drop (presented.length - k.toNat)
          | _, _ => presented
        let opposite :=
          match boundary with
          | none => false
          | some b => decide (0 < boundaryPosition store filter o dir b)
        match dir with
        | .forward => .ok { rows := trimmed, hasNextPage := more, hasPreviousPage := opposite }
        | .backward => .ok { rows := trimmed, hasNextPage := opposite, hasPreviousPage := more }

/-! ## Page-info and total-count assembler -/

/-- Modelled from the spec: the assembler.  `totalCount` "is computed from the
filter predicate alone"; `startCursor`/`endCursor` "are taken from the
first/last edge of the current page (post-trim, post-reorder)". -/
def assemble {K : Type} (store : List (Row K)) (filter : Row K → Bool) (o : OrderSpec)
    (w : Window K) : Connection K :=
  let edges : List (Edge K) := w.rows.map (fun r => { node := r, cursor := toCursor o r })
  { edges := edges
    pageInfo :=
      { hasNextPage := w.hasNextPage
        hasPreviousPage := w.hasPreviousPage
        startCursor := edges.head?.map (fun e => e.cursor)
        endCursor := edges.getLast?.map (fun e => e.cursor) }
    totalCount := count store filter }

/-- Modelled from the spec: the ordering of a query, its `orderBy` argument, or
no order field in ascending direction when it is absent (the primary-key order
that `TestQueryAll` expects). -/
def orderingOf (orderBy : Option OrderSpec) : OrderSpec :=
  orderBy.getD { field := none, direction := .ASC }

/-- Modelled from the spec: the connection query `todos(after, first, before,
last, orderBy, where)`: the resolver followed by the assembler. -/
def todos {K : Type} [LinearOrder K] (store : List (Row K)) (filter : Row K → Bool)
    (orderBy : Option OrderSpec) (req : PageRequest K) :
    Except PageError (Connection K) :=
  match resolveWindow store filter (orderingOf orderBy) req with
  | .error e => .error e
  | .ok w => .ok (assemble store filter (orderingOf orderBy) w)

/-! ## Client loops of the tests -/

/-- The loop of `TestPageForward` and `TestPaginationOrder`: request
`todos(first, after)` starting with no cursor, pass each page's `endCursor` as
the next `after`, and stop at the page that reports no next page.  `none` when
a request fails or the fuel runs out. -/
def pageForward {K : Type} [LinearOrder K] (store : List (Row K)) (filter : Row K → Bool)
    (orderBy : Option OrderSpec) (first : Int) :
    Nat → Option (Cursor K) → Option (List (Connection K))
  | 0, _ => none
  | fuel + 1, after =>
    match todos store filter orderBy
        { first := some first, after := after, last := none, before := none } with
    | .error _ => none
    | .ok conn =>
      if conn.pageInfo.hasNextPage then
        (pageForward store filter orderBy first fuel conn.pageInfo.endCursor).map
          (fun rest => conn :: rest)
      else some [conn]

/-- The loop of `TestPageBackwards` and `TestPaginationOrder`: request
`todos(last, before)` starting with no cursor, pass each page's `startCursor`
as the next `before`, and stop at the page that reports no previous page. -/
def pageBackwards {K : Type} [LinearOrder K] (store : List (Row K)) (filter : Row K → Bool)
    (orderBy : Option OrderSpec) (last : Int) :
    Nat → Option (Cursor K) → Option (List (Connection K))
  | 0, _ => none
  | fuel + 1, before =>
    match todos store filter orderBy
        { first := none, after := none, last := some last, before := before } with
    | .error _ => none
    | .ok conn =>
      if conn.pageInfo.hasPreviousPage then
        (pageBackwards store filter orderBy last fuel conn.pageInfo.startCursor).map
          (fun rest => conn :: rest)
      else some [conn]

/-- The nodes of a connection's edges. -/
def nodesOf {K : Type} (conn : Connection K) : List (Row K) :=
  conn.edges.map (fun e => e.node)

/-- The pair `(hasNextPage, hasPreviousPage)` of a connection. -/
def flagsOf {K : Type} (conn : Connection K) : Bool × Bool :=
  (conn.pageInfo.hasNextPage, conn.pageInfo.hasPreviousPage)

/-- The empty `where` filter: every row matches. -/
def allRows {K : Type} : Row K → Bool := fun _ => true

/-! ## Node lookup -/

/-- Modelled from the spec: an error of the GraphQL response, which "carries
`{message, extensions:{code}}`". -/
structure GqlError where
  message : String
  code : String
  deriving DecidableEq, Repr

/-- Modelled from the spec: the response `{data, errors[]}` of the transport. -/
structure Response (α : Type) where
  data : α
  errors : List GqlError

/-- The message the tests `TestNode` and `TestNodes` expect for an id that does
not resolve. -/
def notFoundMessage (id : Int) : String :=
  "Could not resolve to a node with the global id of '" ++ toString id ++ "'"

/-- Modelled from the spec: the error of a node identity that does not resolve,
with `code="NOT_FOUND"`. -/
def notFound (id : Int) : GqlError :=
  { message := notFoundMessage id, code := "NOT_FOUND" }

/-- Modelled from the spec: lookup of a row by its identity in the backing
store. -/
def noder {K : Type} (store : List (Row K)) (id : Int) : Option (Row K) :=
  store.find? (fun r => decide (r.id = id))

/-- Modelled from the spec: the single node-by-ID lookup `node(id)`, which
reports `NotFound` when the id does not resolve. -/
def node {K : Type} (store : List (Row K)) (id : Int) : Response (Option (Row K)) :=
  match noder store id with
  | some r => { data := some r, errors := [] }
  | none => { data := none, errors := [notFound id] }

/-- Modelled from the spec: the batched lookup `nodes(ids)`: the ids are
resolved in input order; "each missing ID yields one error in the response's
error list (not a single aggregate), and the corresponding output slot is nil
while valid slots are populated". -/
def nodes {K : Type} (store : List (Row K)) (ids : List Int) :
    Response (List (Option (Row K))) :=
  ids.foldl
    (fun acc id =>
      match noder store id with
      | some r => { data := acc.data ++ [some r], errors := acc.errors }
      | none => { data := acc.data ++ [none], errors := acc.errors ++ [notFound id] })
    { data := [], errors := [] }

/-! ## Nested connections -/

/-- Modelled from the spec: the backing store seen by the nested-connection
query planner: the rows of the root connection and, for each nesting depth, the
rows connected to a parent row, both in primary-key order. -/
structure GraphStore where
  roots : List Nat
  children : Nat → Nat → List Nat

/-- Modelled from the spec: a connection field of a query (the connection
query surface, nested): its `first` and `after` arguments, whether
`totalCount` and `edges` are selected, and the connection field selected under
`edges { node { ... } }` (`leaf` when there is none). -/
inductive ConnSel where
  | leaf : ConnSel
  | conn (first : Option Nat) (after : Option Nat) (totalCount : Bool) (edges : Bool)
      (child : ConnSel) : ConnSel

/-- Modelled from the spec: the response of a connection field: for each
parent its id, its `totalCount` when selected and the ids of its edge nodes,
then the response of the connection nested under these nodes. -/
inductive ConnResult where
  | leaf : ConnResult
  | conn (perParent : List (Nat × Option Nat × List Nat)) (child : ConnResult) : ConnResult

/-- Modelled from the spec: the rows of one parent that a connection's
`first`/`after` window keeps (default ordering, the cursor of a row being its
id). -/
def childWindow (first : Option Nat) (after : Option Nat) (rows : List Nat) : List Nat :=
  let bounded :=
    match after with
    | none => rows
    | some c => rows.filter (fun x => decide (c < x))
  match first with
  | none => bounded
  | some n => bounded.take n

/-- Modelled from the spec: the nested-connection query planner, threading the
number of backing-store queries issued so far.  At each level it takes "all
parent row identities resolved in the current response level" and issues "a
single batched fetch of the child ordering/window per parent-group", then
resolves the nested connection for all the nodes just fetched.  The rule for
`totalCount` is the one stated by the comments of `TestNestedConnection`: it is
derived from the length of the edges when they are fetched without a
pagination argument, and costs one batched count query otherwise. -/
def resolveNested (g : GraphStore) :
    ConnSel → Nat → List Nat → Nat → ConnResult × Nat
  | .leaf, _, _, queries => (.leaf, queries)
  | .conn first after totalCount edges child, depth, parents, queries =>
    let fetched : List (Nat × List Nat) :=
      if edges then parents.map (fun p => (p, childWindow first after (g.children depth p)))
      else parents.map (fun p => (p, []))
    let afterFetch := if edges then queries + 1 else queries
    let derived := edges && !(first.isSome || after.isSome)
    let afterCount := if totalCount && !derived then afterFetch + 1 else afterFetch
    let perParent : List (Nat × Option Nat × List Nat) :=
      fetched.map (fun pr =>
        (pr.1,
          if totalCount then
            (if derived then some pr.2.length else some (g.children depth pr.1).length)
          else none,
          pr.2))
    if edges then
      let nested := resolveNested g child (depth + 1) (fetched.flatMap (fun pr => pr.2))
        afterCount
      (.conn perParent nested.1, nested.2)
    else (.conn perParent .leaf, afterCount)

/-- Modelled from the spec: a query is resolved from the single query root,
whose rows at depth 0 are the rows of the root connection. -/
def resolveQuery (g : GraphStore) (sel : ConnSel) : ConnResult × Nat :=
  resolveNested { roots := g.roots, children := fun d p =>
    match d with
    | 0 => g.roots
    | k + 1 => g.children k p } sel 0 [0] 0

/-- The query of the sub-test `TotalCount`: `users(first) { totalCount edges {
node { groups { totalCount } } } }`. -/
def totalCountQuery (first : Option Nat) : ConnSel :=
  .conn first none true true (.conn none none true false .leaf)

/-- The query of the sub-test `FirstN`: `users { totalCount edges { node {
groups(first) { totalCount edges { node } } } } }`. -/
def firstNQuery (first : Option Nat) : ConnSel :=
  .conn none none true true (.conn first none true true .leaf)

/-- The query of the sub-test `Paginate`: `users(first: 1) { totalCount edges {
node { groups(first, after) { totalCount edges { node { users(first: 1) { edges
} } cursor } } } } }`. -/
def paginateQuery (first : Option Nat) (after : Option Nat) : ConnSel :=
  .conn (some 1) none true true
    (.conn first after true true (.conn (some 1) none false true .leaf))

/-- The store of `TestNestedConnection`: users `0..9` and groups `0..9`, user
`i` being connected to the first `10 - i` groups, hence group `j` to the first
`10 - j` users. -/
def nestedStore : GraphStore :=
  { roots := List.range 10
    children := fun _ p => List.range (10 - p) }

/-- The `(totalCount, number of edges)` of every parent of the connection
nested under the root connection of a response. -/
def nestedCounts (r : ConnResult) : List (Option Nat × Nat) :=
  match r with
  | .conn _ (.conn perParent _) => perParent.map (fun pr => (pr.2.1, pr.2.2.length))
  | _ => []

/-! ## Fixtures of the tests -/

/-- The constant `maxTodos` of the test file. -/
def maxTodos : Nat := 32

/-- The constant `idOffset = 3 << 32` of the test file. -/
def idOffset : Int := 12884901888

/-- Row `i` of the fixture of `SetupTest`: id `idOffset + i`, priority `i`,
text the decimal id (ordered like the id), created in the order of `i`, status
`COMPLETED`, todo 1 without parent, even `i` under the root, odd `i` under
`i - 2`. -/
def setupRow (i : Nat) : Row Int :=
  { id := idOffset + i
    key := fun f =>
      match f with
      | .TEXT => idOffset + i
      | .CREATED_AT => i
      | .PRIORITY => i
    status := .COMPLETED
    parent :=
      if i = 1 then none
      else if i % 2 ≠ 0 then some (idOffset + i - 2)
      else some (idOffset + 1) }

/-- The store after `SetupTest`: todos `1..maxTodos`. -/
def setupStore : List (Row Int) :=
  (List.range maxTodos).map (fun i => setupRow (i + 1))

/-- The store of `TestPageInfo`: five todos with texts "1".."5". -/
def pageInfoStore : List (Row Int) :=
  (List.range 5).map (fun i =>
    { id := idOffset + ((i + 1 : Nat) : Int)
      key := fun _ => ((i + 1 : Nat) : Int)
      status := .IN_PROGRESS
      parent := none })


/-- Modelled from the spec: the `children` edge of the todo with id `id`, the
inverse of the `parent` edge: the todos of the store whose parent is that todo,
in the order of the store. -/
def children {K : Type} (store : List (Row K)) (id : Int) : List (Row K) :=
  store.filter (fun r => decide (r.parent = some id))

end Pagination

namespace Ent

/-! ## Errors, values and outcomes of the generated builders -/

/-- Errors returned by the storage layer `sqlgraph`, by the three kinds the
builders tell apart: a `*sqlgraph.NotFoundError`, an error for which
`sqlgraph.IsConstraintError` holds, and any other error. -/
inductive StoreError where
  | notFound (msg : String)
  | constraint (msg : String)
  | other (msg : String)
  deriving DecidableEq, Repr

/-- The method `Error()` of a storage error. -/
def StoreError.Error : StoreError → String
  | .notFound msg => msg
  | .constraint msg => msg
  | .other msg => msg

/-- Go `error` values seen by the builders: `&ValidationError{Name, err}`,
`&NotFoundError{label}`, `&ConstraintError{msg, wrap}`, an error of the storage
layer handed on unchanged, the two `fmt.Errorf` errors of `Save`/`Exec`, and
any error made by a hook. -/
inductive EntError where
  | validation (name : String) (err : String)
  | notFound (label : String)
  | constraint (msg : String) (wrap : StoreError)
  | store (e : StoreError)
  | uninitializedHook
  | unexpectedMutationType (typ : String)
  | hook (msg : String)
  deriving DecidableEq, Repr

/-- The entity `Category` returned by `CategoryUpdateOne.Save`; only its
identity is kept. -/
structure Category where
  ID : Int
  deriving DecidableEq, Repr

/-- The entity `Todo`, as far as `AddTodos`/`RemoveTodos` read it. -/
structure Todo where
  ID : Int
  deriving DecidableEq, Repr

/-- The `ent.Value` a mutator returns: `nil`, an affected count, a node, or a
value of a hook's own making. -/
inductive Value where
  | nil
  | affected (n : Nat)
  | node (c : Option Category)
  | other (s : String)
  deriving DecidableEq, Repr

/-- How a Go call ends: it returns a value or it panics with an error. -/
inductive Outcome (α : Type) where
  | returned (a : α)
  | panicked (e : EntError)
  deriving DecidableEq, Repr

/-! ## Mutations, hooks and mutators -/

/-- A pointer to a mutation object. -/
abbrev Addr := Nat

/-- The `ent.Mutation` a mutator receives: a pointer to a mutation of the
builder's own type, or a mutation of another type (named by `%T`). -/
inductive MutationArg where
  | own (a : Addr)
  | foreign (typ : String)
  deriving DecidableEq, Repr

/-- The state a `Save`/`Exec` call works on.  `heap` holds the mutation
objects, `log` the calls the builder has issued to the storage layer so far;
`mutation`, `err` and `result` are the builder's field `mutation` and the local
variables `err` and `affected`/`node` of `Save`/`Exec`, which the closure of
the core mutator assigns. -/
structure Frame (M S R : Type) where
  heap : Addr → M
  log : List S
  mutation : Addr
  err : Option EntError
  result : R

/-- An `ent.Mutator`: `Mutate(ctx, m)` returns a value and an error and acts on
the state. -/
abbrev Mutator (M S R : Type) :=
  MutationArg → Frame M S R → (Value × Option EntError) × Frame M S R

/-- What the `Mutate` of a hook may do with the mutation it was given: return,
call `next.Mutate` with some mutation and go on with its result, change the
mutation objects, or look at them.  The builder's fields and the locals of
`Save`/`Exec` are out of its reach. -/
inductive HookProg (M : Type) where
  | done (v : Value) (err : Option EntError) : HookProg M
  | next (m : MutationArg) (k : Value × Option EntError → HookProg M) : HookProg M
  | update (f : (Addr → M) → (Addr → M)) (k : HookProg M) : HookProg M
  | inspect (k : (Addr → M) → HookProg M) : HookProg M

/-- An `ent.Hook`, given by what the mutator it returns does with the mutation
it receives. -/
abbrev Hook (M : Type) := MutationArg → HookProg M

/-- Running the `Mutate` of a hook against the mutator `next` it wraps. -/
def HookProg.run {M S R : Type} (nextMutator : Mutator M S R) :
    HookProg M → Frame M S R → (Value × Option EntError) × Frame M S R
  | .done v err, fr => ((v, err), fr)
  | .next m k, fr =>
    let r := nextMutator m fr
    (k r.1).run nextMutator r.2
  | .update f k, fr => k.run nextMutator { fr with heap := f fr.heap }
  | .inspect k, fr => (k fr.heap).run nextMutator fr

/-- The mutator `hooks[i](mut)`. -/
def Hook.apply {M S R : Type} (h : Hook M) (mutator : Mutator M S R) : Mutator M S R :=
  fun m fr => (h m).run mutator fr

/-- The loop `for i := len(hooks) - 1; i >= 0; i--` of `Save`/`Exec`, run on
the hooks from the last to the first: a nil hook ends it with the error
"uninitialized hook", any other hook wraps the mutator built so far. -/
def wrapHooks {M S R : Type} :
    List (Option (Hook M)) → Mutator M S R → Option (Mutator M S R)
  | [], mutator => some mutator
  | none :: _, _ => none
  | some h :: rest, mutator => wrapHooks rest (h.apply mutator)

/-- Writing one mutation object. -/
def setAt {M : Type} (heap : Addr → M) (a : Addr) (m : M) : Addr → M :=
  fun b => if b = a then m else heap b

/-! ## Specifications handed to the storage layer -/

/-- The `field.Type` constants the builders use. -/
inductive FieldType where
  | TypeInt
  | TypeString
  | TypeUUID
  | TypeEnum
  | TypeOther
  | TypeInt64
  | TypeUint64
  | TypeJSON
  deriving DecidableEq, Repr

/-- The `Value` of a `sqlgraph.FieldSpec`, by the Go type of what is stored. -/
inductive FieldValue where
  | int (v : Int)
  | string (v : String)
  | uuid (v : Nat)
  | enum (v : String)
  | config (v : String)
  | duration (v : Int)
  | uint64 (v : Nat)
  | int64 (v : Int)
  | strings (v : List String)
  deriving DecidableEq, Repr

/-- A `sqlgraph.FieldSpec`. -/
structure FieldSpec where
  Typ : FieldType
  Value : Option FieldValue
  Column : String
  deriving DecidableEq, Repr

/-- A `sqlgraph.NodeSpec`. -/
structure NodeSpec where
  Table : String
  Columns : List String
  ID : FieldSpec
  deriving DecidableEq, Repr

/-- A predicate on the rows of a table (`predicate.Category`,
`predicate.MessageWithOptionals`), named by a number. -/
abbrev Predicate := Nat

/-- A `sqlgraph.DeleteSpec`; `Predicate` applies the listed predicates in
order and is nil when there is none. -/
structure DeleteSpec where
  Node : NodeSpec
  Predicate : Option (List Predicate)
  deriving DecidableEq, Repr

/-- The heap of mutation objects and the log of the calls issued to the
storage layer, before and after a call of a builder. -/
structure World (M S : Type) where
  heap : Addr → M
  log : List S

/-! ## MessageWithOptionalsDelete -/

/-- The constants of the package `messagewithoptionals` that the delete
builders use; the package is not part of the sources at hand. -/
structure MessageWithOptionalsPkg where
  Table : String
  FieldID : String
  Label : String

/-- The fields of `MessageWithOptionalsMutation` that the delete builder reads
and writes. -/
structure MessageWithOptionalsMutation where
  predicates : List Predicate
  done : Bool
  deriving DecidableEq, Repr

/-- The storage layer behind the delete builder: `sqlgraph.DeleteNodes`, whose
answer may depend on the calls issued before. -/
structure DeleteDriver where
  DeleteNodes : List DeleteSpec → DeleteSpec → Nat × Option StoreError

/-- The builder `MessageWithOptionalsDelete`. -/
structure MessageWithOptionalsDelete where
  hooks : List (Option (Hook MessageWithOptionalsMutation))
  mutation : Addr

/-- The method `MessageWithOptionalsDelete.sqlExec`: it builds the delete
specification and returns what `sqlgraph.DeleteNodes` returns. -/
def MessageWithOptionalsDelete.sqlExec (pkg : MessageWithOptionalsPkg) (drv : DeleteDriver)
    (m : MessageWithOptionalsMutation) (log : List DeleteSpec) :
    (Nat × Option EntError) × List DeleteSpec :=
  let spec : DeleteSpec :=
    { Node :=
        { Table := pkg.Table
          Columns := []
          ID := { Typ := .TypeInt, Value := none, Column := pkg.FieldID } }
      Predicate := if 0 < m.predicates.length then some m.predicates else none }
  let r := drv.DeleteNodes log spec
  ((r.1, r.2.map EntError.store), log ++ [spec])

/-- The core mutator of `MessageWithOptionalsDelete.Exec`, the `MutateFunc`
closure. -/
def MessageWithOptionalsDelete.core (pkg : MessageWithOptionalsPkg) (drv : DeleteDriver) :
    Mutator MessageWithOptionalsMutation DeleteSpec Nat :=
  fun m fr =>
    match m with
    | .foreign typ => ((.nil, some (.unexpectedMutationType typ)), fr)
    | .own a =>
      let r := MessageWithOptionalsDelete.sqlExec pkg drv (fr.heap a) fr.log
      ((.affected r.1.1, r.1.2),
        { heap := setAt fr.heap a { fr.heap a with done := true }
          log := r.2
          mutation := a
          err := r.1.2
          result := r.1.1 })

/-- The method `MessageWithOptionalsDelete.Exec`. -/
def MessageWithOptionalsDelete.Exec (pkg : MessageWithOptionalsPkg) (drv : DeleteDriver)
    (mwod : MessageWithOptionalsDelete)
    (w : World MessageWithOptionalsMutation DeleteSpec) :
    (Nat × Option EntError) × MessageWithOptionalsDelete ×
      World MessageWithOptionalsMutation DeleteSpec :=
  if mwod.hooks.length = 0 then
    let r := MessageWithOptionalsDelete.sqlExec pkg drv (w.heap mwod.mutation) w.log
    (r.1, mwod, { w with log := r.2 })
  else
    match wrapHooks mwod.hooks.reverse (MessageWithOptionalsDelete.core pkg drv) with
    | none => ((0, some .uninitializedHook), mwod, w)
    | some chain =>
      let r := chain (.own mwod.mutation)
        { heap := w.heap, log := w.log, mutation := mwod.mutation, err := none, result := 0 }
      match r.1.2 with
      | some e =>
        ((0, some e), { mwod with mutation := r.2.mutation },
          { heap := r.2.heap, log := r.2.log })
      | none =>
        ((r.2.result, r.2.err), { mwod with mutation := r.2.mutation },
          { heap := r.2.heap, log := r.2.log })

/-- The method `MessageWithOptionalsDelete.ExecX`: "is like Exec, but panics if
an error occurs". -/
def MessageWithOptionalsDelete.ExecX (pkg : MessageWithOptionalsPkg) (drv : DeleteDriver)
    (mwod : MessageWithOptionalsDelete)
    (w : World MessageWithOptionalsMutation DeleteSpec) :
    Outcome Nat × MessageWithOptionalsDelete ×
      World MessageWithOptionalsMutation DeleteSpec :=
  let r := MessageWithOptionalsDelete.Exec pkg drv mwod w
  match r.1.2 with
  | some err => (.panicked err, r.2)
  | none => (.returned r.1.1, r.2)

/-- The builder `MessageWithOptionalsDeleteOne`. -/
structure MessageWithOptionalsDeleteOne where
  mwod : MessageWithOptionalsDelete

/-- The method `MessageWithOptionalsDeleteOne.Exec`. -/
def MessageWithOptionalsDeleteOne.Exec (pkg : MessageWithOptionalsPkg) (drv : DeleteDriver)
    (mwodo : MessageWithOptionalsDeleteOne)
    (w : World MessageWithOptionalsMutation DeleteSpec) :
    Option EntError × MessageWithOptionalsDeleteOne ×
      World MessageWithOptionalsMutation DeleteSpec :=
  let r := MessageWithOptionalsDelete.Exec pkg drv mwodo.mwod w
  match r.1.2 with
  | some err => (some err, { mwod := r.2.1 }, r.2.2)
  | none =>
    if r.1.1 = 0 then (some (.notFound pkg.Label), { mwod := r.2.1 }, r.2.2)
    else (none, { mwod := r.2.1 }, r.2.2)

/-- The method `MessageWithOptionalsDeleteOne.ExecX`, documented as "like Exec,
but panics if an error occurs"; it calls `ExecX` of the wrapped builder. -/
def MessageWithOptionalsDeleteOne.ExecX (pkg : MessageWithOptionalsPkg) (drv : DeleteDriver)
    (mwodo : MessageWithOptionalsDeleteOne)
    (w : World MessageWithOptionalsMutation DeleteSpec) :
    Outcome Unit × MessageWithOptionalsDeleteOne ×
      World MessageWithOptionalsMutation DeleteSpec :=
  let r := MessageWithOptionalsDelete.ExecX pkg drv mwodo.mwod w
  match r.1 with
  | .panicked err => (.panicked err, { mwod := r.2.1 }, r.2.2)
  | .returned _ => (.returned (), { mwod := r.2.1 }, r.2.2)

/-! ## CategoryUpdate and CategoryUpdateOne -/

/-- The `sqlgraph.Rel` of an edge. -/
inductive Rel where
  | O2O
  | O2M
  | M2O
  | M2M
  deriving DecidableEq, Repr

/-- A `sqlgraph.EdgeTarget`. -/
structure EdgeTarget where
  Nodes : List Int
  IDSpec : FieldSpec
  deriving DecidableEq, Repr

/-- A `sqlgraph.EdgeSpec`. -/
structure EdgeSpec where
  Rel : Rel
  Inverse : Bool
  Table : String
  Columns : List String
  Bidi : Bool
  Target : EdgeTarget
  deriving DecidableEq, Repr

/-- A `sqlgraph.UpdateSpec`: the node, the predicate (the listed predicates
applied in order, nil when there is none), the fields to set, add and clear and
the edges to add and clear. -/
structure UpdateSpec where
  Node : NodeSpec
  Predicate : Option (List Predicate)
  FieldsSet : List FieldSpec
  FieldsAdd : List FieldSpec
  FieldsClear : List FieldSpec
  EdgesAdd : List EdgeSpec
  EdgesClear : List EdgeSpec
  deriving DecidableEq, Repr

/-- The constants and functions of the packages `category` and `todo` that the
update builders use; the packages are not part of the sources at hand.  A
validator returns nil or the message of its error.  `Quote` is how the verb
`%q` of package `fmt` writes a string, a library function outside the sources
as well. -/
structure CategoryPkg where
  Table : String
  Label : String
  Columns : List String
  FieldID : String
  FieldText : String
  FieldUUIDA : String
  FieldStatus : String
  FieldConfig : String
  FieldDuration : String
  FieldCount : String
  FieldStrings : String
  TodosTable : String
  TodosColumn : String
  TodoFieldID : String
  ValidColumn : String → Bool
  TextValidator : String → Option String
  StatusValidator : String → Option String
  Quote : String → String

/-- What the update builders read from a `CategoryMutation` through its getters
(`Text()`, `UUIDACleared()`, `RemovedTodosIDs()`, ...), and its field `done`. -/
structure CategoryMutation where
  id : Option Int
  predicates : List Predicate
  text : Option String
  uuid_a : Option Nat
  uuidACleared : Bool
  status : Option String
  config : Option String
  configCleared : Bool
  duration : Option Int
  addedDuration : Option Int
  durationCleared : Bool
  count : Option Nat
  addedCount : Option Int
  countCleared : Bool
  strings : Option (List String)
  stringsCleared : Bool
  todosCleared : Bool
  removedTodosIDs : List Int
  todosIDs : List Int
  done : Bool
  deriving DecidableEq, Repr

/-- The setters of `CategoryMutation` that the builder methods below call; the
mutation's code is not part of the sources at hand. -/
structure CategoryMutationMethods where
  SetUUIDA : Nat → CategoryMutation → CategoryMutation
  ResetDuration : CategoryMutation → CategoryMutation
  SetDuration : Int → CategoryMutation → CategoryMutation
  ResetCount : CategoryMutation → CategoryMutation
  SetCount : Nat → CategoryMutation → CategoryMutation
  AddTodoIDs : List Int → CategoryMutation → CategoryMutation
  RemoveTodoIDs : List Int → CategoryMutation → CategoryMutation

/-- The storage layer behind the update builders: `sqlgraph.UpdateNodes` and
`sqlgraph.UpdateNode`, whose answers may depend on the calls issued before. -/
structure UpdateDriver where
  UpdateNodes : List UpdateSpec → UpdateSpec → Nat × Option StoreError
  UpdateNode : List UpdateSpec → UpdateSpec → Except StoreError Category

/-- The builder `CategoryUpdate`. -/
structure CategoryUpdate where
  hooks : List (Option (Hook CategoryMutation))
  mutation : Addr

/-- The builder `CategoryUpdateOne`. -/
structure CategoryUpdateOne where
  fields : List String
  hooks : List (Option (Hook CategoryMutation))
  mutation : Addr

/-- The edge specification of the "todos" edge that `sqlSave` builds three
times, with the given target nodes. -/
def todosEdge (pkg : CategoryPkg) (nodes : List Int) : EdgeSpec :=
  { Rel := .O2M
    Inverse := false
    Table := pkg.TodosTable
    Columns := [pkg.TodosColumn]
    Bidi := false
    Target :=
      { Nodes := nodes.foldl (fun acc k => acc ++ [k]) []
        IDSpec := { Typ := .TypeInt, Value := none, Column := pkg.TodoFieldID } } }

/-- The statement `if value, ok := m.X(); ok { _spec.Fields.Set =
append(_spec.Fields.Set, ...) }` of `sqlSave`. -/
def appendSet {α : Type} (spec : UpdateSpec) (value : Option α) (mk : α → FieldSpec) :
    UpdateSpec :=
  match value with
  | some v => { spec with FieldsSet := spec.FieldsSet ++ [mk v] }
  | none => spec

/-- The statement `if value, ok := m.AddedX(); ok { _spec.Fields.Add =
append(_spec.Fields.Add, ...) }` of `sqlSave`. -/
def appendAdd {α : Type} (spec : UpdateSpec) (value : Option α) (mk : α → FieldSpec) :
    UpdateSpec :=
  match value with
  | some v => { spec with FieldsAdd := spec.FieldsAdd ++ [mk v] }
  | none => spec

/-- The statement `if m.XCleared() { _spec.Fields.Clear =
append(_spec.Fields.Clear, ...) }` of `sqlSave`. -/
def appendClear (spec : UpdateSpec) (cleared : Bool) (f : FieldSpec) : UpdateSpec :=
  if cleared then { spec with FieldsClear := spec.FieldsClear ++ [f] } else spec

/-- The statement `_spec.Edges.Clear = append(_spec.Edges.Clear, edge)` of
`sqlSave`, under its condition. -/
def appendEdgeClear (spec : UpdateSpec) (cond : Bool) (edge : EdgeSpec) : UpdateSpec :=
  if cond then { spec with EdgesClear := spec.EdgesClear ++ [edge] } else spec

/-- The statement `_spec.Edges.Add = append(_spec.Edges.Add, edge)` of
`sqlSave`, under its condition. -/
def appendEdgeAdd (spec : UpdateSpec) (cond : Bool) (edge : EdgeSpec) : UpdateSpec :=
  if cond then { spec with EdgesAdd := spec.EdgesAdd ++ [edge] } else spec

/-- The statement `if ps := m.predicates; len(ps) > 0 { _spec.Predicate = ... }`
of `sqlSave`. -/
def setPredicate (spec : UpdateSpec) (ps : List Predicate) : UpdateSpec :=
  if 0 < ps.length then { spec with Predicate := some ps } else spec

/-- The statements of `sqlSave` between the node specification and the call of
the storage layer, the same in `CategoryUpdate.sqlSave` and
`CategoryUpdateOne.sqlSave`: the predicate, then one `append` per set, added
or cleared field and per edge change of the mutation, in the order of the
source. -/
def mutationSpec (pkg : CategoryPkg) (m : CategoryMutation) (spec : UpdateSpec) :
    UpdateSpec :=
  let spec := setPredicate spec m.predicates
  let spec := appendSet spec m.text (fun value =>
    { Typ := .TypeString, Value := some (.string value), Column := pkg.FieldText })
  let spec := appendSet spec m.uuid_a (fun value =>
    { Typ := .TypeUUID, Value := some (.uuid value), Column := pkg.FieldUUIDA })
  let spec := appendClear spec m.uuidACleared
    { Typ := .TypeUUID, Value := none, Column := pkg.FieldUUIDA }
  let spec := appendSet spec m.status (fun value =>
    { Typ := .TypeEnum, Value := some (.enum value), Column := pkg.FieldStatus })
  let spec := appendSet spec m.config (fun value =>
    { Typ := .TypeOther, Value := some (.config value), Column := pkg.FieldConfig })
  let spec := appendClear spec m.configCleared
    { Typ := .TypeOther, Value := none, Column := pkg.FieldConfig }
  let spec := appendSet spec m.duration (fun value =>
    { Typ := .TypeInt64, Value := some (.duration value), Column := pkg.FieldDuration })
  let spec := appendAdd spec m.addedDuration (fun value =>
    { Typ := .TypeInt64, Value := some (.duration value), Column := pkg.FieldDuration })
  let spec := appendClear spec m.durationCleared
    { Typ := .TypeInt64, Value := none, Column := pkg.FieldDuration }
  let spec := appendSet spec m.count (fun value =>
    { Typ := .TypeUint64, Value := some (.uint64 value), Column := pkg.FieldCount })
  let spec := appendAdd spec m.addedCount (fun value =>
    { Typ := .TypeUint64, Value := some (.int64 value), Column := pkg.FieldCount })
  let spec := appendClear spec m.countCleared
    { Typ := .TypeUint64, Value := none, Column := pkg.FieldCount }
  let spec := appendSet spec m.strings (fun value =>
    { Typ := .TypeJSON, Value := some (.strings value), Column := pkg.FieldStrings })
  let spec := appendClear spec m.stringsCleared
    { Typ := .TypeJSON, Value := none, Column := pkg.FieldStrings }
  let spec := appendEdgeClear spec m.todosCleared (todosEdge pkg [])
  let spec := appendEdgeClear spec
    (decide (0 < m.removedTodosIDs.length) && !m.todosCleared)
    (todosEdge pkg m.removedTodosIDs)
  let spec := appendEdgeAdd spec (decide (0 < m.todosIDs.length)) (todosEdge pkg m.todosIDs)
  spec

/-- The node specification both `sqlSave` start from. -/
def nodeSpec (pkg : CategoryPkg) : UpdateSpec :=
  { Node :=
      { Table := pkg.Table
        Columns := pkg.Columns
        ID := { Typ := .TypeInt, Value := none, Column := pkg.FieldID } }
    Predicate := none
    FieldsSet := []
    FieldsAdd := []
    FieldsClear := []
    EdgesAdd := []
    EdgesClear := [] }

/-- The method `check` of both update builders, on the mutation the builder
holds: "runs all checks and user-defined validators on the builder". -/
def check (pkg : CategoryPkg) (m : CategoryMutation) : Option EntError :=
  let textErr : Option EntError :=
    match m.text with
    | some v =>
      match pkg.TextValidator v with
      | some err =>
        some (.validation "text"
          ("ent: validator failed for field \"Category.text\": " ++ err))
      | none => none
    | none => none
  match textErr with
  | some e => some e
  | none =>
    match m.status with
    | some v =>
      match pkg.StatusValidator v with
      | some err =>
        some (.validation "status"
          ("ent: validator failed for field \"Category.status\": " ++ err))
      | none => none
    | none => none

/-- The update specification `_spec` that `CategoryUpdate.sqlSave` builds. -/
def CategoryUpdate.buildSpec (pkg : CategoryPkg) (m : CategoryMutation) : UpdateSpec :=
  mutationSpec pkg m (nodeSpec pkg)

/-- The method `CategoryUpdate.sqlSave`: it builds the update specification,
calls `sqlgraph.UpdateNodes` once and translates its error. -/
def CategoryUpdate.sqlSave (pkg : CategoryPkg) (drv : UpdateDriver) (m : CategoryMutation)
    (log : List UpdateSpec) : (Nat × Option EntError) × List UpdateSpec :=
  let spec := CategoryUpdate.buildSpec pkg m
  let r := drv.UpdateNodes log spec
  match r.2 with
  | some err =>
    match err with
    | .notFound _ => ((0, some (.notFound pkg.Label)), log ++ [spec])
    | .constraint _ => ((0, some (.constraint err.Error err)), log ++ [spec])
    | .other _ => ((0, some (.store err)), log ++ [spec])
  | none => ((r.1, none), log ++ [spec])

/-- The core mutator of `CategoryUpdate.Save`, the `MutateFunc` closure. -/
def CategoryUpdate.core (pkg : CategoryPkg) (drv : UpdateDriver) :
    Mutator CategoryMutation UpdateSpec Nat :=
  fun m fr =>
    match m with
    | .foreign typ => ((.nil, some (.unexpectedMutationType typ)), fr)
    | .own a =>
      match check pkg (fr.heap fr.mutation) with
      | some e => ((.affected 0, some e), { fr with err := some e })
      | none =>
        let r := CategoryUpdate.sqlSave pkg drv (fr.heap a) fr.log
        ((.affected r.1.1, r.1.2),
          { heap := setAt fr.heap a { fr.heap a with done := true }
            log := r.2
            mutation := a
            err := r.1.2
            result := r.1.1 })

/-- The method `CategoryUpdate.Save`. -/
def CategoryUpdate.Save (pkg : CategoryPkg) (drv : UpdateDriver) (cu : CategoryUpdate)
    (w : World CategoryMutation UpdateSpec) :
    (Nat × Option EntError) × CategoryUpdate × World CategoryMutation UpdateSpec :=
  if cu.hooks.length = 0 then
    match check pkg (w.heap cu.mutation) with
    | some err => ((0, some err), cu, w)
    | none =>
      let r := CategoryUpdate.sqlSave pkg drv (w.heap cu.mutation) w.log
      (r.1, cu, { w with log := r.2 })
  else
    match wrapHooks cu.hooks.reverse (CategoryUpdate.core pkg drv) with
    | none => ((0, some .uninitializedHook), cu, w)
    | some chain =>
      let r := chain (.own cu.mutation)
        { heap := w.heap, log := w.log, mutation := cu.mutation, err := none, result := 0 }
      match r.1.2 with
      | some e =>
        ((0, some e), { cu with mutation := r.2.mutation }, { heap := r.2.heap, log := r.2.log })
      | none =>
        ((r.2.result, r.2.err), { cu with mutation := r.2.mutation },
          { heap := r.2.heap, log := r.2.log })

/-- The method `CategoryUpdate.SaveX`. -/
def CategoryUpdate.SaveX (pkg : CategoryPkg) (drv : UpdateDriver) (cu : CategoryUpdate)
    (w : World CategoryMutation UpdateSpec) :
    Outcome Nat × CategoryUpdate × World CategoryMutation UpdateSpec :=
  let r := CategoryUpdate.Save pkg drv cu w
  match r.1.2 with
  | some err => (.panicked err, r.2)
  | none => (.returned r.1.1, r.2)

/-- The method `CategoryUpdate.Exec`. -/
def CategoryUpdate.Exec (pkg : CategoryPkg) (drv : UpdateDriver) (cu : CategoryUpdate)
    (w : World CategoryMutation UpdateSpec) :
    Option EntError × CategoryUpdate × World CategoryMutation UpdateSpec :=
  let r := CategoryUpdate.Save pkg drv cu w
  (r.1.2, r.2)

/-- The method `CategoryUpdate.ExecX`. -/
def CategoryUpdate.ExecX (pkg : CategoryPkg) (drv : UpdateDriver) (cu : CategoryUpdate)
    (w : World CategoryMutation UpdateSpec) :
    Outcome Unit × CategoryUpdate × World CategoryMutation UpdateSpec :=
  let r := CategoryUpdate.Exec pkg drv cu w
  match r.1 with
  | some err => (.panicked err, r.2)
  | none => (.returned (), r.2)

/-- The method `CategoryUpdateOne.Select`:
`cuo.fields = append([]string{field}, fields...)`. -/
def CategoryUpdateOne.Select (field : String) (fields : List String)
    (cuo : CategoryUpdateOne) : CategoryUpdateOne :=
  { cuo with fields := [field] ++ fields }

/-- The loop `for _, f := range fields` of `CategoryUpdateOne.sqlSave` over the
columns collected so far: an invalid name ends it with a `ValidationError`
named after it, whose message writes the name with `%q`; the id column is
skipped, any other name is appended. -/
def selectColumns (pkg : CategoryPkg) : List String → List String → Except EntError (List String)
  | [], columns => .ok columns
  | f :: rest, columns =>
    if !pkg.ValidColumn f then
      .error (.validation f ("ent: invalid field " ++ pkg.Quote f ++ " for query"))
    else if f ≠ pkg.FieldID then selectColumns pkg rest (columns ++ [f])
    else selectColumns pkg rest columns

/-- The update specification `_spec` that `CategoryUpdateOne.sqlSave` builds,
or the error it returns before calling the storage layer: the mutation must
hold an id, and every selected field must be a valid column. -/
def CategoryUpdateOne.buildSpec (pkg : CategoryPkg) (fields : List String)
    (m : CategoryMutation) : Except EntError UpdateSpec :=
  match m.id with
  | none => .error (.validation "id" "ent: missing \"Category.id\" for update")
  | some id =>
    let spec := nodeSpec pkg
    let spec := { spec with Node := { spec.Node with ID := { spec.Node.ID with
      Value := some (.int id) } } }
    let selected : Except EntError UpdateSpec :=
      if 0 < fields.length then
        match selectColumns pkg fields [pkg.FieldID] with
        | .ok columns => .ok { spec with Node := { spec.Node with Columns := columns } }
        | .error e => .error e
      else .ok spec
    match selected with
    | .error e => .error e
    | .ok spec => .ok (mutationSpec pkg m spec)

/-- The method `CategoryUpdateOne.sqlSave`: it builds the update specification,
calls `sqlgraph.UpdateNode` once and translates its error. -/
def CategoryUpdateOne.sqlSave (pkg : CategoryPkg) (drv : UpdateDriver) (fields : List String)
    (m : CategoryMutation) (log : List UpdateSpec) :
    (Option Category × Option EntError) × List UpdateSpec :=
  match CategoryUpdateOne.buildSpec pkg fields m with
  | .error e => ((none, some e), log)
  | .ok spec =>
    match drv.UpdateNode log spec with
    | .error err =>
      match err with
      | .notFound _ => ((none, some (.notFound pkg.Label)), log ++ [spec])
      | .constraint _ => ((none, some (.constraint err.Error err)), log ++ [spec])
      | .other _ => ((none, some (.store err)), log ++ [spec])
    | .ok node => ((some node, none), log ++ [spec])

/-- The core mutator of `CategoryUpdateOne.Save`, the `MutateFunc` closure. -/
def CategoryUpdateOne.core (pkg : CategoryPkg) (drv : UpdateDriver) (fields : List String) :
    Mutator CategoryMutation UpdateSpec (Option Category) :=
  fun m fr =>
    match m with
    | .foreign typ => ((.nil, some (.unexpectedMutationType typ)), fr)
    | .own a =>
      match check pkg (fr.heap fr.mutation) with
      | some e => ((.nil, some e), { fr with err := some e })
      | none =>
        let r := CategoryUpdateOne.sqlSave pkg drv fields (fr.heap a) fr.log
        ((.node r.1.1, r.1.2),
          { heap := setAt fr.heap a { fr.heap a with done := true }
            log := r.2
            mutation := a
            err := r.1.2
            result := r.1.1 })

/-- The method `CategoryUpdateOne.Save`. -/
def CategoryUpdateOne.Save (pkg : CategoryPkg) (drv : UpdateDriver) (cuo : CategoryUpdateOne)
    (w : World CategoryMutation UpdateSpec) :
    (Option Category × Option EntError) × CategoryUpdateOne ×
      World CategoryMutation UpdateSpec :=
  if cuo.hooks.length = 0 then
    match check pkg (w.heap cuo.mutation) with
    | some err => ((none, some err), cuo, w)
    | none =>
      let r := CategoryUpdateOne.sqlSave pkg drv cuo.fields (w.heap cuo.mutation) w.log
      (r.1, cuo, { w with log := r.2 })
  else
    match wrapHooks cuo.hooks.reverse (CategoryUpdateOne.core pkg drv cuo.fields) with
    | none => ((none, some .uninitializedHook), cuo, w)
    | some chain =>
      let r := chain (.own cuo.mutation)
        { heap := w.heap, log := w.log, mutation := cuo.mutation, err := none, result := none }
      match r.1.2 with
      | some e =>
        ((none, some e), { cuo with mutation := r.2.mutation },
          { heap := r.2.heap, log := r.2.log })
      | none =>
        ((r.2.result, r.2.err), { cuo with mutation := r.2.mutation },
          { heap := r.2.heap, log := r.2.log })

/-- The method `CategoryUpdateOne.SaveX`. -/
def CategoryUpdateOne.SaveX (pkg : CategoryPkg) (drv : UpdateDriver) (cuo : CategoryUpdateOne)
    (w : World CategoryMutation UpdateSpec) :
    Outcome (Option Category) × CategoryUpdateOne × World CategoryMutation UpdateSpec :=
  let r := CategoryUpdateOne.Save pkg drv cuo w
  match r.1.2 with
  | some err => (.panicked err, r.2)
  | none => (.returned r.1.1, r.2)

/-- The method `CategoryUpdateOne.Exec`. -/
def CategoryUpdateOne.Exec (pkg : CategoryPkg) (drv : UpdateDriver) (cuo : CategoryUpdateOne)
    (w : World CategoryMutation UpdateSpec) :
    Option EntError × CategoryUpdateOne × World CategoryMutation UpdateSpec :=
  let r := CategoryUpdateOne.Save pkg drv cuo w
  (r.1.2, r.2)

/-- The method `CategoryUpdateOne.ExecX`. -/
def CategoryUpdateOne.ExecX (pkg : CategoryPkg) (drv : UpdateDriver) (cuo : CategoryUpdateOne)
    (w : World CategoryMutation UpdateSpec) :
    Outcome Unit × CategoryUpdateOne × World CategoryMutation UpdateSpec :=
  let r := CategoryUpdateOne.Exec pkg drv cuo w
  match r.1 with
  | some err => (.panicked err, r.2)
  | none => (.returned (), r.2)

/-! ## Setters of the update builders -/

/-- The method `CategoryUpdate.SetUUIDA`. -/
def CategoryUpdate.SetUUIDA (mm : CategoryMutationMethods) (u : Nat) (cu : CategoryUpdate)
    (heap : Addr → CategoryMutation) : CategoryUpdate × (Addr → CategoryMutation) :=
  (cu, setAt heap cu.mutation (mm.SetUUIDA u (heap cu.mutation)))

/-- The method `CategoryUpdate.SetNillableUUIDA`; a nil pointer is `none`. -/
def CategoryUpdate.SetNillableUUIDA (mm : CategoryMutationMethods) (u : Option Nat)
    (cu : CategoryUpdate) (heap : Addr → CategoryMutation) :
    CategoryUpdate × (Addr → CategoryMutation) :=
  match u with
  | some v => (cu, (CategoryUpdate.SetUUIDA mm v cu heap).2)
  | none => (cu, heap)

/-- The method `CategoryUpdate.SetDuration`. -/
def CategoryUpdate.SetDuration (mm : CategoryMutationMethods) (t : Int) (cu : CategoryUpdate)
    (heap : Addr → CategoryMutation) : CategoryUpdate × (Addr → CategoryMutation) :=
  let heap := setAt heap cu.mutation (mm.ResetDuration (heap cu.mutation))
  (cu, setAt heap cu.mutation (mm.SetDuration t (heap cu.mutation)))

/-- The method `CategoryUpdate.SetNillableDuration`. -/
def CategoryUpdate.SetNillableDuration (mm : CategoryMutationMethods) (t : Option Int)
    (cu : CategoryUpdate) (heap : Addr → CategoryMutation) :
    CategoryUpdate × (Addr → CategoryMutation) :=
  match t with
  | some v => (cu, (CategoryUpdate.SetDuration mm v cu heap).2)
  | none => (cu, heap)

/-- The method `CategoryUpdate.SetCount`. -/
def CategoryUpdate.SetCount (mm : CategoryMutationMethods) (u : Nat) (cu : CategoryUpdate)
    (heap : Addr → CategoryMutation) : CategoryUpdate × (Addr → CategoryMutation) :=
  let heap := setAt heap cu.mutation (mm.ResetCount (heap cu.mutation))
  (cu, setAt heap cu.mutation (mm.SetCount u (heap cu.mutation)))

/-- The method `CategoryUpdate.SetNillableCount`. -/
def CategoryUpdate.SetNillableCount (mm : CategoryMutationMethods) (u : Option Nat)
    (cu : CategoryUpdate) (heap : Addr → CategoryMutation) :
    CategoryUpdate × (Addr → CategoryMutation) :=
  match u with
  | some v => (cu, (CategoryUpdate.SetCount mm v cu heap).2)
  | none => (cu, heap)

/-- The method `CategoryUpdateOne.SetUUIDA`. -/
def CategoryUpdateOne.SetUUIDA (mm : CategoryMutationMethods) (u : Nat)
    (cuo : CategoryUpdateOne) (heap : Addr → CategoryMutation) :
    CategoryUpdateOne × (Addr → CategoryMutation) :=
  (cuo, setAt heap cuo.mutation (mm.SetUUIDA u (heap cuo.mutation)))

/-- The method `CategoryUpdateOne.SetNillableUUIDA`. -/
def CategoryUpdateOne.SetNillableUUIDA (mm : CategoryMutationMethods) (u : Option Nat)
    (cuo : CategoryUpdateOne) (heap : Addr → CategoryMutation) :
    CategoryUpdateOne × (Addr → CategoryMutation) :=
  match u with
  | some v => (cuo, (CategoryUpdateOne.SetUUIDA mm v cuo heap).2)
  | none => (cuo, heap)

/-- The method `CategoryUpdateOne.SetDuration`. -/
def CategoryUpdateOne.SetDuration (mm : CategoryMutationMethods) (t : Int)
    (cuo : CategoryUpdateOne) (heap : Addr → CategoryMutation) :
    CategoryUpdateOne × (Addr → CategoryMutation) :=
  let heap := setAt heap cuo.mutation (mm.ResetDuration (heap cuo.mutation))
  (cuo, setAt heap cuo.mutation (mm.SetDuration t (heap cuo.mutation)))

/-- The method `CategoryUpdateOne.SetNillableDuration`. -/
def CategoryUpdateOne.SetNillableDuration (mm : CategoryMutationMethods) (t : Option Int)
    (cuo : CategoryUpdateOne) (heap : Addr → CategoryMutation) :
    CategoryUpdateOne × (Addr → CategoryMutation) :=
  match t with
  | some v => (cuo, (CategoryUpdateOne.SetDuration mm v cuo heap).2)
  | none => (cuo, heap)

/-- The method `CategoryUpdateOne.SetCount`. -/
def CategoryUpdateOne.SetCount (mm : CategoryMutationMethods) (u : Nat)
    (cuo : CategoryUpdateOne) (heap : Addr → CategoryMutation) :
    CategoryUpdateOne × (Addr → CategoryMutation) :=
  let heap := setAt heap cuo.mutation (mm.ResetCount (heap cuo.mutation))
  (cuo, setAt heap cuo.mutation (mm.SetCount u (heap cuo.mutation)))

/-- The method `CategoryUpdateOne.SetNillableCount`. -/
def CategoryUpdateOne.SetNillableCount (mm : CategoryMutationMethods) (u : Option Nat)
    (cuo : CategoryUpdateOne) (heap : Addr → CategoryMutation) :
    CategoryUpdateOne × (Addr → CategoryMutation) :=
  match u with
  | some v => (cuo, (CategoryUpdateOne.SetCount mm v cuo heap).2)
  | none => (cuo, heap)

/-! ## Edge setters of the update builders -/

/-- The statements `ids := make([]int, len(t)); for i := range t { ids[i] =
t[i].ID }` of `AddTodos` and `RemoveTodos`. -/
def todoIDs (t : List Todo) : List Int :=
  (List.range t.length).foldl (fun ids i => ids.set i (t.getD i { ID := 0 }).ID)
    (List.replicate t.length 0)

/-- The method `CategoryUpdate.AddTodoIDs`. -/
def CategoryUpdate.AddTodoIDs (mm : CategoryMutationMethods) (ids : List Int)
    (cu : CategoryUpdate) (heap : Addr → CategoryMutation) :
    CategoryUpdate × (Addr → CategoryMutation) :=
  (cu, setAt heap cu.mutation (mm.AddTodoIDs ids (heap cu.mutation)))

/-- The method `CategoryUpdate.AddTodos`. -/
def CategoryUpdate.AddTodos (mm : CategoryMutationMethods) (t : List Todo)
    (cu : CategoryUpdate) (heap : Addr → CategoryMutation) :
    CategoryUpdate × (Addr → CategoryMutation) :=
  CategoryUpdate.AddTodoIDs mm (todoIDs t) cu heap

/-- The method `CategoryUpdate.RemoveTodoIDs`. -/
def CategoryUpdate.RemoveTodoIDs (mm : CategoryMutationMethods) (ids : List Int)
    (cu : CategoryUpdate) (heap : Addr → CategoryMutation) :
    CategoryUpdate × (Addr → CategoryMutation) :=
  (cu, setAt heap cu.mutation (mm.RemoveTodoIDs ids (heap cu.mutation)))

/-- The method `CategoryUpdate.RemoveTodos`. -/
def CategoryUpdate.RemoveTodos (mm : CategoryMutationMethods) (t : List Todo)
    (cu : CategoryUpdate) (heap : Addr → CategoryMutation) :
    CategoryUpdate × (Addr → CategoryMutation) :=
  CategoryUpdate.RemoveTodoIDs mm (todoIDs t) cu heap

/-- The method `CategoryUpdateOne.AddTodoIDs`. -/
def CategoryUpdateOne.AddTodoIDs (mm : CategoryMutationMethods) (ids : List Int)
    (cuo : CategoryUpdateOne) (heap : Addr → CategoryMutation) :
    CategoryUpdateOne × (Addr → CategoryMutation) :=
  (cuo, setAt heap cuo.mutation (mm.AddTodoIDs ids (heap cuo.mutation)))

/-- The method `CategoryUpdateOne.AddTodos`. -/
def CategoryUpdateOne.AddTodos (mm : CategoryMutationMethods) (t : List Todo)
    (cuo : CategoryUpdateOne) (heap : Addr → CategoryMutation) :
    CategoryUpdateOne × (Addr → CategoryMutation) :=
  CategoryUpdateOne.AddTodoIDs mm (todoIDs t) cuo heap

/-- The method `CategoryUpdateOne.RemoveTodoIDs`. -/
def CategoryUpdateOne.RemoveTodoIDs (mm : CategoryMutationMethods) (ids : List Int)
    (cuo : CategoryUpdateOne) (heap : Addr → CategoryMutation) :
    CategoryUpdateOne × (Addr → CategoryMutation) :=
  (cuo, setAt heap cuo.mutation (mm.RemoveTodoIDs ids (heap cuo.mutation)))

/-- The method `CategoryUpdateOne.RemoveTodos`. -/
def CategoryUpdateOne.RemoveTodos (mm : CategoryMutationMethods) (t : List Todo)
    (cuo : CategoryUpdateOne) (heap : Addr → CategoryMutation) :
    CategoryUpdateOne × (Addr → CategoryMutation) :=
  CategoryUpdateOne.RemoveTodoIDs mm (todoIDs t) cuo heap

/-! ## Instances used in the examples -/

/-- An instance of the constants of `messagewithoptionals` for the examples. -/
def exampleMessagePkg : MessageWithOptionalsPkg :=
  { Table := "message_with_optionals", FieldID := "id", Label := "message_with_optionals" }

/-- An instance of the constants of `category` and `todo` for the examples:
the text validator rejects the empty text, the status validator accepts
`ENABLED` and `DISABLED`, and `Quote` puts a name between double quotes, which
is what `%q` writes for the column names of the examples. -/
def examplePkg : CategoryPkg :=
  { Table := "categories"
    Label := "category"
    Columns := ["id", "text", "uuid_a", "status", "config", "duration", "count", "strings"]
    FieldID := "id"
    FieldText := "text"
    FieldUUIDA := "uuid_a"
    FieldStatus := "status"
    FieldConfig := "config"
    FieldDuration := "duration"
    FieldCount := "count"
    FieldStrings := "strings"
    TodosTable := "todos"
    TodosColumn := "category_todos"
    TodoFieldID := "id"
    ValidColumn := fun c =>
      decide (c ∈ ["id", "text", "uuid_a", "status", "config", "duration", "count", "strings"])
    TextValidator := fun s => if s = "" then some "value is empty" else none
    StatusValidator := fun s =>
      if s = "ENABLED" ∨ s = "DISABLED" then none else some "invalid enum value"
    Quote := fun s => "\"" ++ s ++ "\"" }

/-- A mutation that sets nothing. -/
def emptyMutation : CategoryMutation :=
  { id := none, predicates := [], text := none, uuid_a := none, uuidACleared := false
    status := none, config := none, configCleared := false, duration := none
    addedDuration := none, durationCleared := false, count := none, addedCount := none
    countCleared := false, strings := none, stringsCleared := false, todosCleared := false
    removedTodosIDs := [], todosIDs := [], done := false }

/-- A storage layer that answers every delete with the same count and error. -/
def constDeleteDriver (n : Nat) (err : Option StoreError) : DeleteDriver :=
  { DeleteNodes := fun _ _ => (n, err) }

/-- A storage layer that answers every update with the same count and error,
and every single-node update with the same node or error. -/
def constUpdateDriver (n : Nat) (err : Option StoreError) (node : Except StoreError Category) :
    UpdateDriver :=
  { UpdateNodes := fun _ _ => (n, err), UpdateNode := fun _ _ => node }

/-- A world with no delete issued yet whose mutation objects hold no
predicate. -/
def emptyDeleteWorld : World MessageWithOptionalsMutation DeleteSpec :=
  { heap := fun _ => { predicates := [], done := false }, log := [] }

/-- A world with no update issued yet: the mutation at address 0 sets the text
`m0Text`, the mutation at address 1 sets the text `m1Text`, the others set
nothing. -/
def twoMutationWorld (m0Text m1Text : String) : World CategoryMutation UpdateSpec :=
  { heap := fun a =>
      if a = 0 then { emptyMutation with text := some m0Text, id := some 7 }
      else if a = 1 then { emptyMutation with text := some m1Text, id := some 7 }
      else emptyMutation
    log := [] }

/-- A hook that calls `next.Mutate` with the mutation it received and returns
what it returns. -/
def passHook {M : Type} : Hook M :=
  fun m => .next m (fun r => .done r.1 r.2)

/-- A hook that calls `next.Mutate` with the mutation object at address `a`,
whatever mutation it received, and returns what it returns. -/
def swapHook {M : Type} (a : Addr) : Hook M :=
  fun _ => .next (.own a) (fun r => .done r.1 r.2)

/-- A hook that does not call `next.Mutate` and returns the given error. -/
def stopHook {M : Type} (err : Option EntError) : Hook M :=
  fun _ => .done .nil err

end Ent

namespace Ent

/-! ## Observing a run of the hook chain -/

/-- One invocation of the core mutator: the mutation it was called with and the
error it returned. -/
structure CoreCall where
  arg : MutationArg
  err : Option EntError
  deriving DecidableEq, Repr

/-- The frame of a recorded run without its record. -/
def Frame.forget {M S R : Type} (fr : Frame M S (R × List CoreCall)) : Frame M S R :=
  { heap := fr.heap, log := fr.log, mutation := fr.mutation, err := fr.err
    result := fr.result.1 }

/-- The core mutator `core` with a record of its invocations kept beside the
result variable of `Save`/`Exec`: an invocation runs `core` on the frame
without the record, then appends the mutation it was called with and the error
it returned. -/
def recorded {M S R : Type} (core : Mutator M S R) : Mutator M S (R × List CoreCall) :=
  fun m fr =>
    let r := core m fr.forget
    (r.1,
      { heap := r.2.heap, log := r.2.log, mutation := r.2.mutation, err := r.2.err
        result := (r.2.result, fr.result.2 ++ [{ arg := m, err := r.1.2 }]) })

/-- In a recorded run, the error variable of `Save`/`Exec` holds the error of the last invocation of the
core mutator that got past the type assertion. -/
def LastErr {M S R : Type} (fr : Frame M S (R × List CoreCall)) : Prop :=
  ∀ a e, fr.result.2.getLast? = some { arg := .own a, err := e } → fr.err = e

/-- Whether the `Mutate` of a hook, run on the mutation objects `heap`, gets
to a call of `next.Mutate`. -/
def HookProg.reachesNext {M : Type} : HookProg M → (Addr → M) → Bool
  | .done _ _, _ => false
  | .next _ _, _ => true
  | .update f k, heap => k.reachesNext (f heap)
  | .inspect k, heap => (k heap).reachesNext heap

/-- A hook that calls `next.Mutate` with the mutation it received, drops the
error it returns and returns a nil error. -/
def swallowHook {M : Type} : Hook M :=
  fun m => .next m (fun r => .done r.1 none)

/-- A hook that calls `next.Mutate` with the mutation it received and then
returns the error `e`, whatever `next.Mutate` returned. -/
def failAfterHook {M : Type} (e : EntError) : Hook M :=
  fun m => .next m (fun r => .done r.1 (some e))

end Ent

namespace Pagination

/-! ## Order lemmas -/

section order
variable {K : Type} [LinearOrder K]

theorem compareValue_self (a : Option K) : compareValue a a = .eq := by
  cases a <;> simp [compareValue]

theorem compareValue_swap (a b : Option K) :
    (compareValue a b).swap = compareValue b a := by
  rcases a with _ | x <;> rcases b with _ | y <;> simp [compareValue, Ordering.swap]
  rcases lt_trichotomy x y with h | h | h
  · simp [h, not_lt_of_lt h, Ordering.swap]
  · simp [h, Ordering.swap]
  · simp [h, not_lt_of_lt h, Ordering.swap]

theorem compareValue_eq_iff (a b : Option K) : compareValue a b = .eq ↔ a = b := by
  rcases a with _ | x <;> rcases b with _ | y <;> simp [compareValue]
  constructor
  · intro h
    exact le_antisymm h.2 h.1
  · rintro rfl
    simp

theorem compareValue_lt_trans {a b c : Option K} (h1 : compareValue a b = .lt)
    (h2 : compareValue b c = .lt) : compareValue a c = .lt := by
  rcases a with _ | x <;> rcases b with _ | y <;> rcases c with _ | z <;>
    simp [compareValue] at h1 h2 ⊢
  have hxy : x < y := by
    by_contra h
    simp [h] at h1
  have hyz : y < z := by
    by_contra h
    simp [h] at h2
  simp [lt_trans hxy hyz]

theorem applyDirection_eq_iff (d : OrderDirection) (c : Ordering) :
    applyDirection d c = .eq ↔ c = .eq := by
  cases d <;> cases c <;> simp [applyDirection, Ordering.swap]

theorem applyDirection_swap (d : OrderDirection) (c : Ordering) :
    (applyDirection d c).swap = applyDirection d c.swap := by
  cases d <;> cases c <;> simp [applyDirection, Ordering.swap]

theorem vLt_irrefl (d : OrderDirection) (a : Option K) : ¬ vLt d a a := by
  unfold vLt
  rw [compareValue_self]
  cases d <;> simp [applyDirection, Ordering.swap]

theorem vLt_trans {d : OrderDirection} {a b c : Option K} (h1 : vLt d a b) (h2 : vLt d b c) :
    vLt d a c := by
  unfold vLt at *
  cases d
  · exact compareValue_lt_trans h1 h2
  · simp only [applyDirection] at *
    rw [compareValue_swap] at *
    exact compareValue_lt_trans h2 h1

theorem applyDirection_gt_iff (d : OrderDirection) (a b : Option K) :
    applyDirection d (compareValue a b) = .gt ↔ vLt d b a := by
  unfold vLt
  rw [← compareValue_swap a b, ← applyDirection_swap]
  cases applyDirection d (compareValue a b) <;> simp [Ordering.swap]

theorem comparePos_lt_iff (d : OrderDirection) (p q : Position K) :
    comparePos d p q = .lt ↔ vLt d p.value q.value ∨ (p.value = q.value ∧ p.id < q.id) := by
  unfold comparePos vLt
  cases h : applyDirection d (compareValue p.value q.value)
  · simp
  · have := (compareValue_eq_iff _ _).mp ((applyDirection_eq_iff _ _).mp h)
    simp only [this, true_and, false_or, reduceCtorEq]
    split_ifs <;> simp_all
  · have hne : p.value ≠ q.value := by
      intro he
      rw [(compareValue_eq_iff _ _).mpr he] at h
      cases d <;> simp [applyDirection, Ordering.swap] at h
    simp [hne]

theorem comparePos_gt_iff (d : OrderDirection) (p q : Position K) :
    comparePos d p q = .gt ↔ comparePos d q p = .lt := by
  rw [comparePos_lt_iff]
  unfold comparePos
  cases h : applyDirection d (compareValue p.value q.value)
  · have h1 : ¬ vLt d q.value p.value := by
      rw [← applyDirection_gt_iff, h]; simp
    have hne : q.value ≠ p.value := by
      intro he
      rw [(compareValue_eq_iff _ _).mpr he.symm] at h
      cases d <;> simp [applyDirection, Ordering.swap] at h
    simp [h1, hne]
  · have he := (compareValue_eq_iff _ _).mp ((applyDirection_eq_iff _ _).mp h)
    have h1 : ¬ vLt d q.value p.value := by
      rw [← applyDirection_gt_iff, h]; simp
    have h1b : ¬ vLt d q.value q.value := vLt_irrefl d _
    simp only [he, h1b, true_and, false_or]
    split_ifs with h2 h3
    · simp [not_lt_of_lt h2]
    · simp [h3]
    · simp [h3]
  · have h1 : vLt d q.value p.value := by
      rw [← applyDirection_gt_iff, h]
    simp [h1]

theorem comparePos_eq_iff (d : OrderDirection) (p q : Position K) :
    comparePos d p q = .eq ↔ p.value = q.value ∧ p.id = q.id := by
  unfold comparePos
  cases h : applyDirection d (compareValue p.value q.value)
  · have hne : p.value ≠ q.value := by
      intro he
      rw [(compareValue_eq_iff _ _).mpr he] at h
      cases d <;> simp [applyDirection, Ordering.swap] at h
    simp [hne]
  · have he := (compareValue_eq_iff _ _).mp ((applyDirection_eq_iff _ _).mp h)
    simp only [he, true_and]
    split_ifs with h2 h3
    · simp [ne_of_lt h2]
    · simp [ne_of_gt h3]
    · simp [le_antisymm (not_lt.mp h3) (not_lt.mp h2)]
  · have hne : p.value ≠ q.value := by
      intro he
      rw [(compareValue_eq_iff _ _).mpr he] at h
      cases d <;> simp [applyDirection, Ordering.swap] at h
    simp [hne]

theorem comparePos_irrefl (d : OrderDirection) (p : Position K) : comparePos d p p ≠ .lt := by
  rw [(comparePos_eq_iff d p p).mpr ⟨rfl, rfl⟩]
  simp

theorem comparePos_trans {d : OrderDirection} {p q r : Position K}
    (h1 : comparePos d p q = .lt) (h2 : comparePos d q r = .lt) : comparePos d p r = .lt := by
  rw [comparePos_lt_iff] at *
  rcases h1 with h1 | ⟨e1, i1⟩ <;> rcases h2 with h2 | ⟨e2, i2⟩
  · exact Or.inl (vLt_trans h1 h2)
  · exact Or.inl (e2 ▸ h1)
  · exact Or.inl (e1 ▸ h2)
  · exact Or.inr ⟨e1.trans e2, lt_trans i1 i2⟩

theorem comparePos_asymm {d : OrderDirection} {p q : Position K}
    (h : comparePos d p q = .lt) : comparePos d q p ≠ .lt := fun h2 =>
  comparePos_irrefl d p (comparePos_trans h h2)

end order


/-! ## The canonical order of the matching rows -/

section canonical
variable {K : Type} [LinearOrder K]

theorem compare_total (f : Option OrderField) (d : OrderDirection) (a b : Row K) :
    compare a b f d ≠ .gt ∨ compare b a f d ≠ .gt := by
  unfold compare
  by_cases h : comparePos d (position f a) (position f b) = .gt
  · right
    rw [comparePos_gt_iff] at h
    intro h2
    rw [comparePos_gt_iff] at h2
    exact comparePos_asymm h h2
  · exact Or.inl h

theorem compare_le_trans (f : Option OrderField) (d : OrderDirection) (a b c : Row K)
    (h1 : compare a b f d ≠ .gt) (h2 : compare b c f d ≠ .gt) : compare a c f d ≠ .gt := by
  unfold compare at *
  intro h3
  rw [comparePos_gt_iff] at h3
  rcases hab : comparePos d (position f a) (position f b) with _ | _ | _
  · exact h2 ((comparePos_gt_iff _ _ _).mpr (comparePos_trans h3 hab))
  · obtain ⟨hv, hi⟩ := (comparePos_eq_iff _ _ _).mp hab
    apply h2
    rw [comparePos_gt_iff, comparePos_lt_iff] at *
    rw [← hv, ← hi]
    exact h3
  · exact h1 hab

theorem ordered_perm (store : List (Row K)) (filter : Row K → Bool) (o : OrderSpec) :
    (ordered store filter o).Perm (store.filter filter) :=
  List.perm_insertionSort _ _

theorem ordered_length (store : List (Row K)) (filter : Row K → Bool) (o : OrderSpec) :
    (ordered store filter o).length = count store filter :=
  (ordered_perm store filter o).length_eq

theorem ordered_sorted (store : List (Row K)) (filter : Row K → Bool) (o : OrderSpec) :
    (ordered store filter o).Pairwise (fun a b => compare a b o.field o.direction ≠ .gt) := by
  haveI : IsTotal (Row K) (fun a b => compare a b o.field o.direction ≠ .gt) :=
    ⟨compare_total o.field o.direction⟩
  haveI : IsTrans (Row K) (fun a b => compare a b o.field o.direction ≠ .gt) :=
    ⟨compare_le_trans o.field o.direction⟩
  exact List.sorted_insertionSort _ _

theorem ordered_ids_nodup (store : List (Row K)) (filter : Row K → Bool) (o : OrderSpec)
    (hid : (store.map (fun r => r.id)).Nodup) :
    ((ordered store filter o).map (fun r => r.id)).Nodup := by
  have h1 : ((store.filter filter).map (fun r => r.id)).Nodup :=
    hid.sublist ((List.filter_sublist store).map _)
  exact ((ordered_perm store filter o).map _).nodup_iff.mpr h1

theorem ordered_strict (store : List (Row K)) (filter : Row K → Bool) (o : OrderSpec)
    (hid : (store.map (fun r => r.id)).Nodup) :
    (ordered store filter o).Pairwise (fun a b => compare a b o.field o.direction = .lt) := by
  have h1 := ordered_sorted store filter o
  have h2 : (ordered store filter o).Pairwise (fun a b => a.id ≠ b.id) := by
    have := ordered_ids_nodup store filter o hid
    rwa [List.Nodup, List.pairwise_map] at this
  refine (h1.and h2).imp ?_
  rintro a b ⟨hle, hne⟩
  unfold compare at *
  rcases h : comparePos o.direction (position o.field a) (position o.field b) with _ | _ | _
  · rfl
  · exact absurd ((comparePos_eq_iff _ _ _).mp h).2 hne
  · exact absurd h hle

/-! ## Filtering a sorted list by a boundary -/

theorem filter_append_split {α : Type} (p : α → Bool) (A B : List α)
    (hA : ∀ a ∈ A, p a = false) (hB : ∀ b ∈ B, p b = true) :
    (A ++ B).filter p = B ∧ (A ++ B).filter (fun r => !p r) = A := by
  rw [List.filter_append, List.filter_append]
  have h1 : A.filter p = [] := List.filter_eq_nil_iff.mpr (fun a ha => by simp [hA a ha])
  have h2 : B.filter p = B := List.filter_eq_self.mpr hB
  have h3 : A.filter (fun r => !p r) = A :=
    List.filter_eq_self.mpr (fun a ha => by simp [hA a ha])
  have h4 : B.filter (fun r => !p r) = [] :=
    List.filter_eq_nil_iff.mpr (fun b hb => by simp [hB b hb])
  simp [h1, h2, h3, h4]

theorem filter_split_upward {α : Type} (R : α → α → Prop) (p : α → Bool)
    (hup : ∀ a b, R a b → p a = true → p b = true) (L : List α) (hL : L.Pairwise R) :
    L.filter (fun r => !p r) ++ L.filter p = L := by
  induction L with
  | nil => simp
  | cons h t ih =>
    rw [List.pairwise_cons] at hL
    by_cases hp : p h = true
    · have hall : ∀ x ∈ t, p x = true := fun x hx => hup h x (hL.1 x hx) hp
      have := filter_append_split p [] (h :: t) (by simp) (by
        intro b hb
        rcases List.mem_cons.mp hb with rfl | hb
        · exact hp
        · exact hall b hb)
      simp only [List.nil_append] at this
      rw [this.1, this.2]
      simp
    · have hp2 : p h = false := by simpa using hp
      simp only [List.filter_cons, hp2, Bool.not_false, ↓reduceIte, List.cons_append,
        Bool.false_eq_true]
      rw [ih hL.2]

theorem filter_split_downward {α : Type} (R : α → α → Prop) (p : α → Bool)
    (hdown : ∀ a b, R a b → p b = true → p a = true) (L : List α) (hL : L.Pairwise R) :
    L.filter p ++ L.filter (fun r => !p r) = L := by
  have h := filter_split_upward R (fun r => !p r) (fun a b hab ha => by
    by_contra hb
    have hb2 : p b = true := by simpa using hb
    have := hdown a b hab hb2
    simp [this] at ha) L hL
  simpa using h

theorem beyond_forward_upward (o : OrderSpec) (b : Position K) (x y : Row K)
    (hxy : compare x y o.field o.direction = .lt) (hx : beyond o .forward b x = true) :
    beyond o .forward b y = true := by
  simp only [beyond, decide_eq_true_eq] at *
  exact comparePos_trans hx hxy

theorem beyond_backward_downward (o : OrderSpec) (b : Position K) (x y : Row K)
    (hxy : compare x y o.field o.direction = .lt) (hy : beyond o .backward b y = true) :
    beyond o .backward b x = true := by
  simp only [beyond, decide_eq_true_eq] at *
  exact comparePos_trans hxy hy

end canonical


/-! ## The window of one request -/

section window

theorem scan_limit {K : Type} [LinearOrder K] (store : List (Row K)) (filter : Row K → Bool) (o : OrderSpec)
    (b : Option (Position K)) (dir : ScanDirection) (n : Nat) :
    scan store filter o b dir (some n) = (scan store filter o b dir none).take n := by
  simp [scan]

theorem decode_ok {K : Type} (c : Cursor K) (o : OrderSpec) (h : c.direction = o.direction) :
    decode c o = .ok { value := c.value, id := c.id } := by
  simp [decode, h]

theorem decode_toCursor {K : Type} (o : OrderSpec) (r : Row K) :
    decode (toCursor o r) o = .ok (position o.field r) := by
  simp [decode, toCursor, encode, position]

theorem take_trim {α : Type} (S : List α) (m : Nat) :
    (match some (m : Int), decide (m < S.length) with
      | some k, true => List.take k.toNat (List.take (m + 1) S)
      | _, _ => List.take (m + 1) S) = S.take m := by
  by_cases h : m < S.length
  · simp [h, List.take_take]
  · simp only [h, decide_False]
    rw [List.take_of_length_le (by omega), List.take_of_length_le (by omega)]

theorem drop_trim {α : Type} (S : List α) (m : Nat) :
    (match some (m : Int), decide (m < S.length) with
      | some k, true =>
        List.drop ((m + 1) ⊓ S.length - k.toNat) (List.take (m + 1) S).reverse
      | _, _ => (List.take (m + 1) S).reverse) = (S.take m).reverse := by
  by_cases h : m < S.length
  · simp only [h, decide_True, Int.toNat_ofNat]
    rw [List.drop_reverse, List.take_take, List.length_take]
    congr 2
    omega
  · simp only [h, decide_False]
    rw [List.take_of_length_le (by omega), List.take_of_length_le (by omega)]

/-- A forward request: the page is the first `first` rows beyond the boundary,
`hasNextPage` tells whether more rows lie beyond it, `hasPreviousPage` whether
the boundary resolves to a non-initial position. -/
theorem resolveWindow_forward {K : Type} [LinearOrder K] (store : List (Row K)) (filter : Row K → Bool) (o : OrderSpec)
    (n : Option Int) (c : Option (Cursor K))
    (hn : ∀ k, n = some k → 0 < k)
    (hc : ∀ cur, c = some cur → cur.direction = o.direction) :
    resolveWindow store filter o { first := n, after := c, last := none, before := none } =
      .ok
        { rows :=
            match n with
            | none =>
              scan store filter o (c.map (fun cur => { value := cur.value, id := cur.id }))
                .forward none
            | some k =>
              (scan store filter o (c.map (fun cur => { value := cur.value, id := cur.id }))
                .forward none).take k.toNat
          hasNextPage :=
            match n with
            | none => false
            | some k =>
              decide (k.toNat <
                (scan store filter o (c.map (fun cur => { value := cur.value, id := cur.id }))
                  .forward none).length)
          hasPreviousPage :=
            match c with
            | none => false
            | some cur =>
              decide (0 < boundaryPosition store filter o .forward
                { value := cur.value, id := cur.id }) } := by
  rcases n with _ | k
  · rcases c with _ | cur
    · simp [resolveWindow]
    · simp [resolveWindow, decode_ok cur o (hc cur rfl)]
  · have hk : 0 < k := hn k rfl
    have hk2 : ¬ k ≤ 0 := by omega
    obtain ⟨m, rfl⟩ := Int.eq_ofNat_of_zero_le (le_of_lt hk)
    rcases c with _ | cur
    · simp only [resolveWindow]
      simp [hk2, scan_limit]
      exact take_trim _ m
    · simp only [resolveWindow]
      simp [hk2, scan_limit, decode_ok cur o (hc cur rfl)]
      exact take_trim _ m

/-- A backward request: the page is the last `last` rows before the boundary in
presentation order, `hasPreviousPage` tells whether more rows lie before it,
`hasNextPage` whether the boundary resolves to a non-initial position of the
backward scan. -/
theorem resolveWindow_backward {K : Type} [LinearOrder K] (store : List (Row K)) (filter : Row K → Bool) (o : OrderSpec)
    (n : Option Int) (c : Option (Cursor K)) (hset : n.isSome = true ∨ c.isSome = true)
    (hn : ∀ k, n = some k → 0 < k)
    (hc : ∀ cur, c = some cur → cur.direction = o.direction) :
    resolveWindow store filter o { first := none, after := none, last := n, before := c } =
      .ok
        { rows :=
            match n with
            | none =>
              (scan store filter o (c.map (fun cur => { value := cur.value, id := cur.id }))
                .backward none).reverse
            | some k =>
              ((scan store filter o (c.map (fun cur => { value := cur.value, id := cur.id }))
                .backward none).take k.toNat).reverse
          hasNextPage :=
            match c with
            | none => false
            | some cur =>
              decide (0 < boundaryPosition store filter o .backward
                { value := cur.value, id := cur.id })
          hasPreviousPage :=
            match n with
            | none => false
            | some k =>
              decide (k.toNat <
                (scan store filter o (c.map (fun cur => { value := cur.value, id := cur.id }))
                  .backward none).length) } := by
  rcases n with _ | k
  · rcases c with _ | cur
    · simp at hset
    · simp [resolveWindow, decode_ok cur o (hc cur rfl)]
  · have hk : 0 < k := hn k rfl
    have hk2 : ¬ k ≤ 0 := by omega
    obtain ⟨m, rfl⟩ := Int.eq_ofNat_of_zero_le (le_of_lt hk)
    rcases c with _ | cur
    · simp only [resolveWindow]
      simp [hk2, scan_limit]
      exact drop_trim _ m
    · simp only [resolveWindow]
      simp [hk2, scan_limit, decode_ok cur o (hc cur rfl)]
      exact drop_trim _ m

theorem boundaryPosition_eq {K : Type} [LinearOrder K] (store : List (Row K))
    (filter : Row K → Bool) (o : OrderSpec) (dir : ScanDirection) (b : Position K) :
    boundaryPosition store filter o dir b =
      ((ordered store filter o).filter (fun r => !beyond o dir b r)).length := by
  unfold boundaryPosition
  exact (((ordered_perm store filter o).filter _).length_eq).symm

/-- The window of a forward request, given the split of the ordered rows at
the boundary. -/
theorem window_forward_of_split {K : Type} [LinearOrder K] (store : List (Row K))
    (filter : Row K → Bool) (o : OrderSpec) (n : Option Int) (c : Option (Cursor K))
    (hn : ∀ k, n = some k → 0 < k)
    (hc : ∀ cur, c = some cur → cur.direction = o.direction)
    (A B : List (Row K)) (hL : ordered store filter o = A ++ B)
    (hnone : c = none → A = [])
    (hsome : ∀ cur, c = some cur →
      (∀ a ∈ A, beyond o .forward { value := cur.value, id := cur.id } a = false) ∧
      (∀ x ∈ B, beyond o .forward { value := cur.value, id := cur.id } x = true)) :
    resolveWindow store filter o { first := n, after := c, last := none, before := none } =
      .ok
        { rows :=
            match n with
            | none => B
            | some k => B.take k.toNat
          hasNextPage :=
            match n with
            | none => false
            | some k => decide (k.toNat < B.length)
          hasPreviousPage := decide (0 < A.length) } := by
  rw [resolveWindow_forward store filter o n c hn hc]
  rcases c with _ | cur
  · have hA := hnone rfl
    subst hA
    have hS : scan store filter o none .forward none = B := by
      simp [scan, hL]
    simp only [Option.map_none', hS]
    simp
  · obtain ⟨h1, h2⟩ := hsome cur rfl
    have hsplit := filter_append_split _ A B h1 h2
    have hS : scan store filter o (some { value := cur.value, id := cur.id }) .forward none
        = B := by
      simp only [scan, hL]
      exact hsplit.1
    have hP : boundaryPosition store filter o .forward { value := cur.value, id := cur.id }
        = A.length := by
      rw [boundaryPosition_eq, hL, hsplit.2]
    simp only [Option.map_some', hS, hP]

/-- The window of a backward request, given the split of the ordered rows at
the boundary. -/
theorem window_backward_of_split {K : Type} [LinearOrder K] (store : List (Row K))
    (filter : Row K → Bool) (o : OrderSpec) (n : Option Int) (c : Option (Cursor K))
    (hset : n.isSome = true ∨ c.isSome = true)
    (hn : ∀ k, n = some k → 0 < k)
    (hc : ∀ cur, c = some cur → cur.direction = o.direction)
    (A B : List (Row K)) (hL : ordered store filter o = A ++ B)
    (hnone : c = none → B = [])
    (hsome : ∀ cur, c = some cur →
      (∀ a ∈ A, beyond o .backward { value := cur.value, id := cur.id } a = true) ∧
      (∀ x ∈ B, beyond o .backward { value := cur.value, id := cur.id } x = false)) :
    resolveWindow store filter o { first := none, after := none, last := n, before := c } =
      .ok
        { rows :=
            match n with
            | none => A
            | some k => A.drop (A.length - k.toNat)
          hasNextPage := decide (0 < B.length)
          hasPreviousPage :=
            match n with
            | none => false
            | some k => decide (k.toNat < A.length) } := by
  rw [resolveWindow_backward store filter o n c hset hn hc]
  have hrows : ∀ k : Nat, (A.reverse.take k).reverse = A.drop (A.length - k) := by
    intro k
    rw [List.take_reverse, List.reverse_reverse]
  rcases c with _ | cur
  · have hB := hnone rfl
    subst hB
    have hS : scan store filter o none .backward none = A.reverse := by
      simp [scan, hL]
    simp only [Option.map_none', hS, hrows, List.length_reverse, List.reverse_reverse]
    simp
  · obtain ⟨h1, h2⟩ := hsome cur rfl
    have hsplit := filter_append_split (fun r => !beyond o .backward
      { value := cur.value, id := cur.id } r) A B (by simpa using h1) (by simpa using h2)
    simp only [Bool.not_not] at hsplit
    have hS : scan store filter o (some { value := cur.value, id := cur.id }) .backward none
        = A.reverse := by
      simp only [scan, hL, List.filter_reverse]
      rw [hsplit.2]
    have hP : boundaryPosition store filter o .backward { value := cur.value, id := cur.id }
        = B.length := by
      rw [boundaryPosition_eq, hL, hsplit.1]
    simp only [Option.map_some', hS, hP, hrows, List.length_reverse, List.reverse_reverse]

end window


/-! ## Splitting the ordered rows at a boundary -/

section split

theorem toCursor_position {K : Type} (o : OrderSpec) (r : Row K) :
    ({ value := (toCursor o r).value, id := (toCursor o r).id } : Position K) =
      position o.field r := rfl

theorem toCursor_direction {K : Type} (o : OrderSpec) (r : Row K) :
    (toCursor o r).direction = o.direction := rfl

theorem split_at_last {K : Type} [LinearOrder K] (o : OrderSpec) (A B : List (Row K))
    (hL : (A ++ B).Pairwise (fun a b => compare a b o.field o.direction = .lt))
    (r : Row K) (hr : A.getLast? = some r) :
    (∀ a ∈ A, beyond o .forward (position o.field r) a = false) ∧
    (∀ x ∈ B, beyond o .forward (position o.field r) x = true) := by
  obtain ⟨A', rfl⟩ : ∃ A', A = A' ++ [r] := by
    rcases List.eq_nil_or_concat A with h | ⟨A', x, h⟩
    · subst h; simp at hr
    · subst h
      simp at hr
      exact ⟨A', by rw [hr, List.concat_eq_append]⟩
  rw [List.pairwise_append] at hL
  obtain ⟨hA, -, hAB⟩ := hL
  rw [List.pairwise_append] at hA
  obtain ⟨-, -, hA'r⟩ := hA
  constructor
  · intro a ha
    simp only [beyond, decide_eq_false_iff_not]
    rcases List.mem_append.mp ha with h | h
    · exact comparePos_asymm (hA'r a h r (by simp))
    · simp at h
      subst h
      exact comparePos_irrefl _ _
  · intro x hx
    simp only [beyond, decide_eq_true_eq]
    exact hAB r (by simp) x hx

theorem split_at_head {K : Type} [LinearOrder K] (o : OrderSpec) (A B : List (Row K))
    (hL : (A ++ B).Pairwise (fun a b => compare a b o.field o.direction = .lt))
    (r : Row K) (hr : B.head? = some r) :
    (∀ a ∈ A, beyond o .backward (position o.field r) a = true) ∧
    (∀ x ∈ B, beyond o .backward (position o.field r) x = false) := by
  obtain ⟨B', rfl⟩ : ∃ B', B = r :: B' := by
    rcases B with _ | ⟨x, B'⟩
    · simp at hr
    · simp at hr
      exact ⟨B', by rw [hr]⟩
  rw [List.pairwise_append] at hL
  obtain ⟨-, hB, hAB⟩ := hL
  rw [List.pairwise_cons] at hB
  constructor
  · intro a ha
    simp only [beyond, decide_eq_true_eq]
    exact hAB a ha r (by simp)
  · intro x hx
    simp only [beyond, decide_eq_false_iff_not]
    rcases List.mem_cons.mp hx with h | h
    · subst h
      exact comparePos_irrefl _ _
    · exact comparePos_asymm (hB.1 x h)

theorem exists_split_forward {K : Type} [LinearOrder K] (o : OrderSpec) (L : List (Row K))
    (hL : L.Pairwise (fun a b => compare a b o.field o.direction = .lt)) (b : Position K) :
    ∃ A B, L = A ++ B ∧ (∀ a ∈ A, beyond o .forward b a = false) ∧
      (∀ x ∈ B, beyond o .forward b x = true) := by
  refine ⟨L.filter (fun r => !beyond o .forward b r), L.filter (beyond o .forward b),
    (filter_split_upward _ _ (fun x y hxy hx => beyond_forward_upward o b x y hxy hx) L hL).symm,
    ?_, ?_⟩
  · intro a ha
    simpa using (List.mem_filter.mp ha).2
  · intro x hx
    exact (List.mem_filter.mp hx).2

theorem exists_split_backward {K : Type} [LinearOrder K] (o : OrderSpec) (L : List (Row K))
    (hL : L.Pairwise (fun a b => compare a b o.field o.direction = .lt)) (b : Position K) :
    ∃ A B, L = A ++ B ∧ (∀ a ∈ A, beyond o .backward b a = true) ∧
      (∀ x ∈ B, beyond o .backward b x = false) := by
  refine ⟨L.filter (beyond o .backward b), L.filter (fun r => !beyond o .backward b r),
    (filter_split_downward _ _ (fun x y hxy hy => beyond_backward_downward o b x y hxy hy)
      L hL).symm, ?_, ?_⟩
  · intro a ha
    exact (List.mem_filter.mp ha).2
  · intro x hx
    simpa using (List.mem_filter.mp hx).2

end split

/-! ## One page of the client loops -/

section page

theorem forward_page {K : Type} [LinearOrder K] (store : List (Row K))
    (filter : Row K → Bool) (orderBy : Option OrderSpec) (n : Int) (hn : 0 < n)
    (hid : (store.map (fun r => r.id)).Nodup)
    (A B : List (Row K)) (hL : ordered store filter (orderingOf orderBy) = A ++ B) :
    todos store filter orderBy
        { first := some n, after := A.getLast?.map (toCursor (orderingOf orderBy)),
          last := none, before := none } =
      .ok (assemble store filter (orderingOf orderBy)
        { rows := B.take n.toNat
          hasNextPage := decide (n.toNat < B.length)
          hasPreviousPage := decide (0 < A.length) }) := by
  have hstrict := ordered_strict store filter (orderingOf orderBy) hid
  rw [hL] at hstrict
  unfold todos
  rw [window_forward_of_split store filter (orderingOf orderBy) (some n)
    (A.getLast?.map (toCursor (orderingOf orderBy))) (by intro k hk; cases hk; exact hn)
    (by
      intro cur hcur
      rcases hA : A.getLast? with _ | r
      · simp [hA] at hcur
      · simp [hA] at hcur
        subst hcur
        rfl) A B hL
    (by
      intro h
      rcases hA : A.getLast? with _ | r
      · exact List.getLast?_eq_none_iff.mp hA
      · simp [hA] at h)
    (by
      intro cur hcur
      rcases hA : A.getLast? with _ | r
      · simp [hA] at hcur
      · simp [hA] at hcur
        subst hcur
        exact split_at_last (orderingOf orderBy) A B hstrict r hA)]

theorem backward_page {K : Type} [LinearOrder K] (store : List (Row K))
    (filter : Row K → Bool) (orderBy : Option OrderSpec) (n : Int) (hn : 0 < n)
    (hid : (store.map (fun r => r.id)).Nodup)
    (A B : List (Row K)) (hL : ordered store filter (orderingOf orderBy) = A ++ B) :
    todos store filter orderBy
        { first := none, after := none, last := some n,
          before := B.head?.map (toCursor (orderingOf orderBy)) } =
      .ok (assemble store filter (orderingOf orderBy)
        { rows := A.drop (A.length - n.toNat)
          hasNextPage := decide (0 < B.length)
          hasPreviousPage := decide (n.toNat < A.length) }) := by
  have hstrict := ordered_strict store filter (orderingOf orderBy) hid
  rw [hL] at hstrict
  unfold todos
  rw [window_backward_of_split store filter (orderingOf orderBy) (some n)
    (B.head?.map (toCursor (orderingOf orderBy))) (Or.inl rfl)
    (by intro k hk; cases hk; exact hn)
    (by
      intro cur hcur
      rcases hB : B.head? with _ | r
      · simp [hB] at hcur
      · simp [hB] at hcur
        subst hcur
        rfl) A B hL
    (by
      intro h
      rcases hB : B.head? with _ | r
      · exact List.head?_eq_none_iff.mp hB
      · simp [hB] at h)
    (by
      intro cur hcur
      rcases hB : B.head? with _ | r
      · simp [hB] at hcur
      · simp [hB] at hcur
        subst hcur
        exact split_at_head (orderingOf orderBy) A B hstrict r hB)]

end page


/-! ## The client loops -/

section loops

theorem assemble_nodes {K : Type} (store : List (Row K)) (filter : Row K → Bool)
    (o : OrderSpec) (w : Window K) : nodesOf (assemble store filter o w) = w.rows := by
  simp [nodesOf, assemble, Function.comp_def]

theorem assemble_endCursor {K : Type} (store : List (Row K)) (filter : Row K → Bool)
    (o : OrderSpec) (w : Window K) :
    (assemble store filter o w).pageInfo.endCursor = w.rows.getLast?.map (toCursor o) := by
  simp [assemble, Function.comp_def]

theorem assemble_startCursor {K : Type} (store : List (Row K)) (filter : Row K → Bool)
    (o : OrderSpec) (w : Window K) :
    (assemble store filter o w).pageInfo.startCursor = w.rows.head?.map (toCursor o) := by
  simp [assemble, Function.comp_def]

theorem take_ne_nil {α : Type} (B : List α) (k : Nat) (hk : 0 < k) (h : k < B.length) :
    B.take k ≠ [] := by
  intro he
  have h1 : (B.take k).length = min k B.length := by rw [List.length_take]
  rw [he] at h1
  simp only [List.length_nil] at h1
  omega

theorem drop_ne_nil {α : Type} (A : List α) (k : Nat) (hk : 0 < k) (h : k < A.length) :
    A.drop (A.length - k) ≠ [] := by
  intro he
  have h1 : (A.drop (A.length - k)).length = A.length - (A.length - k) := by
    rw [List.length_drop]
  rw [he] at h1
  simp only [List.length_nil] at h1
  omega

theorem pageForward_spec {K : Type} [LinearOrder K] (store : List (Row K))
    (filter : Row K → Bool) (orderBy : Option OrderSpec) (n : Int) (hn : 0 < n)
    (hid : (store.map (fun r => r.id)).Nodup) :
    ∀ (fuel : Nat) (A B : List (Row K)),
      ordered store filter (orderingOf orderBy) = A ++ B → B.length < fuel →
      ∃ pages, pageForward store filter orderBy n fuel
          (A.getLast?.map (toCursor (orderingOf orderBy))) = some pages ∧
        pages.flatMap nodesOf = B ∧ (∀ c ∈ pages, (nodesOf c).length ≤ n.toNat) ∧
        pages.getLast?.map (fun c => c.pageInfo.endCursor) =
          some (B.getLast?.map (toCursor (orderingOf orderBy))) := by
  intro fuel
  induction fuel with
  | zero => intro A B _ h; omega
  | succ fuel ih =>
    intro A B hL hlt
    have hpos : 0 < n.toNat := by omega
    simp only [pageForward]
    rw [forward_page store filter orderBy n hn hid A B hL]
    have hnodes := assemble_nodes store filter (orderingOf orderBy)
      { rows := B.take n.toNat, hasNextPage := decide (n.toNat < B.length),
        hasPreviousPage := decide (0 < A.length) }
    have hend := assemble_endCursor store filter (orderingOf orderBy)
      { rows := B.take n.toNat, hasNextPage := decide (n.toNat < B.length),
        hasPreviousPage := decide (0 < A.length) }
    have hnext : (assemble store filter (orderingOf orderBy)
      { rows := B.take n.toNat, hasNextPage := decide (n.toNat < B.length),
        hasPreviousPage := decide (0 < A.length) }).pageInfo.hasNextPage
        = decide (n.toNat < B.length) := rfl
    generalize assemble store filter (orderingOf orderBy)
      { rows := B.take n.toNat, hasNextPage := decide (n.toNat < B.length),
        hasPreviousPage := decide (0 < A.length) } = pg at hnodes hend hnext ⊢
    simp only at hnodes hend
    have hsize : (nodesOf pg).length ≤ n.toNat := by
      rw [hnodes, List.length_take]
      exact min_le_left _ _
    by_cases h : n.toNat < B.length
    · have hne := take_ne_nil B n.toNat hpos h
      have hlast : (A ++ B.take n.toNat).getLast? = (B.take n.toNat).getLast? := by
        rw [List.getLast?_append]
        rcases hq : (B.take n.toNat).getLast? with _ | q
        · exact absurd (List.getLast?_eq_none_iff.mp hq) hne
        · simp
      obtain ⟨rest, hrest, hjoin, hlen, hfin⟩ := ih (A ++ B.take n.toNat) (B.drop n.toNat)
        (by rw [hL, List.append_assoc, List.take_append_drop])
        (by rw [List.length_drop]; omega)
      refine ⟨pg :: rest, ?_, ?_, ?_, ?_⟩
      · rw [hlast] at hrest
        simp only [hnext, h, decide_True, if_true, hend, hrest, Option.map_some']
      · rw [List.flatMap_cons, hjoin, hnodes, List.take_append_drop]
      · intro c hc
        rcases List.mem_cons.mp hc with rfl | hc
        · exact hsize
        · exact hlen c hc
      · have hrne : rest ≠ [] := by
          rintro rfl
          simp at hfin
        obtain ⟨x, xs, rfl⟩ := List.exists_cons_of_ne_nil hrne
        rw [List.getLast?_cons_cons, hfin, List.getLast?_drop]
        simp [Nat.not_le.mpr h]
    · refine ⟨[pg], ?_, ?_, ?_, ?_⟩
      · simp only [hnext, h, decide_False, Bool.false_eq_true, if_false]
      · simp only [List.flatMap_cons, List.flatMap_nil, List.append_nil, hnodes]
        exact List.take_of_length_le (by omega)
      · intro c hc
        simp at hc
        subst hc
        exact hsize
      · simp only [List.getLast?_singleton, Option.map_some', hend]
        rw [List.take_of_length_le (by omega)]

theorem pageBackwards_spec {K : Type} [LinearOrder K] (store : List (Row K))
    (filter : Row K → Bool) (orderBy : Option OrderSpec) (n : Int) (hn : 0 < n)
    (hid : (store.map (fun r => r.id)).Nodup) :
    ∀ (fuel : Nat) (A B : List (Row K)),
      ordered store filter (orderingOf orderBy) = A ++ B → A.length < fuel →
      ∃ pages, pageBackwards store filter orderBy n fuel
          (B.head?.map (toCursor (orderingOf orderBy))) = some pages ∧
        pages.flatMap (fun c => (nodesOf c).reverse) = A.reverse ∧
        (∀ c ∈ pages, (nodesOf c).length ≤ n.toNat ∧ (nodesOf c).Sublist A) ∧
        pages.getLast?.map (fun c => c.pageInfo.startCursor) =
          some (A.head?.map (toCursor (orderingOf orderBy))) := by
  intro fuel
  induction fuel with
  | zero => intro A B _ h; omega
  | succ fuel ih =>
    intro A B hL hlt
    have hpos : 0 < n.toNat := by omega
    simp only [pageBackwards]
    rw [backward_page store filter orderBy n hn hid A B hL]
    have hnodes := assemble_nodes store filter (orderingOf orderBy)
      { rows := A.drop (A.length - n.toNat), hasNextPage := decide (0 < B.length),
        hasPreviousPage := decide (n.toNat < A.length) }
    have hstart := assemble_startCursor store filter (orderingOf orderBy)
      { rows := A.drop (A.length - n.toNat), hasNextPage := decide (0 < B.length),
        hasPreviousPage := decide (n.toNat < A.length) }
    have hprev : (assemble store filter (orderingOf orderBy)
      { rows := A.drop (A.length - n.toNat), hasNextPage := decide (0 < B.length),
        hasPreviousPage := decide (n.toNat < A.length) }).pageInfo.hasPreviousPage
        = decide (n.toNat < A.length) := rfl
    generalize assemble store filter (orderingOf orderBy)
      { rows := A.drop (A.length - n.toNat), hasNextPage := decide (0 < B.length),
        hasPreviousPage := decide (n.toNat < A.length) } = pg at hnodes hstart hprev ⊢
    simp only at hnodes hstart
    have hsize : (nodesOf pg).length ≤ n.toNat ∧ (nodesOf pg).Sublist A := by
      rw [hnodes, List.length_drop]
      exact ⟨by omega, List.drop_sublist _ _⟩
    by_cases h : n.toNat < A.length
    · have hne := drop_ne_nil A n.toNat hpos h
      have hhead : (A.drop (A.length - n.toNat) ++ B).head? =
          (A.drop (A.length - n.toNat)).head? := by
        rw [List.head?_append]
        rcases hq : (A.drop (A.length - n.toNat)).head? with _ | q
        · exact absurd (List.head?_eq_none_iff.mp hq) hne
        · simp
      obtain ⟨rest, hrest, hjoin, hlen, hfin⟩ := ih (A.take (A.length - n.toNat))
        (A.drop (A.length - n.toNat) ++ B)
        (by rw [hL, ← List.append_assoc, List.take_append_drop])
        (by rw [List.length_take]; omega)
      refine ⟨pg :: rest, ?_, ?_, ?_, ?_⟩
      · rw [hhead] at hrest
        simp only [hprev, h, decide_True, if_true, hstart, hrest, Option.map_some']
      · rw [List.flatMap_cons, hjoin, hnodes, ← List.reverse_append,
          List.take_append_drop]
      · intro c hc
        rcases List.mem_cons.mp hc with rfl | hc
        · exact hsize
        · exact ⟨(hlen c hc).1, (hlen c hc).2.trans (List.take_sublist _ _)⟩
      · have hrne : rest ≠ [] := by
          rintro rfl
          simp at hfin
        obtain ⟨x, xs, rfl⟩ := List.exists_cons_of_ne_nil hrne
        rw [List.getLast?_cons_cons, hfin, List.head?_take]
        have : A.length - n.toNat ≠ 0 := by omega
        simp [this]
    · refine ⟨[pg], ?_, ?_, ?_, ?_⟩
      · simp only [hprev, h, decide_False, Bool.false_eq_true, if_false]
      · simp only [List.flatMap_cons, List.flatMap_nil, List.append_nil, hnodes]
        have : A.length - n.toNat = 0 := by omega
        rw [this, List.drop_zero]
      · intro c hc
        simp at hc
        subst hc
        exact hsize
      · simp only [List.getLast?_singleton, Option.map_some', hstart]
        have : A.length - n.toNat = 0 := by omega
        rw [this, List.drop_zero]

end loops


/-! ## Where a page lies in the ordered rows -/

section place

theorem resolveWindow_ok_cases {K : Type} [LinearOrder K] (store : List (Row K))
    (filter : Row K → Bool) (o : OrderSpec) (req : PageRequest K) (w : Window K)
    (h : resolveWindow store filter o req = .ok w) :
    (req.last = none ∧ req.before = none ∧ (∀ k, req.first = some k → 0 < k) ∧
      (∀ cur, req.after = some cur → cur.direction = o.direction)) ∨
    (req.first = none ∧ req.after = none ∧
      (req.last.isSome = true ∨ req.before.isSome = true) ∧
      (∀ k, req.last = some k → 0 < k) ∧
      (∀ cur, req.before = some cur → cur.direction = o.direction)) := by
  rcases req with ⟨f, a, l, b⟩
  rcases f with _ | f <;> rcases a with _ | a <;> rcases l with _ | l <;> rcases b with _ | b
  all_goals simp only [resolveWindow, Option.isSome_none, Option.isSome_some, Bool.or_false,
    Bool.or_true, Bool.and_true, Bool.and_false, Bool.or_self, Bool.and_self,
    Bool.false_eq_true, if_true, if_false, reduceCtorEq] at h
  all_goals simp
  all_goals (try refine ⟨?_, ?_⟩)
  all_goals first
    | (by_contra hl
       rw [not_lt] at hl
       simp [hl] at h)
    | (by_contra hd
       simp only [decode, hd, if_false] at h
       split at h <;> simp at h)

/-- Every page is a contiguous run `A ++ page ++ C` of the ordered rows;
`hasPreviousPage` tells whether rows precede it and `hasNextPage` whether rows
follow it. -/
theorem page_position {K : Type} [LinearOrder K] (store : List (Row K))
    (filter : Row K → Bool) (orderBy : Option OrderSpec) (req : PageRequest K)
    (conn : Connection K) (hid : (store.map (fun r => r.id)).Nodup)
    (h : todos store filter orderBy req = .ok conn) :
    ∃ A C, ordered store filter (orderingOf orderBy) = A ++ nodesOf conn ++ C ∧
      conn.pageInfo.hasPreviousPage = decide (0 < A.length) ∧
      conn.pageInfo.hasNextPage = decide (0 < C.length) := by
  have hstrict := ordered_strict store filter (orderingOf orderBy) hid
  unfold todos at h
  rcases hw : resolveWindow store filter (orderingOf orderBy) req with e | w
  · rw [hw] at h
    simp at h
  rw [hw] at h
  simp only [Except.ok.injEq] at h
  subst h
  rw [assemble_nodes]
  rcases req with ⟨f, a, l, b⟩
  rcases resolveWindow_ok_cases store filter (orderingOf orderBy) _ w hw with
    ⟨h1, h2, hn, hc⟩ | ⟨h1, h2, hset, hn, hc⟩
  · simp only at h1 h2 hn hc
    subst h1 h2
    obtain ⟨A, B, hL, hnone, hsome⟩ : ∃ A B,
        ordered store filter (orderingOf orderBy) = A ++ B ∧ (a = none → A = []) ∧
        (∀ cur, a = some cur →
          (∀ x ∈ A, beyond (orderingOf orderBy) .forward
            { value := cur.value, id := cur.id } x = false) ∧
          (∀ x ∈ B, beyond (orderingOf orderBy) .forward
            { value := cur.value, id := cur.id } x = true)) := by
      rcases a with _ | cur
      · exact ⟨[], _, rfl, fun _ => rfl, fun _ hcur => (by cases hcur)⟩
      · obtain ⟨A, B, hL, hA, hB⟩ := exists_split_forward (orderingOf orderBy) _ hstrict
          { value := cur.value, id := cur.id }
        refine ⟨A, B, hL, fun hcur => (by cases hcur), fun c hcur => ?_⟩
        cases hcur
        exact ⟨hA, hB⟩
    rw [window_forward_of_split store filter (orderingOf orderBy) f a hn hc A B hL hnone
      hsome] at hw
    simp only [Except.ok.injEq] at hw
    subst hw
    rcases f with _ | k
    · exact ⟨A, [], by simp [hL], rfl, by simp [assemble]⟩
    · refine ⟨A, B.drop k.toNat, ?_, rfl, ?_⟩
      · simp only [hL, List.append_assoc, List.take_append_drop]
      · simp only [assemble, List.length_drop]
        congr 1
        exact propext (by omega)
  · simp only at h1 h2 hset hn hc
    subst h1 h2
    obtain ⟨A, B, hL, hnone, hsome⟩ : ∃ A B,
        ordered store filter (orderingOf orderBy) = A ++ B ∧ (b = none → B = []) ∧
        (∀ cur, b = some cur →
          (∀ x ∈ A, beyond (orderingOf orderBy) .backward
            { value := cur.value, id := cur.id } x = true) ∧
          (∀ x ∈ B, beyond (orderingOf orderBy) .backward
            { value := cur.value, id := cur.id } x = false)) := by
      rcases b with _ | cur
      · exact ⟨ordered store filter (orderingOf orderBy), [], (by simp), fun _ => rfl,
          fun _ hcur => (by cases hcur)⟩
      · obtain ⟨A, B, hL, hA, hB⟩ := exists_split_backward (orderingOf orderBy) _ hstrict
          { value := cur.value, id := cur.id }
        refine ⟨A, B, hL, fun hcur => (by cases hcur), fun c hcur => ?_⟩
        cases hcur
        exact ⟨hA, hB⟩
    rw [window_backward_of_split store filter (orderingOf orderBy) l b hset hn hc A B hL
      hnone hsome] at hw
    simp only [Except.ok.injEq] at hw
    subst hw
    rcases l with _ | k
    · exact ⟨[], B, by simp [hL], by simp [assemble], rfl⟩
    · refine ⟨A.take (A.length - k.toNat), B, ?_, ?_, rfl⟩
      · simp only [hL, List.take_append_drop]
      · simp only [assemble, List.length_take]
        congr 1
        exact propext (by omega)

end place


/-! ## Forward and backward pagination -/

section pages

/-- C1: for every ordering and page size `n > 0`, requesting `todos(first: n,
after: c)` repeatedly from no cursor, each page's `endCursor` being the next
`after`, succeeds with enough fuel and yields pages of at most `n` rows whose
concatenation in request order is exactly the ordered filtered set: a
permutation of the matching rows, strictly increasing in the ordering; on the
32 rows of `SetupTest` with `n = 5` the pages have 5, 5, 5, 5, 5, 5 and 2
rows. -/
theorem forward_pagination_covers_ordered_set {K : Type} [LinearOrder K]
    (store : List (Row K)) (filter : Row K → Bool) (orderBy : Option OrderSpec) (n : Int)
    (fuel : Nat) (hid : (store.map (fun r => r.id)).Nodup) (hn : 0 < n)
    (hfuel : count store filter < fuel) :
    (∃ pages, pageForward store filter orderBy n fuel none = some pages ∧
      pages.flatMap nodesOf = ordered store filter (orderingOf orderBy) ∧
      (pages.flatMap nodesOf).Perm (store.filter filter) ∧
      (pages.flatMap nodesOf).Pairwise (fun a b =>
        compare a b (orderingOf orderBy).field (orderingOf orderBy).direction = .lt) ∧
      ∀ c ∈ pages, c.edges.length ≤ n.toNat) ∧
    (pageForward setupStore allRows none 5 33 none).map
      (fun ps => ps.map (fun c => c.edges.length)) = some [5, 5, 5, 5, 5, 5, 2] := by
  refine ⟨?_, by decide⟩
  obtain ⟨pages, hrun, hjoin, hlen, -⟩ :=
    pageForward_spec store filter orderBy n hn hid fuel []
      (ordered store filter (orderingOf orderBy)) rfl
      (by rw [ordered_length]; exact hfuel)
  refine ⟨pages, hrun, hjoin, ?_, ?_, ?_⟩
  · rw [hjoin]
    exact ordered_perm store filter _
  · rw [hjoin]
    exact ordered_strict store filter _ hid
  · intro c hc
    have := hlen c hc
    simpa [nodesOf] using this

theorem forward_pagination_covers_ordered_set_witness :
    (pageInfoStore.map (fun r => r.id)).Nodup ∧ (0 : Int) < 2 ∧
      count pageInfoStore allRows < 6 ∧
      ∃ pages, pageForward pageInfoStore allRows none 2 6 none = some pages ∧
        pages.flatMap nodesOf = ordered pageInfoStore allRows (orderingOf none) :=
  ⟨by decide, by decide, by decide,
    let ⟨pages, h1, h2, _⟩ :=
      (forward_pagination_covers_ordered_set pageInfoStore allRows none 2 6
        (by decide) (by decide) (by decide)).1
    ⟨pages, h1, h2⟩⟩

/-- C2: for every ordering and page size `n > 0`, requesting `todos(last: n,
before: c)` repeatedly from no cursor, each page's `startCursor` being the next
`before`, yields pages of at most `n` rows that are each strictly increasing in
the ordering (the presentation order), and whose rows, read page by page from
the last row of each page to its first, are the reverse of the
forward-paginated result; on the 32 rows of `SetupTest` with `n = 7` the pages
have 7, 7, 7, 7 and 4 rows. -/
theorem backward_pagination_reverses_forward {K : Type} [LinearOrder K]
    (store : List (Row K)) (filter : Row K → Bool) (orderBy : Option OrderSpec) (n : Int)
    (fuel : Nat) (hid : (store.map (fun r => r.id)).Nodup) (hn : 0 < n)
    (hfuel : count store filter < fuel) :
    (∃ back fwd, pageBackwards store filter orderBy n fuel none = some back ∧
      pageForward store filter orderBy n fuel none = some fwd ∧
      back.flatMap (fun c => (nodesOf c).reverse) = (fwd.flatMap nodesOf).reverse ∧
      ∀ c ∈ back, c.edges.length ≤ n.toNat ∧
        (nodesOf c).Pairwise (fun a b =>
          compare a b (orderingOf orderBy).field (orderingOf orderBy).direction = .lt)) ∧
    (pageBackwards setupStore allRows none 7 33 none).map
      (fun ps => ps.map (fun c => c.edges.length)) = some [7, 7, 7, 7, 4] := by
  refine ⟨?_, by decide⟩
  obtain ⟨fwd, hf, hfjoin, -, -⟩ :=
    pageForward_spec store filter orderBy n hn hid fuel []
      (ordered store filter (orderingOf orderBy)) rfl
      (by rw [ordered_length]; exact hfuel)
  obtain ⟨back, hb, hbjoin, hblen, -⟩ :=
    pageBackwards_spec store filter orderBy n hn hid fuel
      (ordered store filter (orderingOf orderBy)) [] (by simp)
      (by rw [ordered_length]; exact hfuel)
  refine ⟨back, fwd, hb, hf, ?_, ?_⟩
  · rw [hbjoin, hfjoin]
  · intro c hc
    obtain ⟨h1, h2⟩ := hblen c hc
    refine ⟨by simpa [nodesOf] using h1, ?_⟩
    exact (ordered_strict store filter _ hid).sublist h2

theorem backward_pagination_reverses_forward_witness :
    (pageInfoStore.map (fun r => r.id)).Nodup ∧ (0 : Int) < 2 ∧
      count pageInfoStore allRows < 6 ∧
      ∃ back fwd, pageBackwards pageInfoStore allRows none 2 6 none = some back ∧
        pageForward pageInfoStore allRows none 2 6 none = some fwd ∧
        back.flatMap (fun c => (nodesOf c).reverse) = (fwd.flatMap nodesOf).reverse :=
  ⟨by decide, by decide, by decide,
    let ⟨back, fwd, h1, h2, h3, _⟩ :=
      (backward_pagination_reverses_forward pageInfoStore allRows none 2 6
        (by decide) (by decide) (by decide)).1
    ⟨back, fwd, h1, h2, h3⟩⟩

end pages


/-! ## Page flags -/

section flags

theorem ordered_nodup {K : Type} [LinearOrder K] (store : List (Row K))
    (filter : Row K → Bool) (o : OrderSpec) (hid : (store.map (fun r => r.id)).Nodup) :
    (ordered store filter o).Nodup :=
  List.Nodup.of_map _ (ordered_ids_nodup store filter o hid)

theorem getLast?_run {α : Type} (A P C : List α) (hP : P ≠ [])
    (hnd : (A ++ P ++ C).Nodup) : P.getLast? = (A ++ P ++ C).getLast? ↔ C = [] := by
  obtain ⟨P', p, rfl⟩ : ∃ P' p, P = P' ++ [p] := by
    rcases List.eq_nil_or_concat P with h | ⟨P', p, h⟩
    · exact absurd h hP
    · exact ⟨P', p, by rw [h, List.concat_eq_append]⟩
  have e0 : (P' ++ [p]).getLast? = some p := List.getLast?_concat _
  rcases List.eq_nil_or_concat C with h | ⟨C', c, h⟩
  · subst h
    have e1 : (A ++ (P' ++ [p]) ++ []).getLast? = some p := by
      rw [List.append_nil, ← List.append_assoc, List.getLast?_concat]
    rw [e0, e1]
    simp
  · rw [List.concat_eq_append] at h
    subst h
    have hne : p ≠ c := by
      rintro rfl
      rw [List.nodup_append] at hnd
      exact hnd.2.2 (List.mem_append_right _ (List.mem_append_right _
        (List.mem_singleton_self p))) (List.mem_append_right _ (List.mem_singleton_self p))
    have e1 : (A ++ (P' ++ [p]) ++ (C' ++ [c])).getLast? = some c := by
      rw [← List.append_assoc, List.getLast?_concat]
    rw [e0, e1]
    simp [hne]

theorem head?_run {α : Type} (A P C : List α) (hP : P ≠ [])
    (hnd : (A ++ P ++ C).Nodup) : P.head? = (A ++ P ++ C).head? ↔ A = [] := by
  obtain ⟨p, P', rfl⟩ := List.exists_cons_of_ne_nil hP
  rcases A with _ | ⟨a, A'⟩
  · simp
  · have hne : p ≠ a := by
      rintro rfl
      rw [List.append_assoc, List.nodup_append] at hnd
      exact hnd.2.2 (List.mem_cons_self p A') (List.mem_append_left _ (List.mem_cons_self p P'))
    simp [hne]

/-- C3: for every non-empty page of a connection, `hasNextPage` is false
exactly when the page ends at the last row of the ordered filtered set and
`hasPreviousPage` is false exactly when the page starts at its first row; over
the 5 rows of `TestPageInfo` paged by 2 the pairs `(hasNextPage,
hasPreviousPage)` are `(true,false)`, `(true,true)`, `(false,true)` going
forward, `(true,true)`, `(true,false)` going backward from the last page, and
`(false,false)` for the unpaginated query. -/
theorem page_flags_false_exactly_at_ends {K : Type} [LinearOrder K]
    (store : List (Row K)) (filter : Row K → Bool) (orderBy : Option OrderSpec)
    (req : PageRequest K) (conn : Connection K)
    (hid : (store.map (fun r => r.id)).Nodup)
    (h : todos store filter orderBy req = .ok conn) (hne : conn.edges ≠ []) :
    ((conn.pageInfo.hasNextPage = false ↔
        (nodesOf conn).getLast? = (ordered store filter (orderingOf orderBy)).getLast?) ∧
      (conn.pageInfo.hasPreviousPage = false ↔
        (nodesOf conn).head? = (ordered store filter (orderingOf orderBy)).head?)) ∧
    ((pageForward pageInfoStore allRows (some { field := some .TEXT, direction := .ASC })
        2 6 none).map (fun ps => ps.map flagsOf) =
        some [(true, false), (true, true), (false, true)] ∧
      ((pageForward pageInfoStore allRows (some { field := some .TEXT, direction := .ASC })
        2 6 none).bind (fun ps => ps.getLast?.bind (fun pg =>
          (pageBackwards pageInfoStore allRows
            (some { field := some .TEXT, direction := .ASC }) 2 6
            pg.pageInfo.endCursor).map (fun qs => qs.map flagsOf)))) =
        some [(true, true), (true, false)] ∧
      (todos pageInfoStore allRows (some { field := some .TEXT, direction := .ASC })
        { first := none, after := none, last := none, before := none }).toOption.map flagsOf =
        some (false, false)) := by
  refine ⟨?_, by decide, by decide, by decide⟩
  obtain ⟨A, C, hL, hprev, hnext⟩ := page_position store filter orderBy req conn hid h
  have hP : nodesOf conn ≠ [] := by
    intro he
    apply hne
    simpa [nodesOf] using he
  have hnd := ordered_nodup store filter (orderingOf orderBy) hid
  rw [hL] at hnd ⊢
  constructor
  · rw [getLast?_run A _ C hP hnd, hnext]
    simp [List.length_eq_zero]
  · rw [head?_run A _ C hP hnd, hprev]
    simp [List.length_eq_zero]

theorem page_flags_false_exactly_at_ends_witness :
    ∃ conn : Connection Int,
      (pageInfoStore.map (fun r => r.id)).Nodup ∧
      todos pageInfoStore allRows none
        { first := some 2, after := none, last := none, before := none } = .ok conn ∧
      conn.edges ≠ [] ∧
      (conn.pageInfo.hasNextPage = false ↔
        (nodesOf conn).getLast? = (ordered pageInfoStore allRows (orderingOf none)).getLast?) :=
  ⟨assemble pageInfoStore allRows (orderingOf none)
      { rows := (ordered pageInfoStore allRows (orderingOf none)).take 2
        hasNextPage := true, hasPreviousPage := false },
    by decide, rfl, fun he => absurd (congrArg List.length he) (by decide),
    (page_flags_false_exactly_at_ends pageInfoStore allRows none
      { first := some 2, after := none, last := none, before := none } _
      (by decide) rfl
      (fun he => absurd (congrArg List.length he) (by decide))).1.1⟩

end flags


/-! ## Cursors and total count of a page -/

section pageInfo

theorem todos_ok_assemble {K : Type} [LinearOrder K] (store : List (Row K))
    (filter : Row K → Bool) (orderBy : Option OrderSpec) (req : PageRequest K)
    (conn : Connection K) (h : todos store filter orderBy req = .ok conn) :
    ∃ w, conn = assemble store filter (orderingOf orderBy) w := by
  unfold todos at h
  rcases hw : resolveWindow store filter (orderingOf orderBy) req with e | w
  · rw [hw] at h
    simp at h
  · rw [hw] at h
    simp only [Except.ok.injEq] at h
    exact ⟨w, h.symm⟩

theorem pageForward_mem {K : Type} [LinearOrder K] (store : List (Row K))
    (filter : Row K → Bool) (orderBy : Option OrderSpec) (n : Int) :
    ∀ (fuel : Nat) (after : Option (Cursor K)) (pages : List (Connection K)),
      pageForward store filter orderBy n fuel after = some pages →
      ∀ c ∈ pages, ∃ req, todos store filter orderBy req = .ok c := by
  intro fuel
  induction fuel with
  | zero => intro after pages h; simp [pageForward] at h
  | succ fuel ih =>
    intro after pages h c hc
    simp only [pageForward] at h
    rcases hq : todos store filter orderBy
        { first := some n, after := after, last := none, before := none } with e | pg
    · rw [hq] at h
      simp at h
    · rw [hq] at h
      simp only at h
      split at h
      · rcases hr : pageForward store filter orderBy n fuel pg.pageInfo.endCursor with _ | rest
        · rw [hr] at h
          simp at h
        · rw [hr] at h
          simp only [Option.map_some', Option.some.injEq] at h
          subst h
          rcases List.mem_cons.mp hc with rfl | hc
          · exact ⟨_, hq⟩
          · exact ih _ _ hr c hc
      · simp only [Option.some.injEq] at h
        subst h
        simp only [List.mem_singleton] at hc
        subst hc
        exact ⟨_, hq⟩

theorem pageBackwards_mem {K : Type} [LinearOrder K] (store : List (Row K))
    (filter : Row K → Bool) (orderBy : Option OrderSpec) (n : Int) :
    ∀ (fuel : Nat) (before : Option (Cursor K)) (pages : List (Connection K)),
      pageBackwards store filter orderBy n fuel before = some pages →
      ∀ c ∈ pages, ∃ req, todos store filter orderBy req = .ok c := by
  intro fuel
  induction fuel with
  | zero => intro before pages h; simp [pageBackwards] at h
  | succ fuel ih =>
    intro before pages h c hc
    simp only [pageBackwards] at h
    rcases hq : todos store filter orderBy
        { first := none, after := none, last := some n, before := before } with e | pg
    · rw [hq] at h
      simp at h
    · rw [hq] at h
      simp only at h
      split at h
      · rcases hr : pageBackwards store filter orderBy n fuel pg.pageInfo.startCursor
          with _ | rest
        · rw [hr] at h
          simp at h
        · rw [hr] at h
          simp only [Option.map_some', Option.some.injEq] at h
          subst h
          rcases List.mem_cons.mp hc with rfl | hc
          · exact ⟨_, hq⟩
          · exact ih _ _ hr c hc
      · simp only [Option.some.injEq] at h
        subst h
        simp only [List.mem_singleton] at hc
        subst hc
        exact ⟨_, hq⟩

/-- C4: in every connection response `pageInfo.startCursor` is the cursor of
the first emitted edge and `pageInfo.endCursor` the cursor of the last one (the
same cursor for a single-edge page), and each of them, hence both, is nil
exactly when the edge list is empty. -/
theorem page_cursors_match_edges {K : Type} [LinearOrder K] (store : List (Row K))
    (filter : Row K → Bool) (orderBy : Option OrderSpec) (req : PageRequest K)
    (conn : Connection K) (h : todos store filter orderBy req = .ok conn) :
    conn.pageInfo.startCursor = conn.edges.head?.map (fun e => e.cursor) ∧
    conn.pageInfo.endCursor = conn.edges.getLast?.map (fun e => e.cursor) ∧
    (∀ e, conn.edges = [e] →
      conn.pageInfo.startCursor = some e.cursor ∧ conn.pageInfo.endCursor = some e.cursor) ∧
    (conn.pageInfo.startCursor = none ↔ conn.edges = []) ∧
    (conn.pageInfo.endCursor = none ↔ conn.edges = []) ∧
    ((conn.pageInfo.startCursor = none ∧ conn.pageInfo.endCursor = none) ↔
      conn.edges = []) := by
  obtain ⟨w, rfl⟩ := todos_ok_assemble store filter orderBy req conn h
  have h1 : (assemble store filter (orderingOf orderBy) w).pageInfo.startCursor =
      (assemble store filter (orderingOf orderBy) w).edges.head?.map (fun e => e.cursor) := rfl
  have h2 : (assemble store filter (orderingOf orderBy) w).pageInfo.endCursor =
      (assemble store filter (orderingOf orderBy) w).edges.getLast?.map
        (fun e => e.cursor) := rfl
  generalize assemble store filter (orderingOf orderBy) w = conn at h1 h2
  have h3 : conn.pageInfo.startCursor = none ↔ conn.edges = [] := by
    rw [h1, Option.map_eq_none', List.head?_eq_none_iff]
  have h4 : conn.pageInfo.endCursor = none ↔ conn.edges = [] := by
    rw [h2, Option.map_eq_none', List.getLast?_eq_none_iff]
  refine ⟨h1, h2, ?_, h3, h4, ?_⟩
  · intro e he
    rw [h1, h2, he]
    exact ⟨rfl, rfl⟩
  · constructor
    · exact fun hh => h3.mp hh.1
    · exact fun hh => ⟨h3.mpr hh, h4.mpr hh⟩

theorem page_cursors_match_edges_witness :
    todos pageInfoStore allRows none
        { first := some 2, after := none, last := none, before := none } =
      .ok (assemble pageInfoStore allRows (orderingOf none)
        { rows := (ordered pageInfoStore allRows (orderingOf none)).take 2
          hasNextPage := true, hasPreviousPage := false }) ∧
    (assemble pageInfoStore allRows (orderingOf none)
        { rows := (ordered pageInfoStore allRows (orderingOf none)).take 2
          hasNextPage := true, hasPreviousPage := false }).pageInfo.startCursor =
      (assemble pageInfoStore allRows (orderingOf none)
        { rows := (ordered pageInfoStore allRows (orderingOf none)).take 2
          hasNextPage := true, hasPreviousPage := false }).edges.head?.map
        (fun e => e.cursor) :=
  ⟨rfl, (page_cursors_match_edges pageInfoStore allRows none
    { first := some 2, after := none, last := none, before := none } _ rfl).1⟩

/-- C5: the `totalCount` of a connection is the number of rows matching the
filter alone, whatever `first`/`last`/`after`/`before` window is requested: it
is the same on every other page of the same filter and ordering, on every page
of the forward and backward client loops, and it is the size of the store for
the empty filter; on the 32 completed todos of `SetupTest` it is 0 for status
`IN_PROGRESS`, 31 for the todos with a parent and 1 for those without. -/
theorem totalCount_is_filter_count {K : Type} [LinearOrder K] (store : List (Row K))
    (filter : Row K → Bool) (orderBy : Option OrderSpec) (req : PageRequest K)
    (conn : Connection K) (h : todos store filter orderBy req = .ok conn) :
    (conn.totalCount = (store.filter filter).length ∧
      (∀ req2 conn2, todos store filter orderBy req2 = .ok conn2 →
        conn2.totalCount = conn.totalCount) ∧
      (∀ n fuel pages, pageForward store filter orderBy n fuel none = some pages →
        ∀ c ∈ pages, c.totalCount = conn.totalCount) ∧
      (∀ n fuel pages, pageBackwards store filter orderBy n fuel none = some pages →
        ∀ c ∈ pages, c.totalCount = conn.totalCount) ∧
      (∀ req3 conn3, todos store allRows orderBy req3 = .ok conn3 →
        conn3.totalCount = store.length)) ∧
    ((todos setupStore (fun r => decide (r.status = .IN_PROGRESS)) none
        { first := some 5, after := none, last := none, before := none }).toOption.map
        (fun c => c.totalCount) = some 0 ∧
      (todos setupStore (fun r => decide (r.status = .COMPLETED) && r.parent.isSome) none
        { first := some 5, after := none, last := none, before := none }).toOption.map
        (fun c => c.totalCount) = some 31 ∧
      (todos setupStore (fun r => decide (r.status = .COMPLETED) && r.parent.isNone) none
        { first := some 5, after := none, last := none, before := none }).toOption.map
        (fun c => c.totalCount) = some 1) := by
  refine ⟨?_, by decide, by decide, by decide⟩
  have key : ∀ (f : Row K → Bool) (r : PageRequest K) (c : Connection K),
      todos store f orderBy r = .ok c → c.totalCount = (store.filter f).length := by
    intro f r c hc
    obtain ⟨w, rfl⟩ := todos_ok_assemble store f orderBy r c hc
    rfl
  have h0 := key filter req conn h
  refine ⟨h0, ?_, ?_, ?_, ?_⟩
  · intro req2 conn2 h2
    rw [h0, key filter req2 conn2 h2]
  · intro n fuel pages hp c hc
    obtain ⟨r, hr⟩ := pageForward_mem store filter orderBy n fuel none pages hp c hc
    rw [h0, key filter r c hr]
  · intro n fuel pages hp c hc
    obtain ⟨r, hr⟩ := pageBackwards_mem store filter orderBy n fuel none pages hp c hc
    rw [h0, key filter r c hr]
  · intro req3 conn3 h3
    rw [key allRows req3 conn3 h3]
    simp [allRows]

theorem totalCount_is_filter_count_witness :
    todos pageInfoStore allRows none
        { first := some 2, after := none, last := none, before := none } =
      .ok (assemble pageInfoStore allRows (orderingOf none)
        { rows := (ordered pageInfoStore allRows (orderingOf none)).take 2
          hasNextPage := true, hasPreviousPage := false }) ∧
    (assemble pageInfoStore allRows (orderingOf none)
        { rows := (ordered pageInfoStore allRows (orderingOf none)).take 2
          hasNextPage := true, hasPreviousPage := false }).totalCount =
      (pageInfoStore.filter allRows).length :=
  ⟨rfl, (totalCount_is_filter_count pageInfoStore allRows none
    { first := some 2, after := none, last := none, before := none } _ rfl).1.1⟩

end pageInfo


/-! ## Paging past the last page -/

section pastEnd

theorem todos_totalCount {K : Type} [LinearOrder K] (store : List (Row K))
    (filter : Row K → Bool) (orderBy : Option OrderSpec) (req : PageRequest K)
    (conn : Connection K) (h : todos store filter orderBy req = .ok conn) :
    conn.totalCount = count store filter := by
  obtain ⟨w, rfl⟩ := todos_ok_assemble store filter orderBy req conn h
  rfl

/-- C6: after the forward client loop has reached its last page, one more
request `todos(first: n, after: c)` with that page's `endCursor` succeeds and
returns an empty edge list, `hasNextPage` false, a nil `endCursor` and the same
`totalCount`; symmetrically, after the backward loop, one more request
`todos(last: n, before: c)` with the last page's `startCursor` returns an empty
edge list, `hasPreviousPage` false, a nil `startCursor` and the same
`totalCount`. -/
theorem paging_past_the_end_is_empty {K : Type} [LinearOrder K] (store : List (Row K))
    (filter : Row K → Bool) (orderBy : Option OrderSpec) (n : Int) (fuel : Nat)
    (hid : (store.map (fun r => r.id)).Nodup) (hn : 0 < n)
    (hfuel : count store filter < fuel) :
    (∃ pages final conn, pageForward store filter orderBy n fuel none = some pages ∧
      pages.getLast? = some final ∧
      todos store filter orderBy
        { first := some n, after := final.pageInfo.endCursor, last := none, before := none } =
        .ok conn ∧
      conn.edges = [] ∧ conn.pageInfo.hasNextPage = false ∧
      conn.pageInfo.endCursor = none ∧ conn.totalCount = final.totalCount) ∧
    (∃ pages final conn, pageBackwards store filter orderBy n fuel none = some pages ∧
      pages.getLast? = some final ∧
      todos store filter orderBy
        { first := none, after := none, last := some n,
          before := final.pageInfo.startCursor } = .ok conn ∧
      conn.edges = [] ∧ conn.pageInfo.hasPreviousPage = false ∧
      conn.pageInfo.startCursor = none ∧ conn.totalCount = final.totalCount) := by
  constructor
  · obtain ⟨pages, hrun, -, -, hfin⟩ :=
      pageForward_spec store filter orderBy n hn hid fuel []
        (ordered store filter (orderingOf orderBy)) rfl
        (by rw [ordered_length]; exact hfuel)
    rcases hl : pages.getLast? with _ | final
    · rw [hl] at hfin
      simp at hfin
    rw [hl] at hfin
    simp only [Option.map_some', Option.some.injEq] at hfin
    have hpage := forward_page store filter orderBy n hn hid
      (ordered store filter (orderingOf orderBy)) [] (by simp)
    rw [← hfin] at hpage
    obtain ⟨r, hr⟩ := pageForward_mem store filter orderBy n fuel none pages hrun final
      (List.mem_of_getLast?_eq_some hl)
    refine ⟨pages, final, _, hrun, hl, hpage, ?_, ?_, ?_, ?_⟩
    · simp [assemble]
    · simp [assemble]
    · simp [assemble]
    · rw [todos_totalCount store filter orderBy r final hr]
      rfl
  · obtain ⟨pages, hrun, -, -, hfin⟩ :=
      pageBackwards_spec store filter orderBy n hn hid fuel
        (ordered store filter (orderingOf orderBy)) [] (by simp)
        (by rw [ordered_length]; exact hfuel)
    rcases hl : pages.getLast? with _ | final
    · rw [hl] at hfin
      simp at hfin
    rw [hl] at hfin
    simp only [Option.map_some', Option.some.injEq] at hfin
    have hpage := backward_page store filter orderBy n hn hid
      [] (ordered store filter (orderingOf orderBy)) (by simp)
    rw [← hfin] at hpage
    obtain ⟨r, hr⟩ := pageBackwards_mem store filter orderBy n fuel none pages hrun final
      (List.mem_of_getLast?_eq_some hl)
    refine ⟨pages, final, _, hrun, hl, hpage, ?_, ?_, ?_, ?_⟩
    · simp [assemble]
    · simp [assemble]
    · simp [assemble]
    · rw [todos_totalCount store filter orderBy r final hr]
      rfl

theorem paging_past_the_end_is_empty_witness :
    (setupStore.map (fun r => r.id)).Nodup ∧ (0 : Int) < 5 ∧ count setupStore allRows < 33 ∧
      ∃ pages final conn, pageForward setupStore allRows none 5 33 none = some pages ∧
        pages.getLast? = some final ∧
        todos setupStore allRows none
          { first := some 5, after := final.pageInfo.endCursor, last := none,
            before := none } = .ok conn ∧
        conn.edges = [] ∧ conn.pageInfo.hasNextPage = false ∧
        conn.pageInfo.endCursor = none ∧ conn.totalCount = final.totalCount :=
  ⟨by decide, by decide, by decide,
    (paging_past_the_end_is_empty setupStore allRows none 5 33
      (by decide) (by decide) (by decide)).1⟩

end pastEnd


/-! ## Node lookup -/

section lookup

theorem noder_some {K : Type} (store : List (Row K)) (id : Int) (r : Row K)
    (h : noder store id = some r) : r ∈ store ∧ r.id = id := by
  unfold noder at h
  exact ⟨List.mem_of_find?_eq_some h, by simpa using List.find?_some h⟩

theorem noder_none_iff {K : Type} (store : List (Row K)) (id : Int) :
    noder store id = none ↔ ∀ r ∈ store, r.id ≠ id := by
  unfold noder
  simp [List.find?_eq_none]

theorem nodes_fold {K : Type} (store : List (Row K)) (ids : List Int)
    (acc : Response (List (Option (Row K)))) :
    (ids.foldl
      (fun acc id =>
        match noder store id with
        | some r => { data := acc.data ++ [some r], errors := acc.errors }
        | none => { data := acc.data ++ [none], errors := acc.errors ++ [notFound id] })
      acc).data = acc.data ++ ids.map (noder store) ∧
    (ids.foldl
      (fun acc id =>
        match noder store id with
        | some r => { data := acc.data ++ [some r], errors := acc.errors }
        | none => { data := acc.data ++ [none], errors := acc.errors ++ [notFound id] })
      acc).errors =
      acc.errors ++ (ids.filter (fun id => (noder store id).isNone)).map notFound := by
  induction ids generalizing acc with
  | nil => simp
  | cons id rest ih =>
    simp only [List.foldl_cons]
    rcases h : noder store id with _ | r
    · obtain ⟨h1, h2⟩ := ih { data := acc.data ++ [none], errors := acc.errors ++ [notFound id] }
      simp only [h1, h2]
      simp [h]
    · obtain ⟨h1, h2⟩ := ih { data := acc.data ++ [some r], errors := acc.errors }
      simp only [h1, h2]
      simp [h]

/-- C7: for every list of ids passed to `nodes(ids)`, repeats included, the
result has the length of the input, slot `i` holds the row with id `ids[i]`
when a row of the store has that id and nil otherwise, and the error list holds
exactly one `NOT_FOUND` error per unresolved id, in input order, with the
message "Could not resolve to a node with the global id of '<id>'"; on the ids
of `TestNodes` the unresolved slots are those of `maxTodos + 1` and
`maxTodos + 5`. -/
theorem nodes_positional_partial_success {K : Type} (store : List (Row K))
    (ids : List Int) :
    ((nodes store ids).data.length = ids.length ∧
      (∀ (i : Nat) (hi : i < ids.length),
        ((∃ r ∈ store, r.id = ids[i]) →
          ∃ r ∈ store, r.id = ids[i] ∧ (nodes store ids).data[i]? = some (some r)) ∧
        ((∀ r ∈ store, r.id ≠ ids[i]) → (nodes store ids).data[i]? = some none)) ∧
      (nodes store ids).errors =
        (ids.filter (fun id => decide (∀ r ∈ store.map (fun r => r.id), r ≠ id))).map
          (fun id =>
            { message :=
                "Could not resolve to a node with the global id of '" ++ toString id ++ "'"
              code := "NOT_FOUND" })) ∧
    ((nodes setupStore
        [idOffset + 1, idOffset + 2, idOffset + 3, idOffset + 3, idOffset + 3,
          idOffset + 33, idOffset + 2, idOffset + 2, idOffset + 37]).data.map
        (fun slot => slot.map (fun r => r.id - idOffset)) =
        [some 1, some 2, some 3, some 3, some 3, none, some 2, some 2, none] ∧
      (nodes setupStore
        [idOffset + 1, idOffset + 2, idOffset + 3, idOffset + 3, idOffset + 3,
          idOffset + 33, idOffset + 2, idOffset + 2, idOffset + 37]).errors =
        [{ message := "Could not resolve to a node with the global id of '12884901921'"
           code := "NOT_FOUND" },
         { message := "Could not resolve to a node with the global id of '12884901925'"
           code := "NOT_FOUND" }]) := by
  refine ⟨?_, by decide, by decide⟩
  obtain ⟨hd, he⟩ := nodes_fold store ids { data := [], errors := [] }
  have hdata : (nodes store ids).data = ids.map (noder store) := by
    simpa [nodes] using hd
  have herr : (nodes store ids).errors =
      (ids.filter (fun id => (noder store id).isNone)).map notFound := by
    simpa [nodes] using he
  refine ⟨by rw [hdata, List.length_map], ?_, ?_⟩
  · intro i hi
    rw [hdata, List.getElem?_map, List.getElem?_eq_getElem hi, Option.map_some']
    constructor
    · rintro ⟨r, hr, hrid⟩
      rcases hq : noder store ids[i] with _ | q
      · exact absurd hrid ((noder_none_iff store _).mp hq r hr)
      · obtain ⟨hq1, hq2⟩ := noder_some store _ q hq
        exact ⟨q, hq1, hq2, rfl⟩
    · intro hnone
      rw [(noder_none_iff store _).mpr hnone]
  · rw [herr]
    congr 1
    apply List.filter_congr
    intro id _
    rcases hq : noder store id with _ | q
    · have := (noder_none_iff store _).mp hq
      simp only [Option.isNone_none]
      symm
      rw [decide_eq_true_eq]
      intro x hx
      obtain ⟨r, hr, rfl⟩ := List.mem_map.mp hx
      exact this r hr
    · obtain ⟨hq1, hq2⟩ := noder_some store _ q hq
      simp only [Option.isNone_some]
      symm
      rw [decide_eq_false_iff_not]
      intro hall
      exact hall q.id (List.mem_map.mpr ⟨q, hq1, rfl⟩) hq2

/-- C8: for every id that no row of the store has, `node(id)` yields exactly
one error, with the message "Could not resolve to a node with the global id of
'<id>'" and the code `NOT_FOUND`; for every id of an existing row it yields the
row and no error; on the store of `SetupTest` the id `-1` does not resolve and
the id `idOffset + maxTodos` does. -/
theorem node_not_found_error {K : Type} (store : List (Row K)) (id : Int) :
    (((∀ r ∈ store, r.id ≠ id) →
        (node store id).data = none ∧
        (node store id).errors =
          [{ message :=
              "Could not resolve to a node with the global id of '" ++ toString id ++ "'"
             code := "NOT_FOUND" }]) ∧
      ((∃ r ∈ store, r.id = id) →
        (node store id).errors = [] ∧ ∃ r ∈ store, r.id = id ∧ (node store id).data = some r)) ∧
    ((node setupStore (-1)).errors =
        [{ message := "Could not resolve to a node with the global id of '-1'"
           code := "NOT_FOUND" }] ∧
      (node setupStore (idOffset + 32)).errors = []) := by
  refine ⟨⟨?_, ?_⟩, by decide, by decide⟩
  · intro h
    have hn := (noder_none_iff store id).mpr h
    unfold node
    rw [hn]
    exact ⟨rfl, rfl⟩
  · rintro ⟨r, hr, hrid⟩
    rcases hq : noder store id with _ | q
    · exact absurd hrid ((noder_none_iff store _).mp hq r hr)
    · obtain ⟨hq1, hq2⟩ := noder_some store _ q hq
      unfold node
      rw [hq]
      exact ⟨rfl, q, hq1, hq2, rfl⟩

end lookup


/-! ## Nested connections -/

section nested

theorem resolveNested_queries (g g' : GraphStore) (sel : ConnSel) :
    ∀ (depth depth' : Nat) (parents parents' : List Nat) (queries : Nat),
      (resolveNested g sel depth parents queries).2 =
        (resolveNested g' sel depth' parents' queries).2 := by
  induction sel with
  | leaf => intro _ _ _ _ _; rfl
  | conn first after totalCount edges child ih =>
    intro depth depth' parents parents' queries
    cases edges
    · simp [resolveNested]
    · simp only [resolveNested, if_true]
      exact ih _ _ _ _ _

/-- C9: resolving a connection nested under a connection issues a number of
backing-store queries that is the same for every store, hence for every number
of parent rows, and for every page size: 2 for users with their groups when no
`first` is given, 3 when a `first` is given at either level, 5 for the
two-level paginate-with-cursor query; on the store of `TestNestedConnection`
user `i` reports `10 - i` groups in total and `min(n, 10 - i)` group edges for
every `n` from 1 to 10. -/
theorem nested_query_count_constant (g : GraphStore) :
    ((∀ (g' : GraphStore) (sel : ConnSel), (resolveQuery g sel).2 = (resolveQuery g' sel).2) ∧
      (resolveQuery g (totalCountQuery none)).2 = 2 ∧
      (∀ n, (resolveQuery g (totalCountQuery (some n))).2 = 3) ∧
      (resolveQuery g (firstNQuery none)).2 = 2 ∧
      (∀ n, (resolveQuery g (firstNQuery (some n))).2 = 3) ∧
      (∀ n after, (resolveQuery g (paginateQuery (some n) after)).2 = 5)) ∧
    ((∀ n ∈ List.range 11, 0 < n →
        nestedCounts (resolveQuery nestedStore (firstNQuery (some n))).1 =
          (List.range 10).map (fun i => (some (10 - i), min n (10 - i)))) ∧
      nestedCounts (resolveQuery nestedStore (firstNQuery none)).1 =
        (List.range 10).map (fun i => (some (10 - i), 10 - i)) ∧
      (∀ n ∈ List.range 11, 0 < n →
        nestedCounts (resolveQuery nestedStore (totalCountQuery (some n))).1 =
          (List.range n).map (fun i => (some (10 - i), 0)))) := by
  refine ⟨⟨?_, ?_, ?_, ?_, ?_, ?_⟩, by decide, by decide, by decide⟩
  · intro g' sel
    exact resolveNested_queries _ _ sel _ _ _ _ _
  · simp [resolveQuery, totalCountQuery, resolveNested]
  · intro n
    simp [resolveQuery, totalCountQuery, resolveNested]
  · simp [resolveQuery, firstNQuery, resolveNested]
  · intro n
    simp [resolveQuery, firstNQuery, resolveNested]
  · intro n after
    simp [resolveQuery, paginateQuery, resolveNested]

end nested

end Pagination

namespace Ent

/-! ## Delete builders -/

section delete

/-- C11: on a `MessageWithOptionalsDeleteOne` without hooks whose delete
removes no row, `Exec` returns the `NotFoundError` of the label while `ExecX`
returns without a panic: `ExecX` calls `ExecX` of the wrapped builder, which
only panics on the error of the delete itself. -/
theorem deleteOne_ExecX_misses_not_found :
    (MessageWithOptionalsDeleteOne.Exec exampleMessagePkg (constDeleteDriver 0 none)
        { mwod := { hooks := [], mutation := 0 } } emptyDeleteWorld).1 =
      some (.notFound "message_with_optionals") ∧
    (MessageWithOptionalsDeleteOne.ExecX exampleMessagePkg (constDeleteDriver 0 none)
        { mwod := { hooks := [], mutation := 0 } } emptyDeleteWorld).1 =
      .returned () := by
  constructor <;> rfl

end delete
end Ent

namespace Ent

section deleteOne

theorem delete_Exec_no_hooks (pkg : MessageWithOptionalsPkg) (drv : DeleteDriver)
    (mwod : MessageWithOptionalsDelete) (w : World MessageWithOptionalsMutation DeleteSpec)
    (h : mwod.hooks = []) :
    (MessageWithOptionalsDelete.Exec pkg drv mwod w).1 =
      (MessageWithOptionalsDelete.sqlExec pkg drv (w.heap mwod.mutation) w.log).1 := by
  simp [MessageWithOptionalsDelete.Exec, h]

/-- C17, as stated, fails: on a `MessageWithOptionalsDeleteOne` with one hook
that calls the next mutator and then returns the `NotFoundError` of the label,
over a store whose delete removes 5 rows, the wrapped delete issues its store
delete and returns that error, and `Exec` returns the `NotFoundError` of the
label although the wrapped delete did not succeed with 0 rows. -/
theorem deleteOne_Exec_not_found_from_hook :
    (MessageWithOptionalsDelete.Exec exampleMessagePkg (constDeleteDriver 5 none)
        { hooks := [some (failAfterHook (.notFound "message_with_optionals"))], mutation := 0 }
        emptyDeleteWorld).1 = (0, some (.notFound "message_with_optionals")) ∧
    (MessageWithOptionalsDelete.Exec exampleMessagePkg (constDeleteDriver 5 none)
        { hooks := [some (failAfterHook (.notFound "message_with_optionals"))], mutation := 0 }
        emptyDeleteWorld).2.2.log.length = 1 ∧
    ¬ ((MessageWithOptionalsDeleteOne.Exec exampleMessagePkg (constDeleteDriver 5 none)
          { mwod := { hooks := [some (failAfterHook (.notFound "message_with_optionals"))]
                      mutation := 0 } }
          emptyDeleteWorld).1 = some (.notFound exampleMessagePkg.Label) ↔
        ((MessageWithOptionalsDelete.Exec exampleMessagePkg (constDeleteDriver 5 none)
            { hooks := [some (failAfterHook (.notFound "message_with_optionals"))]
              mutation := 0 }
            emptyDeleteWorld).1.2 = none ∧
          (MessageWithOptionalsDelete.Exec exampleMessagePkg (constDeleteDriver 5 none)
            { hooks := [some (failAfterHook (.notFound "message_with_optionals"))]
              mutation := 0 }
            emptyDeleteWorld).1.1 = 0)) := by
  refine ⟨rfl, rfl, ?_⟩
  intro h
  have h2 := (h.mp rfl).1
  exact absurd h2 (by decide)

/-- C17, amended: for every `MessageWithOptionalsDeleteOne`, `Exec` returns the
error of the wrapped delete when it has one; it returns the `NotFoundError` of
the label exactly when the wrapped delete succeeded with 0 rows or itself
returned that `NotFoundError`, and without hooks, where the error of the
delete is an error of the storage layer, exactly when it succeeded with 0
rows; it returns nil exactly when the wrapped delete succeeded with at least
one row. -/
theorem deleteOne_Exec_cases (pkg : MessageWithOptionalsPkg) (drv : DeleteDriver)
    (mwodo : MessageWithOptionalsDeleteOne)
    (w : World MessageWithOptionalsMutation DeleteSpec) :
    (∀ e, (MessageWithOptionalsDelete.Exec pkg drv mwodo.mwod w).1.2 = some e →
      (MessageWithOptionalsDeleteOne.Exec pkg drv mwodo w).1 = some e) ∧
    ((MessageWithOptionalsDeleteOne.Exec pkg drv mwodo w).1 = some (.notFound pkg.Label) ↔
      (((MessageWithOptionalsDelete.Exec pkg drv mwodo.mwod w).1.2 = none ∧
          (MessageWithOptionalsDelete.Exec pkg drv mwodo.mwod w).1.1 = 0) ∨
        (MessageWithOptionalsDelete.Exec pkg drv mwodo.mwod w).1.2 =
          some (.notFound pkg.Label))) ∧
    ((MessageWithOptionalsDeleteOne.Exec pkg drv mwodo w).1 = none ↔
      ((MessageWithOptionalsDelete.Exec pkg drv mwodo.mwod w).1.2 = none ∧
        1 ≤ (MessageWithOptionalsDelete.Exec pkg drv mwodo.mwod w).1.1)) ∧
    (mwodo.mwod.hooks = [] →
      ((MessageWithOptionalsDeleteOne.Exec pkg drv mwodo w).1 = some (.notFound pkg.Label) ↔
        ((MessageWithOptionalsDelete.Exec pkg drv mwodo.mwod w).1.2 = none ∧
          (MessageWithOptionalsDelete.Exec pkg drv mwodo.mwod w).1.1 = 0))) := by
  have hdef : (MessageWithOptionalsDeleteOne.Exec pkg drv mwodo w).1 =
      match (MessageWithOptionalsDelete.Exec pkg drv mwodo.mwod w).1.2 with
      | some err => some err
      | none =>
        if (MessageWithOptionalsDelete.Exec pkg drv mwodo.mwod w).1.1 = 0 then
          some (.notFound pkg.Label)
        else none := by
    unfold MessageWithOptionalsDeleteOne.Exec
    simp only
    split
    · rfl
    · split <;> rfl
  refine ⟨?_, ?_, ?_, ?_⟩
  · intro e he
    rw [hdef, he]
  · rw [hdef]
    rcases he : (MessageWithOptionalsDelete.Exec pkg drv mwodo.mwod w).1.2 with _ | e
    · by_cases h0 : (MessageWithOptionalsDelete.Exec pkg drv mwodo.mwod w).1.1 = 0
      · simp [h0]
      · simp [h0]
    · simp
  · rw [hdef]
    rcases he : (MessageWithOptionalsDelete.Exec pkg drv mwodo.mwod w).1.2 with _ | e
    · by_cases h0 : (MessageWithOptionalsDelete.Exec pkg drv mwodo.mwod w).1.1 = 0
      · simp [h0]
      · simp [h0]
        omega
    · simp
  · intro hh
    rw [hdef]
    have hs := delete_Exec_no_hooks pkg drv mwodo.mwod w hh
    rcases he : (MessageWithOptionalsDelete.Exec pkg drv mwodo.mwod w).1.2 with _ | e
    · by_cases h0 : (MessageWithOptionalsDelete.Exec pkg drv mwodo.mwod w).1.1 = 0
      · simp [h0]
      · simp [h0]
    · rw [hs] at he
      simp only [MessageWithOptionalsDelete.sqlExec] at he
      obtain ⟨se, -, hse⟩ := Option.map_eq_some'.mp he
      subst hse
      simp

end deleteOne
end Ent

namespace Ent

/-! ## Save without hooks and the translation of storage errors -/

section saveNoHooks

theorem CategoryUpdate.sqlSave_log (pkg : CategoryPkg) (drv : UpdateDriver)
    (m : CategoryMutation) (log : List UpdateSpec) :
    (CategoryUpdate.sqlSave pkg drv m log).2 = log ++ [CategoryUpdate.buildSpec pkg m] := by
  unfold CategoryUpdate.sqlSave
  simp only
  split
  · split <;> rfl
  · rfl

theorem CategoryUpdate.sqlSave_result (pkg : CategoryPkg) (drv : UpdateDriver)
    (m : CategoryMutation) (log : List UpdateSpec) :
    (CategoryUpdate.sqlSave pkg drv m log).1 =
      match (drv.UpdateNodes log (CategoryUpdate.buildSpec pkg m)).2 with
      | some (.notFound _) => (0, some (.notFound pkg.Label))
      | some (.constraint msg) => (0, some (.constraint msg (.constraint msg)))
      | some (.other msg) => (0, some (.store (.other msg)))
      | none => ((drv.UpdateNodes log (CategoryUpdate.buildSpec pkg m)).1, none) := by
  unfold CategoryUpdate.sqlSave
  simp only
  rcases (drv.UpdateNodes log (CategoryUpdate.buildSpec pkg m)).2 with _ | e
  · rfl
  · cases e <;> rfl

theorem CategoryUpdateOne.sqlSave_ok (pkg : CategoryPkg) (drv : UpdateDriver)
    (fields : List String) (m : CategoryMutation) (log : List UpdateSpec) (spec : UpdateSpec)
    (h : CategoryUpdateOne.buildSpec pkg fields m = .ok spec) :
    CategoryUpdateOne.sqlSave pkg drv fields m log =
      (match drv.UpdateNode log spec with
        | .error (.notFound _) => (none, some (.notFound pkg.Label))
        | .error (.constraint msg) => (none, some (.constraint msg (.constraint msg)))
        | .error (.other msg) => (none, some (.store (.other msg)))
        | .ok node => (some node, none), log ++ [spec]) := by
  unfold CategoryUpdateOne.sqlSave
  rw [h]
  simp only
  rcases drv.UpdateNode log spec with e | node
  · cases e <;> rfl
  · rfl

/-- C12, as stated, fails: on a `CategoryUpdate` without hooks whose mutation
passes `check`, when the one store update fails with a constraint error `e`,
`Save` returns the `ConstraintError` that wraps `e`, not `e` itself. -/
theorem Save_returns_translated_error :
    check examplePkg ((twoMutationWorld "a" "b").heap 0) = none ∧
    (constUpdateDriver 0 (some (.constraint "UNIQUE constraint failed")) (.ok { ID := 7 })).UpdateNodes
        (twoMutationWorld "a" "b").log
        (CategoryUpdate.buildSpec examplePkg ((twoMutationWorld "a" "b").heap 0)) =
      (0, some (.constraint "UNIQUE constraint failed")) ∧
    (CategoryUpdate.Save examplePkg
        (constUpdateDriver 0 (some (.constraint "UNIQUE constraint failed")) (.ok { ID := 7 }))
        { hooks := [], mutation := 0 } (twoMutationWorld "a" "b")).1 =
      (0, some (.constraint "UNIQUE constraint failed"
        (.constraint "UNIQUE constraint failed"))) ∧
    (CategoryUpdate.Save examplePkg
        (constUpdateDriver 0 (some (.constraint "UNIQUE constraint failed")) (.ok { ID := 7 }))
        { hooks := [], mutation := 0 } (twoMutationWorld "a" "b")).1.2 ≠
      some (.store (.constraint "UNIQUE constraint failed")) := by
  refine ⟨by decide, rfl, by decide, by decide⟩

/-- C12, amended: for every `CategoryUpdate` without hooks, `Save` returns
`(0, e)` and issues no store update when `check` fails with `e`; otherwise it
issues exactly one store update, built from the builder's mutation, and
returns `(n, nil)` when that update succeeds with count `n`, and `0` with the
translated error when it fails: the `NotFoundError` of the category label for a
`sqlgraph` not-found error, a `ConstraintError` wrapping the error for a
constraint error, the error itself otherwise. -/
theorem Save_without_hooks (pkg : CategoryPkg) (drv : UpdateDriver) (cu : CategoryUpdate)
    (w : World CategoryMutation UpdateSpec) (h : cu.hooks = []) :
    (∀ e, check pkg (w.heap cu.mutation) = some e →
      (CategoryUpdate.Save pkg drv cu w).1 = (0, some e) ∧
      (CategoryUpdate.Save pkg drv cu w).2.2.log = w.log) ∧
    (check pkg (w.heap cu.mutation) = none →
      (CategoryUpdate.Save pkg drv cu w).2.2.log =
        w.log ++ [CategoryUpdate.buildSpec pkg (w.heap cu.mutation)] ∧
      (∀ n, drv.UpdateNodes w.log (CategoryUpdate.buildSpec pkg (w.heap cu.mutation)) =
          (n, none) → (CategoryUpdate.Save pkg drv cu w).1 = (n, none)) ∧
      (∀ n msg, drv.UpdateNodes w.log (CategoryUpdate.buildSpec pkg (w.heap cu.mutation)) =
          (n, some (.notFound msg)) →
        (CategoryUpdate.Save pkg drv cu w).1 = (0, some (.notFound pkg.Label))) ∧
      (∀ n msg, drv.UpdateNodes w.log (CategoryUpdate.buildSpec pkg (w.heap cu.mutation)) =
          (n, some (.constraint msg)) →
        (CategoryUpdate.Save pkg drv cu w).1 =
          (0, some (.constraint msg (.constraint msg)))) ∧
      (∀ n msg, drv.UpdateNodes w.log (CategoryUpdate.buildSpec pkg (w.heap cu.mutation)) =
          (n, some (.other msg)) →
        (CategoryUpdate.Save pkg drv cu w).1 = (0, some (.store (.other msg))))) := by
  constructor
  · intro e he
    simp [CategoryUpdate.Save, h, he]
  · intro hc
    have hS : CategoryUpdate.Save pkg drv cu w =
        ((CategoryUpdate.sqlSave pkg drv (w.heap cu.mutation) w.log).1, cu,
          { w with log := (CategoryUpdate.sqlSave pkg drv (w.heap cu.mutation) w.log).2 }) := by
      simp [CategoryUpdate.Save, h, hc]
    rw [hS]
    simp only [CategoryUpdate.sqlSave_log, CategoryUpdate.sqlSave_result]
    refine ⟨trivial, ?_, ?_, ?_, ?_⟩ <;> intro n <;> intros <;> simp_all

theorem Save_without_hooks_witness :
    ({ hooks := [], mutation := 0 } : CategoryUpdate).hooks = [] ∧
    (CategoryUpdate.Save examplePkg (constUpdateDriver 3 none (.ok { ID := 7 }))
        { hooks := [], mutation := 0 } (twoMutationWorld "" "b")).1 =
      (0, some (.validation "text" "ent: validator failed for field \"Category.text\": value is empty")) ∧
    (CategoryUpdate.Save examplePkg (constUpdateDriver 3 none (.ok { ID := 7 }))
        { hooks := [], mutation := 0 } (twoMutationWorld "a" "b")).1 = (3, none) :=
  ⟨rfl,
    ((Save_without_hooks examplePkg (constUpdateDriver 3 none (.ok { ID := 7 }))
      { hooks := [], mutation := 0 } (twoMutationWorld "" "b") rfl).1 _ (by decide)).1,
    ((Save_without_hooks examplePkg (constUpdateDriver 3 none (.ok { ID := 7 }))
      { hooks := [], mutation := 0 } (twoMutationWorld "a" "b") rfl).2 (by decide)).2.1 3 rfl⟩

end saveNoHooks
end Ent

namespace Ent

section translation

/-- C14: when the store update of `CategoryUpdate.sqlSave` or of
`CategoryUpdateOne.sqlSave` returns an error `e`, the builder has issued that
one update and no other, and returns the zero result (`0`, resp. nil) with the
`NotFoundError` of the category label when `e` is a `sqlgraph` not-found
error, with a `ConstraintError` whose message is `e.Error()` and which wraps
`e` when `e` is a constraint error, and with `e` itself in every other case. -/
theorem sqlSave_translates_store_error (pkg : CategoryPkg) (drv : UpdateDriver)
    (m : CategoryMutation) (log : List UpdateSpec) (e : StoreError) :
    (∀ n, drv.UpdateNodes log (CategoryUpdate.buildSpec pkg m) = (n, some e) →
      (CategoryUpdate.sqlSave pkg drv m log).2 = log ++ [CategoryUpdate.buildSpec pkg m] ∧
      (CategoryUpdate.sqlSave pkg drv m log).1.1 = 0 ∧
      ((∃ msg, e = .notFound msg) →
        (CategoryUpdate.sqlSave pkg drv m log).1.2 = some (.notFound pkg.Label)) ∧
      ((∃ msg, e = .constraint msg) →
        (CategoryUpdate.sqlSave pkg drv m log).1.2 = some (.constraint e.Error e)) ∧
      ((∃ msg, e = .other msg) →
        (CategoryUpdate.sqlSave pkg drv m log).1.2 = some (.store e))) ∧
    (∀ fields spec, CategoryUpdateOne.buildSpec pkg fields m = .ok spec →
      drv.UpdateNode log spec = .error e →
      (CategoryUpdateOne.sqlSave pkg drv fields m log).2 = log ++ [spec] ∧
      (CategoryUpdateOne.sqlSave pkg drv fields m log).1.1 = none ∧
      ((∃ msg, e = .notFound msg) →
        (CategoryUpdateOne.sqlSave pkg drv fields m log).1.2 = some (.notFound pkg.Label)) ∧
      ((∃ msg, e = .constraint msg) →
        (CategoryUpdateOne.sqlSave pkg drv fields m log).1.2 =
          some (.constraint e.Error e)) ∧
      ((∃ msg, e = .other msg) →
        (CategoryUpdateOne.sqlSave pkg drv fields m log).1.2 = some (.store e))) ∧
    ((CategoryUpdate.sqlSave examplePkg
        (constUpdateDriver 0 (some (.notFound "record not found")) (.ok { ID := 7 }))
        emptyMutation []).1 = (0, some (.notFound "category")) ∧
      (CategoryUpdateOne.sqlSave examplePkg
        (constUpdateDriver 0 none (.error (.constraint "FOREIGN KEY constraint failed")))
        [] { emptyMutation with id := some 7 } []).1 =
        (none, some (.constraint "FOREIGN KEY constraint failed"
          (.constraint "FOREIGN KEY constraint failed"))) ∧
      (CategoryUpdate.sqlSave examplePkg
        (constUpdateDriver 0 (some (.other "connection reset")) (.ok { ID := 7 }))
        emptyMutation []).1 = (0, some (.store (.other "connection reset")))) := by
  refine ⟨?_, ?_, by decide, by decide, by decide⟩
  · intro n hn
    refine ⟨CategoryUpdate.sqlSave_log pkg drv m log, ?_, ?_, ?_, ?_⟩
    all_goals rw [CategoryUpdate.sqlSave_result, hn]
    · cases e <;> rfl
    · rintro ⟨msg, rfl⟩; rfl
    · rintro ⟨msg, rfl⟩; rfl
    · rintro ⟨msg, rfl⟩; rfl
  · intro fields spec hspec herr
    rw [CategoryUpdateOne.sqlSave_ok pkg drv fields m log spec hspec, herr]
    refine ⟨rfl, ?_, ?_, ?_, ?_⟩
    · cases e <;> rfl
    · rintro ⟨msg, rfl⟩; rfl
    · rintro ⟨msg, rfl⟩; rfl
    · rintro ⟨msg, rfl⟩; rfl

end translation

/-! ## SaveX, Exec and ExecX -/

section panics

/-- C15: for every `CategoryUpdate` and every `CategoryUpdateOne`, `SaveX`
panics with the error of `Save` exactly when `Save` returns a non-nil error and
otherwise returns what `Save` returns, `Exec` returns exactly the error `Save`
returns, and `ExecX` panics, with that error, exactly when `Exec` returns a
non-nil error; all four leave the builder and the store in the same state. -/
theorem SaveX_Exec_ExecX_follow_Save (pkg : CategoryPkg) (drv : UpdateDriver)
    (cu : CategoryUpdate) (cuo : CategoryUpdateOne) (w : World CategoryMutation UpdateSpec) :
    ((CategoryUpdate.SaveX pkg drv cu w).1 =
        (match (CategoryUpdate.Save pkg drv cu w).1.2 with
          | some err => .panicked err
          | none => .returned (CategoryUpdate.Save pkg drv cu w).1.1) ∧
      (∀ err, (CategoryUpdate.SaveX pkg drv cu w).1 = .panicked err ↔
        (CategoryUpdate.Save pkg drv cu w).1.2 = some err) ∧
      (CategoryUpdate.Exec pkg drv cu w).1 = (CategoryUpdate.Save pkg drv cu w).1.2 ∧
      (∀ err, (CategoryUpdate.ExecX pkg drv cu w).1 = .panicked err ↔
        (CategoryUpdate.Exec pkg drv cu w).1 = some err) ∧
      ((CategoryUpdate.ExecX pkg drv cu w).1 = .returned () ↔
        (CategoryUpdate.Exec pkg drv cu w).1 = none) ∧
      (CategoryUpdate.SaveX pkg drv cu w).2 = (CategoryUpdate.Save pkg drv cu w).2 ∧
      (CategoryUpdate.Exec pkg drv cu w).2 = (CategoryUpdate.Save pkg drv cu w).2 ∧
      (CategoryUpdate.ExecX pkg drv cu w).2 = (CategoryUpdate.Save pkg drv cu w).2) ∧
    ((CategoryUpdateOne.SaveX pkg drv cuo w).1 =
        (match (CategoryUpdateOne.Save pkg drv cuo w).1.2 with
          | some err => .panicked err
          | none => .returned (CategoryUpdateOne.Save pkg drv cuo w).1.1) ∧
      (∀ err, (CategoryUpdateOne.SaveX pkg drv cuo w).1 = .panicked err ↔
        (CategoryUpdateOne.Save pkg drv cuo w).1.2 = some err) ∧
      (CategoryUpdateOne.Exec pkg drv cuo w).1 = (CategoryUpdateOne.Save pkg drv cuo w).1.2 ∧
      (∀ err, (CategoryUpdateOne.ExecX pkg drv cuo w).1 = .panicked err ↔
        (CategoryUpdateOne.Exec pkg drv cuo w).1 = some err) ∧
      ((CategoryUpdateOne.ExecX pkg drv cuo w).1 = .returned () ↔
        (CategoryUpdateOne.Exec pkg drv cuo w).1 = none) ∧
      (CategoryUpdateOne.SaveX pkg drv cuo w).2 = (CategoryUpdateOne.Save pkg drv cuo w).2 ∧
      (CategoryUpdateOne.Exec pkg drv cuo w).2 = (CategoryUpdateOne.Save pkg drv cuo w).2 ∧
      (CategoryUpdateOne.ExecX pkg drv cuo w).2 = (CategoryUpdateOne.Save pkg drv cuo w).2) := by
  constructor
  · refine ⟨?_, ?_, rfl, ?_, ?_, ?_, rfl, ?_⟩
    · unfold CategoryUpdate.SaveX
      simp only
      split <;> simp_all
    · intro err
      unfold CategoryUpdate.SaveX
      simp only
      split <;> simp_all
    · intro err
      unfold CategoryUpdate.ExecX
      simp only
      split <;> simp_all
    · unfold CategoryUpdate.ExecX
      simp only
      split <;> simp_all
    · unfold CategoryUpdate.SaveX
      simp only
      split <;> rfl
    · unfold CategoryUpdate.ExecX
      simp only
      split <;> rfl
  · refine ⟨?_, ?_, rfl, ?_, ?_, ?_, rfl, ?_⟩
    · unfold CategoryUpdateOne.SaveX
      simp only
      split <;> simp_all
    · intro err
      unfold CategoryUpdateOne.SaveX
      simp only
      split <;> simp_all
    · intro err
      unfold CategoryUpdateOne.ExecX
      simp only
      split <;> simp_all
    · unfold CategoryUpdateOne.ExecX
      simp only
      split <;> simp_all
    · unfold CategoryUpdateOne.SaveX
      simp only
      split <;> rfl
    · unfold CategoryUpdateOne.ExecX
      simp only
      split <;> rfl

end panics
end Ent

namespace Ent

/-! ## The hook chain -/

section hooks

theorem wrapHooks_map_some {M S R : Type} (l : List (Hook M)) (core : Mutator M S R) :
    wrapHooks (l.map some) core = some (l.foldl (fun mutator h => h.apply mutator) core) := by
  induction l generalizing core with
  | nil => rfl
  | cons h rest ih =>
    simp only [List.map_cons, wrapHooks, List.foldl_cons]
    exact ih _

theorem wrapHooks_reverse {M S R : Type} (hs : List (Hook M)) (core : Mutator M S R) :
    wrapHooks (hs.map some).reverse core = some (hs.foldr (fun h mutator => h.apply mutator) core) := by
  rw [← List.map_reverse, wrapHooks_map_some, List.foldl_reverse]

theorem map_some_length_ne_zero {α : Type} (hs : List α) (hne : hs ≠ []) :
    ¬ (hs.map some).length = 0 := by
  rw [List.length_map]
  exact fun h => hne (List.length_eq_zero.mp h)

/-- C13: for every non-empty list of non-nil hooks `h0..hk` registered on a
`CategoryUpdate`, a `CategoryUpdateOne` or a `MessageWithOptionalsDelete`, the
loop over the hooks builds the composition `h0(h1(...hk(core)...))`, the first
registered hook outermost and the core mutator innermost, and what `Save`/`Exec`
returns and leaves behind is read off one call of `Mutate` of that composition
on the builder's mutation. -/
theorem Save_runs_composed_hooks (pkg : CategoryPkg) (drv : UpdateDriver)
    (mpkg : MessageWithOptionalsPkg) (ddrv : DeleteDriver)
    (hs : List (Hook CategoryMutation)) (ds : List (Hook MessageWithOptionalsMutation))
    (a : Addr) (fields : List String)
    (w : World CategoryMutation UpdateSpec)
    (dw : World MessageWithOptionalsMutation DeleteSpec)
    (hne : hs ≠ []) (dne : ds ≠ []) :
    (∀ (h0 : Hook CategoryMutation) (rest : List (Hook CategoryMutation))
        (core : Mutator CategoryMutation UpdateSpec Nat),
      wrapHooks ((h0 :: rest).map some).reverse core =
        some (h0.apply (rest.foldr (fun h mutator => h.apply mutator) core))) ∧
    CategoryUpdate.Save pkg drv { hooks := hs.map some, mutation := a } w =
      (match ((hs.foldr (fun h mutator => h.apply mutator) (CategoryUpdate.core pkg drv))
          (.own a)
          { heap := w.heap, log := w.log, mutation := a, err := none, result := 0 }) with
        | ((_, some e), fr) =>
          ((0, some e), { hooks := hs.map some, mutation := fr.mutation },
            { heap := fr.heap, log := fr.log })
        | ((_, none), fr) =>
          ((fr.result, fr.err), { hooks := hs.map some, mutation := fr.mutation },
            { heap := fr.heap, log := fr.log })) ∧
    CategoryUpdateOne.Save pkg drv { fields := fields, hooks := hs.map some, mutation := a } w =
      (match ((hs.foldr (fun h mutator => h.apply mutator)
          (CategoryUpdateOne.core pkg drv fields)) (.own a)
          { heap := w.heap, log := w.log, mutation := a, err := none, result := none }) with
        | ((_, some e), fr) =>
          ((none, some e), { fields := fields, hooks := hs.map some, mutation := fr.mutation },
            { heap := fr.heap, log := fr.log })
        | ((_, none), fr) =>
          ((fr.result, fr.err),
            { fields := fields, hooks := hs.map some, mutation := fr.mutation },
            { heap := fr.heap, log := fr.log })) ∧
    MessageWithOptionalsDelete.Exec mpkg ddrv { hooks := ds.map some, mutation := a } dw =
      (match ((ds.foldr (fun h mutator => h.apply mutator)
          (MessageWithOptionalsDelete.core mpkg ddrv)) (.own a)
          { heap := dw.heap, log := dw.log, mutation := a, err := none, result := 0 }) with
        | ((_, some e), fr) =>
          ((0, some e), { hooks := ds.map some, mutation := fr.mutation },
            { heap := fr.heap, log := fr.log })
        | ((_, none), fr) =>
          ((fr.result, fr.err), { hooks := ds.map some, mutation := fr.mutation },
            { heap := fr.heap, log := fr.log })) := by
  refine ⟨?_, ?_, ?_, ?_⟩
  · intro h0 rest core
    rw [wrapHooks_reverse]
    rfl
  · unfold CategoryUpdate.Save
    simp only [map_some_length_ne_zero hs hne, if_false, wrapHooks_reverse]
    generalize (hs.foldr (fun h mutator => h.apply mutator) (CategoryUpdate.core pkg drv))
      (.own a) { heap := w.heap, log := w.log, mutation := a, err := none, result := 0 } = r
    obtain ⟨⟨v, e⟩, fr⟩ := r
    cases e <;> rfl
  · unfold CategoryUpdateOne.Save
    simp only [map_some_length_ne_zero hs hne, if_false, wrapHooks_reverse]
    generalize (hs.foldr (fun h mutator => h.apply mutator)
      (CategoryUpdateOne.core pkg drv fields)) (.own a)
      { heap := w.heap, log := w.log, mutation := a, err := none, result := none } = r
    obtain ⟨⟨v, e⟩, fr⟩ := r
    cases e <;> rfl
  · unfold MessageWithOptionalsDelete.Exec
    simp only [map_some_length_ne_zero ds dne, if_false, wrapHooks_reverse]
    generalize (ds.foldr (fun h mutator => h.apply mutator)
      (MessageWithOptionalsDelete.core mpkg ddrv)) (.own a)
      { heap := dw.heap, log := dw.log, mutation := a, err := none, result := 0 } = r
    obtain ⟨⟨v, e⟩, fr⟩ := r
    cases e <;> rfl

theorem Save_runs_composed_hooks_witness :
    ([passHook, swapHook 0] : List (Hook CategoryMutation)) ≠ [] ∧
    ([passHook] : List (Hook MessageWithOptionalsMutation)) ≠ [] ∧
    CategoryUpdate.Save examplePkg (constUpdateDriver 1 none (.ok { ID := 7 }))
        { hooks := [passHook, swapHook 0].map some, mutation := 0 } (twoMutationWorld "a" "b") =
      (match (([passHook, swapHook 0].foldr (fun h mutator => h.apply mutator)
          (CategoryUpdate.core examplePkg (constUpdateDriver 1 none (.ok { ID := 7 }))))
          (.own 0)
          { heap := (twoMutationWorld "a" "b").heap, log := (twoMutationWorld "a" "b").log
            mutation := 0, err := none, result := 0 }) with
        | ((_, some e), fr) =>
          ((0, some e), { hooks := [passHook, swapHook 0].map some, mutation := fr.mutation },
            { heap := fr.heap, log := fr.log })
        | ((_, none), fr) =>
          ((fr.result, fr.err),
            { hooks := [passHook, swapHook 0].map some, mutation := fr.mutation },
            { heap := fr.heap, log := fr.log })) :=
  ⟨List.cons_ne_nil _ _, List.cons_ne_nil _ _,
    (Save_runs_composed_hooks examplePkg (constUpdateDriver 1 none (.ok { ID := 7 }))
      exampleMessagePkg (constDeleteDriver 1 none) [passHook, swapHook 0] [passHook] 0 []
      (twoMutationWorld "a" "b") emptyDeleteWorld
      (List.cons_ne_nil _ _) (List.cons_ne_nil _ _)).2.1⟩

end hooks
end Ent

namespace Ent

/-! ## Selected columns of `CategoryUpdateOne` -/

section select

theorem setPredicate_Node (spec : UpdateSpec) (ps : List Predicate) :
    (setPredicate spec ps).Node = spec.Node := by
  unfold setPredicate; split <;> rfl

theorem appendSet_Node {α : Type} (spec : UpdateSpec) (value : Option α) (mk : α → FieldSpec) :
    (appendSet spec value mk).Node = spec.Node := by
  cases value <;> rfl

theorem appendAdd_Node {α : Type} (spec : UpdateSpec) (value : Option α) (mk : α → FieldSpec) :
    (appendAdd spec value mk).Node = spec.Node := by
  cases value <;> rfl

theorem appendClear_Node (spec : UpdateSpec) (cleared : Bool) (f : FieldSpec) :
    (appendClear spec cleared f).Node = spec.Node := by
  unfold appendClear; split <;> rfl

theorem appendEdgeClear_Node (spec : UpdateSpec) (cond : Bool) (edge : EdgeSpec) :
    (appendEdgeClear spec cond edge).Node = spec.Node := by
  unfold appendEdgeClear; split <;> rfl

theorem appendEdgeAdd_Node (spec : UpdateSpec) (cond : Bool) (edge : EdgeSpec) :
    (appendEdgeAdd spec cond edge).Node = spec.Node := by
  unfold appendEdgeAdd; split <;> rfl

theorem mutationSpec_Node (pkg : CategoryPkg) (m : CategoryMutation) (spec : UpdateSpec) :
    (mutationSpec pkg m spec).Node = spec.Node := by
  simp only [mutationSpec, setPredicate_Node, appendSet_Node, appendAdd_Node, appendClear_Node,
    appendEdgeClear_Node, appendEdgeAdd_Node]

theorem selectColumns_valid (pkg : CategoryPkg) (fields columns : List String)
    (h : ∀ c ∈ fields, pkg.ValidColumn c = true) :
    selectColumns pkg fields columns =
      .ok (columns ++ fields.filter (fun c => decide (c ≠ pkg.FieldID))) := by
  induction fields generalizing columns with
  | nil => simp [selectColumns]
  | cons f rest ih =>
    have hf : pkg.ValidColumn f = true := h f (List.mem_cons_self _ _)
    have hrest : ∀ c ∈ rest, pkg.ValidColumn c = true :=
      fun c hc => h c (List.mem_cons_of_mem _ hc)
    unfold selectColumns
    by_cases hid : f = pkg.FieldID
    · have hf2 : pkg.ValidColumn pkg.FieldID = true := hid ▸ hf
      simp [hf2, hid, ih _ hrest]
    · simp [hf, hid, ih _ hrest]

theorem count_id_filter (id : String) (l : List String) :
    (id :: l.filter (fun c => decide (c ≠ id))).count id = 1 := by
  rw [List.count_cons_self, List.count_eq_zero.mpr]
  intro hmem
  have := (List.mem_filter.mp hmem).2
  simp at this

/-- C16: for every `CategoryUpdateOne` whose mutation holds an id, the update
specification handed to the store lists `category.Columns` as returned columns
when `Select` was never called; after `Select(f, fs...)` with valid column
names it lists the id column followed by the selected names other than the id
column in the order given, so the id column is present, first, and occurs
exactly once. -/
theorem updateOne_returned_columns (pkg : CategoryPkg) (drv : UpdateDriver)
    (cuo : CategoryUpdateOne) (m : CategoryMutation) (log : List UpdateSpec) (id : Int)
    (hid : m.id = some id) :
    (cuo.fields = [] →
      ∃ spec, CategoryUpdateOne.buildSpec pkg cuo.fields m = .ok spec ∧
        (CategoryUpdateOne.sqlSave pkg drv cuo.fields m log).2 = log ++ [spec] ∧
        spec.Node.Columns = pkg.Columns) ∧
    (∀ (f : String) (fs : List String), (∀ c ∈ f :: fs, pkg.ValidColumn c = true) →
      ∃ spec, CategoryUpdateOne.buildSpec pkg (CategoryUpdateOne.Select f fs cuo).fields m =
          .ok spec ∧
        (CategoryUpdateOne.sqlSave pkg drv (CategoryUpdateOne.Select f fs cuo).fields m log).2 =
          log ++ [spec] ∧
        spec.Node.Columns =
          pkg.FieldID :: (f :: fs).filter (fun c => decide (c ≠ pkg.FieldID)) ∧
        spec.Node.Columns.head? = some pkg.FieldID ∧
        spec.Node.Columns.count pkg.FieldID = 1) := by
  constructor
  · intro hf
    have hb : CategoryUpdateOne.buildSpec pkg cuo.fields m =
        .ok (mutationSpec pkg m { nodeSpec pkg with Node := { (nodeSpec pkg).Node with
          ID := { (nodeSpec pkg).Node.ID with Value := some (.int id) } } }) := by
      simp [CategoryUpdateOne.buildSpec, hid, hf]
    refine ⟨_, hb, ?_, ?_⟩
    · rw [CategoryUpdateOne.sqlSave_ok pkg drv _ m log _ hb]
    · rw [mutationSpec_Node]; rfl
  · intro f fs hv
    have hb : CategoryUpdateOne.buildSpec pkg (CategoryUpdateOne.Select f fs cuo).fields m =
        .ok (mutationSpec pkg m { nodeSpec pkg with Node := { (nodeSpec pkg).Node with
          ID := { (nodeSpec pkg).Node.ID with Value := some (.int id) }
          Columns := pkg.FieldID :: (f :: fs).filter (fun c => decide (c ≠ pkg.FieldID)) } }) := by
      have hs := selectColumns_valid pkg (f :: fs) [pkg.FieldID] hv
      simp only [CategoryUpdateOne.buildSpec, hid, CategoryUpdateOne.Select, List.singleton_append,
        List.length_cons, Nat.zero_lt_succ, if_true, hs]
    refine ⟨_, hb, ?_, ?_, ?_, ?_⟩
    · rw [CategoryUpdateOne.sqlSave_ok pkg drv _ m log _ hb]
    · rw [mutationSpec_Node]
    · rw [mutationSpec_Node]; rfl
    · rw [mutationSpec_Node]; exact count_id_filter _ _

theorem updateOne_returned_columns_witness :
    ({ emptyMutation with id := some 7 } : CategoryMutation).id = some 7 ∧
    ∃ spec, CategoryUpdateOne.buildSpec examplePkg
          (CategoryUpdateOne.Select "text" ["id", "count"]
            { fields := [], hooks := [], mutation := 0 }).fields
          { emptyMutation with id := some 7 } = .ok spec ∧
        (CategoryUpdateOne.sqlSave examplePkg (constUpdateDriver 1 none (.ok { ID := 7 }))
          (CategoryUpdateOne.Select "text" ["id", "count"]
            { fields := [], hooks := [], mutation := 0 }).fields
          { emptyMutation with id := some 7 } []).2 = [] ++ [spec] ∧
        spec.Node.Columns =
          examplePkg.FieldID ::
            ("text" :: ["id", "count"]).filter (fun c => decide (c ≠ examplePkg.FieldID)) ∧
        spec.Node.Columns.head? = some examplePkg.FieldID ∧
        spec.Node.Columns.count examplePkg.FieldID = 1 :=
  ⟨rfl,
    (updateOne_returned_columns examplePkg (constUpdateDriver 1 none (.ok { ID := 7 }))
      { fields := [], hooks := [], mutation := 0 } { emptyMutation with id := some 7 } [] 7
      rfl).2 "text" ["id", "count"] (by decide)⟩

end select
end Ent

namespace Ent

/-! ## Setters -/

section setters

/-- C18: on `CategoryUpdate` and `CategoryUpdateOne`, each of
`SetNillableUUIDA`, `SetNillableDuration` and `SetNillableCount` called with
nil leaves every mutation object unchanged, called with a pointer to `v` has
exactly the effect of `SetUUIDA(v)`, `SetDuration(v)` or `SetCount(v)`, and in
both cases returns the builder it was called on. -/
theorem SetNillable_follows_Set (mm : CategoryMutationMethods) (cu : CategoryUpdate)
    (cuo : CategoryUpdateOne) (heap : Addr → CategoryMutation) :
    (CategoryUpdate.SetNillableUUIDA mm none cu heap = (cu, heap) ∧
      CategoryUpdate.SetNillableDuration mm none cu heap = (cu, heap) ∧
      CategoryUpdate.SetNillableCount mm none cu heap = (cu, heap) ∧
      CategoryUpdateOne.SetNillableUUIDA mm none cuo heap = (cuo, heap) ∧
      CategoryUpdateOne.SetNillableDuration mm none cuo heap = (cuo, heap) ∧
      CategoryUpdateOne.SetNillableCount mm none cuo heap = (cuo, heap)) ∧
    (∀ v, CategoryUpdate.SetNillableUUIDA mm (some v) cu heap =
        CategoryUpdate.SetUUIDA mm v cu heap ∧
      (CategoryUpdate.SetNillableUUIDA mm (some v) cu heap).1 = cu) ∧
    (∀ v, CategoryUpdate.SetNillableDuration mm (some v) cu heap =
        CategoryUpdate.SetDuration mm v cu heap ∧
      (CategoryUpdate.SetNillableDuration mm (some v) cu heap).1 = cu) ∧
    (∀ v, CategoryUpdate.SetNillableCount mm (some v) cu heap =
        CategoryUpdate.SetCount mm v cu heap ∧
      (CategoryUpdate.SetNillableCount mm (some v) cu heap).1 = cu) ∧
    (∀ v, CategoryUpdateOne.SetNillableUUIDA mm (some v) cuo heap =
        CategoryUpdateOne.SetUUIDA mm v cuo heap ∧
      (CategoryUpdateOne.SetNillableUUIDA mm (some v) cuo heap).1 = cuo) ∧
    (∀ v, CategoryUpdateOne.SetNillableDuration mm (some v) cuo heap =
        CategoryUpdateOne.SetDuration mm v cuo heap ∧
      (CategoryUpdateOne.SetNillableDuration mm (some v) cuo heap).1 = cuo) ∧
    (∀ v, CategoryUpdateOne.SetNillableCount mm (some v) cuo heap =
        CategoryUpdateOne.SetCount mm v cuo heap ∧
      (CategoryUpdateOne.SetNillableCount mm (some v) cuo heap).1 = cuo) :=
  ⟨⟨rfl, rfl, rfl, rfl, rfl, rfl⟩, fun _ => ⟨rfl, rfl⟩, fun _ => ⟨rfl, rfl⟩,
    fun _ => ⟨rfl, rfl⟩, fun _ => ⟨rfl, rfl⟩, fun _ => ⟨rfl, rfl⟩, fun _ => ⟨rfl, rfl⟩⟩

theorem todoIDs_upto (t : List Todo) (k : Nat) (hk : k ≤ t.length) :
    (List.range k).foldl (fun ids i => ids.set i (t.getD i { ID := 0 }).ID)
        (List.replicate t.length 0) =
      (t.map (fun x => x.ID)).take k ++ List.replicate (t.length - k) 0 := by
  induction k with
  | zero => simp
  | succ k ih =>
    rw [List.range_succ, List.foldl_append, ih (by omega)]
    simp only [List.foldl_cons, List.foldl_nil]
    have hlen : ((t.map (fun x => x.ID)).take k).length = k := by
      simp only [List.length_take, List.length_map]; omega
    obtain ⟨d, hd⟩ : ∃ d, t.length - k = d + 1 := ⟨t.length - k - 1, by omega⟩
    have hd2 : t.length - (k + 1) = d := by omega
    have hk2 : k < t.length := by omega
    rw [List.set_append, hlen, hd, hd2, List.replicate_succ]
    simp only [Nat.lt_irrefl, if_false, Nat.sub_self, List.set_cons_zero]
    rw [List.take_succ]
    simp [List.getD_eq_getElem?_getD, hk2]

theorem todoIDs_eq_map (t : List Todo) : todoIDs t = t.map (fun x => x.ID) := by
  unfold todoIDs
  rw [todoIDs_upto t t.length (Nat.le_refl _)]
  simp

/-- C19: for every list `ts` of Todo entities, the id list that `AddTodos` and
`RemoveTodos` build is the list of the entities' IDs in the same order and of
the same length, empty for the empty list; `AddTodos(ts...)` has exactly the
effect of `AddTodoIDs` on that list and `RemoveTodos(ts...)` that of
`RemoveTodoIDs`, on `CategoryUpdate` and on `CategoryUpdateOne`. -/
theorem AddTodos_follows_AddTodoIDs (mm : CategoryMutationMethods) (cu : CategoryUpdate)
    (cuo : CategoryUpdateOne) (heap : Addr → CategoryMutation) (ts : List Todo) :
    todoIDs ts = ts.map (fun x => x.ID) ∧
    (todoIDs ts).length = ts.length ∧
    todoIDs [] = [] ∧
    CategoryUpdate.AddTodos mm ts cu heap =
      CategoryUpdate.AddTodoIDs mm (ts.map (fun x => x.ID)) cu heap ∧
    CategoryUpdate.RemoveTodos mm ts cu heap =
      CategoryUpdate.RemoveTodoIDs mm (ts.map (fun x => x.ID)) cu heap ∧
    CategoryUpdateOne.AddTodos mm ts cuo heap =
      CategoryUpdateOne.AddTodoIDs mm (ts.map (fun x => x.ID)) cuo heap ∧
    CategoryUpdateOne.RemoveTodos mm ts cuo heap =
      CategoryUpdateOne.RemoveTodoIDs mm (ts.map (fun x => x.ID)) cuo heap := by
  refine ⟨todoIDs_eq_map ts, ?_, rfl, ?_, ?_, ?_, ?_⟩
  · rw [todoIDs_eq_map, List.length_map]
  · unfold CategoryUpdate.AddTodos; rw [todoIDs_eq_map]
  · unfold CategoryUpdate.RemoveTodos; rw [todoIDs_eq_map]
  · unfold CategoryUpdateOne.AddTodos; rw [todoIDs_eq_map]
  · unfold CategoryUpdateOne.RemoveTodos; rw [todoIDs_eq_map]

end setters

/-! ## Validation under hooks -/

section validation

/-- C20: a `CategoryUpdate` and a `CategoryUpdateOne` with one hook that passes
the mutation object at address 1 down the chain, on a store where the
builder's own mutation (address 0) sets the text `a` and the mutation at
address 1 sets the empty text, which `TextValidator` rejects: `check` accepts
the builder's mutation, `Save` returns without error, and the one store update
it issues is built from the mutation at address 1 and sets the empty text. -/
theorem Save_stores_unchecked_mutation :
    check examplePkg ((twoMutationWorld "a" "").heap 0) = none ∧
    check examplePkg ((twoMutationWorld "a" "").heap 1) =
      some (.validation "text"
        "ent: validator failed for field \"Category.text\": value is empty") ∧
    (CategoryUpdate.Save examplePkg (constUpdateDriver 1 none (.ok { ID := 7 }))
        { hooks := [some (swapHook 1)], mutation := 0 } (twoMutationWorld "a" "")).1 =
      (1, none) ∧
    (CategoryUpdate.Save examplePkg (constUpdateDriver 1 none (.ok { ID := 7 }))
        { hooks := [some (swapHook 1)], mutation := 0 } (twoMutationWorld "a" "")).2.2.log =
      [CategoryUpdate.buildSpec examplePkg ((twoMutationWorld "a" "").heap 1)] ∧
    (CategoryUpdate.buildSpec examplePkg ((twoMutationWorld "a" "").heap 1)).FieldsSet =
      [{ Typ := .TypeString, Value := some (.string ""), Column := "text" }] ∧
    (CategoryUpdateOne.Save examplePkg (constUpdateDriver 1 none (.ok { ID := 7 }))
        { fields := [], hooks := [some (swapHook 1)], mutation := 0 }
        (twoMutationWorld "a" "")).1 = (some { ID := 7 }, none) ∧
    ((CategoryUpdateOne.Save examplePkg (constUpdateDriver 1 none (.ok { ID := 7 }))
        { fields := [], hooks := [some (swapHook 1)], mutation := 0 }
        (twoMutationWorld "a" "")).2.2.log.map (fun s => s.FieldsSet)) =
      [[{ Typ := .TypeString, Value := some (.string ""), Column := "text" }]] := by
  refine ⟨?_, ?_, ?_, ?_, ?_, ?_, ?_⟩ <;> rfl

end validation
end Ent

namespace Ent

/-! ## The validators of `check` -/

section checks

/-- C21: for every mutation state, `check` of `CategoryUpdate` and of
`CategoryUpdateOne` returns nil if and only if the text is unset or accepted
by `TextValidator` and the status is unset or accepted by `StatusValidator`;
a rejected set text gives the `ValidationError` named "text" whatever the
status is, an unset or accepted text with a rejected set status gives the one
named "status", and the validator of a field that is not set has no part in
the result. -/
theorem check_runs_validators (pkg : CategoryPkg) (m : CategoryMutation) :
    (check pkg m = none ↔
      (∀ v, m.text = some v → pkg.TextValidator v = none) ∧
      (∀ v, m.status = some v → pkg.StatusValidator v = none)) ∧
    (∀ v err, m.text = some v → pkg.TextValidator v = some err →
      check pkg m = some (.validation "text"
        ("ent: validator failed for field \"Category.text\": " ++ err))) ∧
    (∀ v err, (∀ t, m.text = some t → pkg.TextValidator t = none) →
      m.status = some v → pkg.StatusValidator v = some err →
      check pkg m = some (.validation "status"
        ("ent: validator failed for field \"Category.status\": " ++ err))) ∧
    (m.text = none → ∀ tv, check { pkg with TextValidator := tv } m = check pkg m) ∧
    (m.status = none → ∀ sv, check { pkg with StatusValidator := sv } m = check pkg m) ∧
    check examplePkg { emptyMutation with text := some "", status := some "UNKNOWN" } =
      some (.validation "text"
        "ent: validator failed for field \"Category.text\": value is empty") ∧
    check examplePkg { emptyMutation with text := some "a", status := some "UNKNOWN" } =
      some (.validation "status"
        "ent: validator failed for field \"Category.status\": invalid enum value") ∧
    check examplePkg { emptyMutation with text := some "a", status := some "ENABLED" } =
      none := by
  refine ⟨?_, ?_, ?_, ?_, ?_, by decide, by decide, by decide⟩
  · unfold check
    cases ht : m.text with
    | none =>
      cases hs : m.status with
      | none => simp
      | some s => cases hv : pkg.StatusValidator s <;> simp [hv]
    | some t =>
      cases htv : pkg.TextValidator t with
      | some e => simp [htv]
      | none =>
        cases hs : m.status with
        | none => simp [htv]
        | some s => cases hv : pkg.StatusValidator s <;> simp [htv, hv]
  · intro v err hv he
    simp [check, hv, he]
  · intro v err ht hv he
    unfold check
    cases hm : m.text with
    | none => simp [hv, he]
    | some t => simp [ht t hm, hv, he]
  · intro ht tv
    simp [check, ht]
  · intro hs sv
    simp [check, hs]

end checks
end Ent

namespace Ent

/-! ## The error variable of `Save` under hooks -/

section captured

theorem run_forget {M S R : Type} (next : Mutator M S R)
    (rec : Mutator M S (R × List CoreCall))
    (hsim : ∀ m fr, (rec m fr).1 = (next m fr.forget).1 ∧
      (rec m fr).2.forget = (next m fr.forget).2)
    (prog : HookProg M) (fr : Frame M S (R × List CoreCall)) :
    (prog.run rec fr).1 = (prog.run next fr.forget).1 ∧
      (prog.run rec fr).2.forget = (prog.run next fr.forget).2 := by
  induction prog generalizing fr with
  | done v err => exact ⟨rfl, rfl⟩
  | next m k ih =>
    simp only [HookProg.run]
    rw [(hsim m fr).1, ← (hsim m fr).2]
    exact ih _ _
  | update f k ih => exact ih _
  | inspect k ih => exact ih _ _

theorem chain_forget {M S R : Type} (core : Mutator M S R) (hs : List (Hook M))
    (m : MutationArg) (fr : Frame M S (R × List CoreCall)) :
    (hs.foldr (fun h mutator => h.apply mutator) (recorded core) m fr).1 =
        (hs.foldr (fun h mutator => h.apply mutator) core m fr.forget).1 ∧
      (hs.foldr (fun h mutator => h.apply mutator) (recorded core) m fr).2.forget =
        (hs.foldr (fun h mutator => h.apply mutator) core m fr.forget).2 := by
  induction hs generalizing m fr with
  | nil => exact ⟨rfl, rfl⟩
  | cons h rest ih =>
    simp only [List.foldr_cons, Hook.apply]
    exact run_forget _ _ (fun m fr => ih m fr) _ _

theorem run_LastErr {M S R : Type} (rec : Mutator M S (R × List CoreCall))
    (hrec : ∀ m fr, LastErr fr → LastErr (rec m fr).2)
    (prog : HookProg M) (fr : Frame M S (R × List CoreCall)) (h : LastErr fr) :
    LastErr (prog.run rec fr).2 := by
  induction prog generalizing fr with
  | done v err => exact h
  | next m k ih => exact ih _ _ (hrec m fr h)
  | update f k ih => exact ih _ h
  | inspect k ih => exact ih _ _ h

theorem chain_LastErr {M S R : Type} (core : Mutator M S R)
    (hcore : ∀ a fr, (core (.own a) fr).2.err = (core (.own a) fr).1.2)
    (hs : List (Hook M)) (m : MutationArg) (fr : Frame M S (R × List CoreCall))
    (h : LastErr fr) :
    LastErr (hs.foldr (fun h mutator => h.apply mutator) (recorded core) m fr).2 := by
  induction hs generalizing m fr with
  | nil =>
    intro a e hlast
    simp only [List.foldr_nil, recorded, List.getLast?_concat, Option.some.injEq,
      CoreCall.mk.injEq] at hlast
    obtain ⟨hm, he⟩ := hlast
    subst hm
    simp only [List.foldr_nil, recorded]
    rw [← he]
    exact hcore a _
  | cons h0 rest ih =>
    simp only [List.foldr_cons, Hook.apply]
    exact run_LastErr _ (fun m fr hfr => ih m fr hfr) _ _ h

theorem CategoryUpdate.core_err (pkg : CategoryPkg) (drv : UpdateDriver) (a : Addr)
    (fr : Frame CategoryMutation UpdateSpec Nat) :
    (CategoryUpdate.core pkg drv (.own a) fr).2.err =
      (CategoryUpdate.core pkg drv (.own a) fr).1.2 := by
  simp only [CategoryUpdate.core]
  split <;> rfl

theorem CategoryUpdateOne.coreOne_err (pkg : CategoryPkg) (drv : UpdateDriver)
    (fields : List String) (a : Addr)
    (fr : Frame CategoryMutation UpdateSpec (Option Category)) :
    (CategoryUpdateOne.core pkg drv fields (.own a) fr).2.err =
      (CategoryUpdateOne.core pkg drv fields (.own a) fr).1.2 := by
  simp only [CategoryUpdateOne.core]
  split <;> rfl

theorem CategoryUpdate.Save_hooks (pkg : CategoryPkg) (drv : UpdateDriver)
    (hs : List (Hook CategoryMutation)) (a : Addr) (w : World CategoryMutation UpdateSpec)
    (hne : hs ≠ []) :
    (CategoryUpdate.Save pkg drv { hooks := hs.map some, mutation := a } w).1 =
      (match (hs.foldr (fun h mutator => h.apply mutator) (CategoryUpdate.core pkg drv)
          (.own a)
          { heap := w.heap, log := w.log, mutation := a, err := none, result := 0 }) with
        | ((_, some e), _) => (0, some e)
        | ((_, none), fr) => (fr.result, fr.err)) ∧
    (CategoryUpdate.Save pkg drv { hooks := hs.map some, mutation := a } w).2.2.log =
      (hs.foldr (fun h mutator => h.apply mutator) (CategoryUpdate.core pkg drv) (.own a)
        { heap := w.heap, log := w.log, mutation := a, err := none, result := 0 }).2.log := by
  unfold CategoryUpdate.Save
  simp only [map_some_length_ne_zero hs hne, if_false, wrapHooks_reverse]
  generalize (hs.foldr (fun h mutator => h.apply mutator) (CategoryUpdate.core pkg drv))
    (.own a) { heap := w.heap, log := w.log, mutation := a, err := none, result := 0 } = r
  obtain ⟨⟨v, e⟩, fr⟩ := r
  cases e <;> exact ⟨rfl, rfl⟩

theorem CategoryUpdateOne.SaveOne_hooks (pkg : CategoryPkg) (drv : UpdateDriver)
    (hs : List (Hook CategoryMutation)) (fields : List String) (a : Addr)
    (w : World CategoryMutation UpdateSpec) (hne : hs ≠ []) :
    (CategoryUpdateOne.Save pkg drv
        { fields := fields, hooks := hs.map some, mutation := a } w).1 =
      (match (hs.foldr (fun h mutator => h.apply mutator)
          (CategoryUpdateOne.core pkg drv fields) (.own a)
          { heap := w.heap, log := w.log, mutation := a, err := none, result := none }) with
        | ((_, some e), _) => (none, some e)
        | ((_, none), fr) => (fr.result, fr.err)) ∧
    (CategoryUpdateOne.Save pkg drv
        { fields := fields, hooks := hs.map some, mutation := a } w).2.2.log =
      (hs.foldr (fun h mutator => h.apply mutator) (CategoryUpdateOne.core pkg drv fields)
        (.own a)
        { heap := w.heap, log := w.log, mutation := a, err := none, result := none }).2.log := by
  unfold CategoryUpdateOne.Save
  simp only [map_some_length_ne_zero hs hne, if_false, wrapHooks_reverse]
  generalize (hs.foldr (fun h mutator => h.apply mutator)
    (CategoryUpdateOne.core pkg drv fields)) (.own a)
    { heap := w.heap, log := w.log, mutation := a, err := none, result := none } = r
  obtain ⟨⟨v, e⟩, fr⟩ := r
  cases e <;> exact ⟨rfl, rfl⟩

theorem MessageWithOptionalsDelete.Exec_hooks (pkg : MessageWithOptionalsPkg)
    (drv : DeleteDriver) (ds : List (Hook MessageWithOptionalsMutation)) (a : Addr)
    (w : World MessageWithOptionalsMutation DeleteSpec) (dne : ds ≠ []) :
    (MessageWithOptionalsDelete.Exec pkg drv { hooks := ds.map some, mutation := a } w).1 =
      (match (ds.foldr (fun h mutator => h.apply mutator)
          (MessageWithOptionalsDelete.core pkg drv) (.own a)
          { heap := w.heap, log := w.log, mutation := a, err := none, result := 0 }) with
        | ((_, some e), _) => (0, some e)
        | ((_, none), fr) => (fr.result, fr.err)) ∧
    (MessageWithOptionalsDelete.Exec pkg drv
        { hooks := ds.map some, mutation := a } w).2.2.log =
      (ds.foldr (fun h mutator => h.apply mutator) (MessageWithOptionalsDelete.core pkg drv)
        (.own a)
        { heap := w.heap, log := w.log, mutation := a, err := none, result := 0 }).2.log := by
  unfold MessageWithOptionalsDelete.Exec
  simp only [map_some_length_ne_zero ds dne, if_false, wrapHooks_reverse]
  generalize (ds.foldr (fun h mutator => h.apply mutator)
    (MessageWithOptionalsDelete.core pkg drv)) (.own a)
    { heap := w.heap, log := w.log, mutation := a, err := none, result := 0 } = r
  obtain ⟨⟨v, e⟩, fr⟩ := r
  cases e <;> exact ⟨rfl, rfl⟩

theorem chain_error {M S R : Type} (core : Mutator M S R)
    (hcore : ∀ a fr, (core (.own a) fr).2.err = (core (.own a) fr).1.2)
    (hs : List (Hook M)) (m : MutationArg) (heap : Addr → M) (log : List S) (a : Addr)
    (r0 : R) (b : Addr) (e : EntError)
    (hlast : (hs.foldr (fun h mutator => h.apply mutator) (recorded core) m
        { heap := heap, log := log, mutation := a, err := none
          result := (r0, []) }).2.result.2.getLast? = some { arg := .own b, err := some e }) :
    (hs.foldr (fun h mutator => h.apply mutator) core m
      { heap := heap, log := log, mutation := a, err := none, result := r0 }).2.err =
      some e := by
  have hinv := chain_LastErr core hcore hs m
    { heap := heap, log := log, mutation := a, err := none, result := (r0, []) }
    (fun _ _ h => by simp at h) b (some e) hlast
  have hsim := (chain_forget core hs m
    { heap := heap, log := log, mutation := a, err := none, result := (r0, []) }).2
  exact hsim ▸ hinv

theorem chain_returned {M S R : Type} (core : Mutator M S R)
    (hs : List (Hook M)) (m : MutationArg) (fr : Frame M S (R × List CoreCall)) :
    (hs.foldr (fun h mutator => h.apply mutator) core m fr.forget).1 =
      (hs.foldr (fun h mutator => h.apply mutator) (recorded core) m fr).1 :=
  (chain_forget core hs m fr).1.symm

end captured
end Ent

namespace Ent

section swallowed

/-- C22: for every `CategoryUpdate` (and `CategoryUpdateOne`) with at least one
hook, when the `Mutate` of the hook chain returns a nil error and the last
invocation of the core mutator was on a mutation of the builder's type and
failed with error `e`, from `check` or from the store update, `Save` returns
`e`. -/
theorem Save_returns_last_core_error (pkg : CategoryPkg) (drv : UpdateDriver)
    (hs : List (Hook CategoryMutation)) (fields : List String) (a : Addr)
    (w : World CategoryMutation UpdateSpec) (hne : hs ≠ []) :
    (∀ b e,
      (hs.foldr (fun h mutator => h.apply mutator) (recorded (CategoryUpdate.core pkg drv))
        (.own a)
        { heap := w.heap, log := w.log, mutation := a, err := none
          result := (0, []) }).1.2 = none →
      (hs.foldr (fun h mutator => h.apply mutator) (recorded (CategoryUpdate.core pkg drv))
        (.own a)
        { heap := w.heap, log := w.log, mutation := a, err := none
          result := (0, []) }).2.result.2.getLast? =
        some { arg := .own b, err := some e } →
      (CategoryUpdate.Save pkg drv { hooks := hs.map some, mutation := a } w).1.2 = some e) ∧
    (∀ b e,
      (hs.foldr (fun h mutator => h.apply mutator)
        (recorded (CategoryUpdateOne.core pkg drv fields)) (.own a)
        { heap := w.heap, log := w.log, mutation := a, err := none
          result := (none, []) }).1.2 = none →
      (hs.foldr (fun h mutator => h.apply mutator)
        (recorded (CategoryUpdateOne.core pkg drv fields)) (.own a)
        { heap := w.heap, log := w.log, mutation := a, err := none
          result := (none, []) }).2.result.2.getLast? =
        some { arg := .own b, err := some e } →
      (CategoryUpdateOne.Save pkg drv
        { fields := fields, hooks := hs.map some, mutation := a } w).1.2 = some e) := by
  constructor
  · intro b e hnil hlast
    have herr := chain_error (CategoryUpdate.core pkg drv) (CategoryUpdate.core_err pkg drv)
      hs (.own a) w.heap w.log a 0 b e hlast
    have hret := (congrArg Prod.snd (chain_returned (CategoryUpdate.core pkg drv) hs (.own a)
      { heap := w.heap, log := w.log, mutation := a, err := none, result := (0, []) })).trans
      hnil
    rw [(CategoryUpdate.Save_hooks pkg drv hs a w hne).1]
    revert herr hret
    simp only [Frame.forget]
    generalize (hs.foldr (fun h mutator => h.apply mutator) (CategoryUpdate.core pkg drv))
      (.own a) { heap := w.heap, log := w.log, mutation := a, err := none, result := 0 } = r
    obtain ⟨⟨v, e1⟩, fr⟩ := r
    intro herr hret
    simp only at herr hret
    subst hret
    exact herr
  · intro b e hnil hlast
    have herr := chain_error (CategoryUpdateOne.core pkg drv fields)
      (CategoryUpdateOne.coreOne_err pkg drv fields) hs (.own a) w.heap w.log a none b e hlast
    have hret := (congrArg Prod.snd (chain_returned (CategoryUpdateOne.core pkg drv fields) hs
      (.own a)
      { heap := w.heap, log := w.log, mutation := a, err := none, result := (none, []) })).trans
      hnil
    rw [(CategoryUpdateOne.SaveOne_hooks pkg drv hs fields a w hne).1]
    revert herr hret
    simp only [Frame.forget]
    generalize (hs.foldr (fun h mutator => h.apply mutator)
      (CategoryUpdateOne.core pkg drv fields)) (.own a)
      { heap := w.heap, log := w.log, mutation := a, err := none, result := none } = r
    obtain ⟨⟨v, e1⟩, fr⟩ := r
    intro herr hret
    simp only at herr hret
    subst hret
    exact herr

theorem Save_returns_last_core_error_witness :
    ([swallowHook] : List (Hook CategoryMutation)) ≠ [] ∧
    (CategoryUpdate.Save examplePkg (constUpdateDriver 1 none (.ok { ID := 7 }))
        { hooks := [swallowHook].map some, mutation := 0 } (twoMutationWorld "" "b")).1.2 =
      some (.validation "text"
        "ent: validator failed for field \"Category.text\": value is empty") ∧
    (CategoryUpdateOne.Save examplePkg
        (constUpdateDriver 1 none (.error (.other "connection reset")))
        { fields := [], hooks := [swallowHook].map some, mutation := 0 }
        (twoMutationWorld "a" "b")).1.2 =
      some (.store (.other "connection reset")) :=
  ⟨List.cons_ne_nil _ _,
    (Save_returns_last_core_error examplePkg (constUpdateDriver 1 none (.ok { ID := 7 }))
      [swallowHook] [] 0 (twoMutationWorld "" "b") (List.cons_ne_nil _ _)).1 0 _ rfl rfl,
    (Save_returns_last_core_error examplePkg
      (constUpdateDriver 1 none (.error (.other "connection reset")))
      [swallowHook] [] 0 (twoMutationWorld "a" "b") (List.cons_ne_nil _ _)).2 0 _ rfl rfl⟩

end swallowed
end Ent

namespace Ent

section hookErrors

theorem run_without_next {M S R : Type} (next : Mutator M S R) (prog : HookProg M)
    (fr : Frame M S R) (h : prog.reachesNext fr.heap = false) :
    (prog.run next fr).2.log = fr.log ∧ (prog.run next fr).2.err = fr.err ∧
      (prog.run next fr).2.result = fr.result := by
  induction prog generalizing fr with
  | done v err => exact ⟨rfl, rfl, rfl⟩
  | next m k _ => simp [HookProg.reachesNext] at h
  | update f k ih => exact ih { fr with heap := f fr.heap } h
  | inspect k ih => exact ih _ fr h

/-- C23: for every `CategoryUpdate` or `MessageWithOptionalsDelete` with at
least one hook, when the `Mutate` of the hook chain returns a non-nil error
`e`, `Save`/`Exec` returns `(0, e)`, also after a store operation that
succeeded on `n > 0` rows; and when the first registered hook, the outermost
of the chain, returns without calling the next mutator, so that no hook calls
it, no store operation is issued and `Save`/`Exec` returns `(0, nil)` if the
chain returns no error. -/
theorem hook_error_overrides_result (pkg : CategoryPkg) (drv : UpdateDriver)
    (mpkg : MessageWithOptionalsPkg) (ddrv : DeleteDriver)
    (h0 : Hook CategoryMutation) (rest : List (Hook CategoryMutation))
    (d0 : Hook MessageWithOptionalsMutation) (drest : List (Hook MessageWithOptionalsMutation))
    (a : Addr) (w : World CategoryMutation UpdateSpec)
    (dw : World MessageWithOptionalsMutation DeleteSpec) :
    (∀ e,
      ((h0 :: rest).foldr (fun h mutator => h.apply mutator) (CategoryUpdate.core pkg drv)
        (.own a)
        { heap := w.heap, log := w.log, mutation := a, err := none, result := 0 }).1.2 =
        some e →
      (CategoryUpdate.Save pkg drv { hooks := (h0 :: rest).map some, mutation := a } w).1 =
        (0, some e)) ∧
    (∀ e,
      ((d0 :: drest).foldr (fun h mutator => h.apply mutator)
        (MessageWithOptionalsDelete.core mpkg ddrv) (.own a)
        { heap := dw.heap, log := dw.log, mutation := a, err := none, result := 0 }).1.2 =
        some e →
      (MessageWithOptionalsDelete.Exec mpkg ddrv
        { hooks := (d0 :: drest).map some, mutation := a } dw).1 = (0, some e)) ∧
    ((h0 (.own a)).reachesNext w.heap = false →
      (CategoryUpdate.Save pkg drv
        { hooks := (h0 :: rest).map some, mutation := a } w).2.2.log = w.log ∧
      (((h0 :: rest).foldr (fun h mutator => h.apply mutator) (CategoryUpdate.core pkg drv)
        (.own a)
        { heap := w.heap, log := w.log, mutation := a, err := none, result := 0 }).1.2 =
        none →
        (CategoryUpdate.Save pkg drv { hooks := (h0 :: rest).map some, mutation := a } w).1 =
          (0, none))) ∧
    ((d0 (.own a)).reachesNext dw.heap = false →
      (MessageWithOptionalsDelete.Exec mpkg ddrv
        { hooks := (d0 :: drest).map some, mutation := a } dw).2.2.log = dw.log ∧
      (((d0 :: drest).foldr (fun h mutator => h.apply mutator)
        (MessageWithOptionalsDelete.core mpkg ddrv) (.own a)
        { heap := dw.heap, log := dw.log, mutation := a, err := none, result := 0 }).1.2 =
        none →
        (MessageWithOptionalsDelete.Exec mpkg ddrv
          { hooks := (d0 :: drest).map some, mutation := a } dw).1 = (0, none))) ∧
    ((CategoryUpdate.Save examplePkg (constUpdateDriver 3 none (.ok { ID := 7 }))
        { hooks := [some (failAfterHook (.hook "rollback"))], mutation := 0 }
        (twoMutationWorld "a" "b")).1 = (0, some (.hook "rollback")) ∧
      (CategoryUpdate.Save examplePkg (constUpdateDriver 3 none (.ok { ID := 7 }))
        { hooks := [some (failAfterHook (.hook "rollback"))], mutation := 0 }
        (twoMutationWorld "a" "b")).2.2.log =
        [CategoryUpdate.buildSpec examplePkg ((twoMutationWorld "a" "b").heap 0)] ∧
      (MessageWithOptionalsDelete.Exec exampleMessagePkg (constDeleteDriver 3 none)
        { hooks := [some (failAfterHook (.hook "rollback"))], mutation := 0 }
        emptyDeleteWorld).1 = (0, some (.hook "rollback")) ∧
      (MessageWithOptionalsDelete.Exec exampleMessagePkg (constDeleteDriver 3 none)
        { hooks := [some (failAfterHook (.hook "rollback"))], mutation := 0 }
        emptyDeleteWorld).2.2.log.length = 1 ∧
      (CategoryUpdate.Save examplePkg (constUpdateDriver 3 none (.ok { ID := 7 }))
        { hooks := [some (stopHook none), some passHook], mutation := 0 }
        (twoMutationWorld "a" "b")).1 = (0, none)) := by
  refine ⟨?_, ?_, ?_, ?_, ⟨rfl, rfl, rfl, rfl, rfl⟩⟩
  · intro e he
    rw [(CategoryUpdate.Save_hooks pkg drv (h0 :: rest) a w (List.cons_ne_nil _ _)).1]
    revert he
    generalize ((h0 :: rest).foldr (fun h mutator => h.apply mutator)
      (CategoryUpdate.core pkg drv)) (.own a)
      { heap := w.heap, log := w.log, mutation := a, err := none, result := 0 } = r
    obtain ⟨⟨v, e1⟩, fr⟩ := r
    intro he
    simp only at he
    subst he
    rfl
  · intro e he
    rw [(MessageWithOptionalsDelete.Exec_hooks mpkg ddrv (d0 :: drest) a dw
      (List.cons_ne_nil _ _)).1]
    revert he
    generalize ((d0 :: drest).foldr (fun h mutator => h.apply mutator)
      (MessageWithOptionalsDelete.core mpkg ddrv)) (.own a)
      { heap := dw.heap, log := dw.log, mutation := a, err := none, result := 0 } = r
    obtain ⟨⟨v, e1⟩, fr⟩ := r
    intro he
    simp only at he
    subst he
    rfl
  · intro hno
    have hrun := run_without_next
      (rest.foldr (fun h mutator => h.apply mutator) (CategoryUpdate.core pkg drv))
      (h0 (.own a))
      { heap := w.heap, log := w.log, mutation := a, err := none, result := 0 } hno
    have hS := CategoryUpdate.Save_hooks pkg drv (h0 :: rest) a w (List.cons_ne_nil _ _)
    rw [hS.1, hS.2]
    simp only [List.foldr_cons, Hook.apply]
    revert hrun
    generalize (h0 (.own a)).run
      (rest.foldr (fun h mutator => h.apply mutator) (CategoryUpdate.core pkg drv))
      { heap := w.heap, log := w.log, mutation := a, err := none, result := 0 } = r
    obtain ⟨⟨v, e1⟩, fr⟩ := r
    rintro ⟨hlog, herr, hres⟩
    simp only at hlog herr hres
    refine ⟨hlog, ?_⟩
    intro he
    simp only at he
    subst he
    simp only [herr, hres]
  · intro hno
    have hrun := run_without_next
      (drest.foldr (fun h mutator => h.apply mutator)
        (MessageWithOptionalsDelete.core mpkg ddrv))
      (d0 (.own a))
      { heap := dw.heap, log := dw.log, mutation := a, err := none, result := 0 } hno
    have hS := MessageWithOptionalsDelete.Exec_hooks mpkg ddrv (d0 :: drest) a dw
      (List.cons_ne_nil _ _)
    rw [hS.1, hS.2]
    simp only [List.foldr_cons, Hook.apply]
    revert hrun
    generalize (d0 (.own a)).run
      (drest.foldr (fun h mutator => h.apply mutator)
        (MessageWithOptionalsDelete.core mpkg ddrv))
      { heap := dw.heap, log := dw.log, mutation := a, err := none, result := 0 } = r
    obtain ⟨⟨v, e1⟩, fr⟩ := r
    rintro ⟨hlog, herr, hres⟩
    simp only at hlog herr hres
    refine ⟨hlog, ?_⟩
    intro he
    simp only at he
    subst he
    simp only [herr, hres]

end hookErrors
end Ent

namespace Pagination

/-! ## The parent/children shape of the fixture -/

section fixture

/-- C24: in the fixture of `SetupTest` (todos `1..maxTodos` with ids
`idOffset + i`, todo 1 without parent, every even `i` under todo 1, every odd
`i >= 3` under `i - 2`), todo 1 has exactly `maxTodos / 2 + 1` children, every
odd todo `i` with `3 <= i <= maxTodos - 3` has exactly one child, todo
`i + 2`, and every even todo and todo `maxTodos - 1` have none; listed per
todo, these are the counts `TestConnCollection` asserts. -/
theorem setup_children_shape :
    (setupStore.map (fun r => r.id) =
        (List.range maxTodos).map (fun i => idOffset + ((i + 1 : Nat) : Int)) ∧
      (setupRow 1).parent = none ∧
      (∀ i : Nat, 2 ≤ i → i ≤ maxTodos → i % 2 = 0 →
        (setupRow i).parent = some (idOffset + 1)) ∧
      (∀ i : Nat, 3 ≤ i → i ≤ maxTodos → i % 2 = 1 →
        (setupRow i).parent = some (idOffset + ((i - 2 : Nat) : Int)))) ∧
    (children setupStore (idOffset + 1)).length = maxTodos / 2 + 1 ∧
    (∀ i : Nat, 3 ≤ i → i ≤ maxTodos - 3 → i % 2 = 1 →
      (children setupStore (idOffset + (i : Int))).map (fun r => r.id) =
        [idOffset + ((i + 2 : Nat) : Int)]) ∧
    (∀ i : Nat, 1 ≤ i → i ≤ maxTodos → i % 2 = 0 →
      (children setupStore (idOffset + (i : Int))).length = 0) ∧
    (children setupStore (idOffset + ((maxTodos - 1 : Nat) : Int))).length = 0 ∧
    setupStore.map (fun r => (children setupStore r.id).length) =
      [17, 0, 1, 0, 1, 0, 1, 0, 1, 0, 1, 0, 1, 0, 1, 0,
        1, 0, 1, 0, 1, 0, 1, 0, 1, 0, 1, 0, 1, 0, 0, 0] := by
  refine ⟨⟨by decide, by decide, ?_, ?_⟩, by decide, ?_, ?_, by decide, by decide⟩
  · intro i h1 h2 h3
    have h2b : i ≤ 32 := h2
    interval_cases i <;> first | exact absurd h3 (by decide) | decide
  · intro i h1 h2 h3
    have h2b : i ≤ 32 := h2
    interval_cases i <;> first | exact absurd h3 (by decide) | decide
  · intro i h1 h2 h3
    have h2b : i ≤ 29 := h2
    interval_cases i <;> first | exact absurd h3 (by decide) | decide
  · intro i h1 h2 h3
    have h2b : i ≤ 32 := h2
    interval_cases i <;> first | exact absurd h3 (by decide) | decide

end fixture
end Pagination
